import Mathlib

/-!
The packages of `xuyang-lee/utils`.

A shallow embedding of the Redis locks (`redis/redis_lock/redis_lock.go`,
`redis/reentrant_lock/reentrant_lock.go`), of the snowflake id generator
(`snowflake/`) and of the bitmap (`bitmap/bitmap.go`); the conventions of the last two
are stated where their definitions start.

For the locks:

* The Redis server is an explicit store state: a finite map from keys to records,
  written as a function `String → Option _`.
* `time.Duration` is an integer number of nanoseconds.  The client calls `SetNX` and
  `PExpire` take a `time.Duration` and send it to the server in whole milliseconds
  (`formatMs`); the store records the time to live it was sent, in nanoseconds.  The
  command `PEXPIRE` issued from inside a Lua script takes milliseconds.
* A client call either is answered by the store or fails with an error, an error reply
  of the server included (the server rejects a negative expire time of `SET`); the
  failure is the argument `fault` of every operation (`none`: the store answered).
* Every client call is one atomic step on the store (a single command or one `EVAL`).
* The goroutine started by `startKeepAlive` is modelled by its loop body,
  `keepAliveTick`, fired by the environment; lease expiry is the environment step
  `expire`.
-/

set_option linter.dupNamespace false
set_option autoImplicit false

namespace Utils

/-- Go error values: an error reported by the Redis client, an error built by
`fmt.Errorf` from a constant message, and an error built by `fmt.Errorf` with `%w`
around another error. -/
inductive GoError where
  | client (msg : String)
  | errorf (msg : String)
  | wrapf (msg : String) (inner : GoError)
deriving DecidableEq, Repr

/-- Value of a Go expression of type `int64`, or of type `int` on a 64-bit platform:
the result in the integers wrapped to 64 bits, two's complement. -/
def wrap64 (z : Int) : Int :=
  (z + 9223372036854775808) % 18446744073709551616 - 9223372036854775808

/-- Values of the type `int64` (and of `int`): from `math.MinInt64` to `math.MaxInt64`. -/
def IsInt64 (z : Int) : Prop := -9223372036854775808 ≤ z ∧ z < 9223372036854775808

instance IsInt64.decidable (z : Int) : Decidable (IsInt64 z) := by
  unfold IsInt64; infer_instance

/-- Constant `time.Millisecond`, in nanoseconds. -/
def Millisecond : Int := 1000000

/-- Constant `time.Second`, in nanoseconds. -/
def Second : Int := 1000000000

/-- Duration in whole milliseconds as the Redis client writes it into a command
(`formatMs`): a positive duration below one millisecond is sent as `1`, every other
duration is divided by `time.Millisecond`, the division truncating. -/
def formatMs (dur : Int) : Int :=
  if 0 < dur ∧ dur < Millisecond then 1 else Int.tdiv dur Millisecond

/-- Message of the error `Unlock` builds when the script reports status `0`. -/
def msgNotExist : String := "unlock failed: lock does not exist"

/-- Message of the error `Unlock` builds when the script reports status `-1`. -/
def msgDifferentHolder : String := "unlock failed: lock is held by a different holder"

/-- Prefix `Unlock` puts before a client error (`fmt.Errorf("unlock failed: %w", err)`). -/
def msgUnlockFailed : String := "unlock failed: "

/-! ## Exclusive lock (`redis_lock.go`) -/

namespace redislock

/-- Package variable `defaultExpiration = 10 * time.Second`. -/
def defaultExpiration : Int := 10 * Second

/-- String value stored under a key, with the time to live of the key in nanoseconds
(`none`: the key has no expiry). -/
structure Entry where
  value : String
  ttl : Option Int
deriving DecidableEq, Repr

/-- Store state seen by the exclusive lock: key to string entry. -/
abbrev Store := String → Option Entry

/-- Store with no key. -/
def Store.empty : Store := fun _ => none

/-- Point update of the store. -/
def Store.put (st : Store) (key : String) (v : Option Entry) : Store :=
  fun k => if k = key then v else st k

/-- Time to live, in nanoseconds, of a key that `SetNX` creates.  A positive
expiration is sent in whole milliseconds (`PX`), or in whole seconds (`EX`) when it
is a whole number of seconds, which is the same time to live.  With expiration `0`
the client sends a plain `SETNX` and with `KeepTTL = -1` it sends `KEEPTTL`: the new
key has no expiry.  Any other negative expiration is rejected by the server, and that
reply is a failure of the call. -/
def setTtl (expiration : Int) : Option Int :=
  if 0 < expiration then some (formatMs expiration * Millisecond) else none

/-- Client call `SetNX(key, value, expiration)`: create the key with the value and the
time to live unless it exists; reports whether it was created. -/
def SetNX (st : Store) (key value : String) (expiration : Int) : Bool × Store :=
  match st key with
  | some _ => (false, st)
  | none => (true, st.put key (some ⟨value, setTtl expiration⟩))

/-- Command `GET key`: the stored string, `none` (Lua `false`) when absent. -/
def GET (st : Store) (key : String) : Option String :=
  (st key).map Entry.value

/-- Command `DEL key`: removes the key and returns the number of keys removed. -/
def DEL (st : Store) (key : String) : Int × Store :=
  match st key with
  | some _ => (1, st.put key none)
  | none => (0, st)

/-- Client call `PExpire(key, expiration)`: sends `PEXPIRE key formatMs(expiration)`,
which sets the time to live of an existing key to that many milliseconds; a
non-positive number of milliseconds deletes the key; an absent key is left absent. -/
def PExpire (st : Store) (key : String) (expiration : Int) : Bool × Store :=
  match st key with
  | none => (false, st)
  | some e =>
    let ms := formatMs expiration
    if ms ≤ 0 then (true, st.put key none)
    else (true, st.put key (some { e with ttl := some (ms * Millisecond) }))

/-- Lease expiry of a key, an environment step. -/
def expire (st : Store) (key : String) : Store := st.put key none

/-- Handle `Lock` (the mutex and the client pointer carry no state of the model). -/
structure Lock where
  key : String
  holder : String
  expiration : Int
  keepAlive : Bool
  keepAliveTtl : Int
deriving DecidableEq, Repr

/-- Constructor `NewLock`; `holder` is the value of `uuid.New().String()`. -/
def NewLock (holder key : String) (expiration : Int) : Lock :=
  let expiration := if expiration = 0 then defaultExpiration else expiration
  { key := key, holder := holder, expiration := expiration, keepAlive := false,
    keepAliveTtl := Int.tdiv expiration 2 }

/-- Method `startKeepAlive`, the part that runs in the caller: sets the flag. -/
def Lock.startKeepAlive (r : Lock) : Lock := { r with keepAlive := true }

/-- Method `stopKeepAlive`. -/
def Lock.stopKeepAlive (r : Lock) : Lock := { r with keepAlive := false }

/-- One iteration of the goroutine of `startKeepAlive`:
`r.client.PExpire(ctx, r.key, r.expiration)`, its result dropped. -/
def Lock.keepAliveTick (r : Lock) (st : Store) : Store :=
  (PExpire st r.key r.expiration).2

/-- Outcome of `Lock()`: the two return values, the handle and the store afterwards. -/
structure LockResult where
  acquired : Bool
  err : Option GoError
  handle : Lock
  store : Store

/-- Outcome of `Unlock()`: the return value, the handle and the store afterwards. -/
structure UnlockResult where
  err : Option GoError
  handle : Lock
  store : Store

/-- Method `Lock.Lock`. -/
def Lock.Lock (r : Lock) (st : Store) (fault : Option GoError) : LockResult :=
  match fault with
  | some err => ⟨false, some err, r, st⟩
  | none =>
    let res := SetNX st r.key r.holder r.expiration
    let success := res.1
    let r1 := if success && !r.keepAlive then r.startKeepAlive else r
    ⟨success, none, r1, res.2⟩

/-- Lua script of `Lock.Unlock`, with `KEYS[1] = key` and `ARGV[1] = arg1`. -/
def unlockScript (st : Store) (key arg1 : String) : Int × Store :=
  let currentHolder := GET st key
  if currentHolder = some arg1 then DEL st key else (-1, st)

/-- Method `Lock.Unlock`. -/
def Lock.Unlock (r : redislock.Lock) (st : Store) (fault : Option GoError) : UnlockResult :=
  match fault with
  | some err => ⟨some (GoError.wrapf msgUnlockFailed err), r, st⟩
  | none =>
    let res := unlockScript st r.key r.holder
    let unlockedStatus := res.1
    if unlockedStatus = 0 then ⟨some (GoError.errorf msgNotExist), r, res.2⟩
    else if unlockedStatus = 1 then ⟨none, r.stopKeepAlive, res.2⟩
    else if unlockedStatus = -1 then ⟨some (GoError.errorf msgDifferentHolder), r, res.2⟩
    else ⟨none, r, res.2⟩

/-- Steps that can act on the store: `Lock()` and `Unlock()` of some handle, a
keep-alive tick of some handle, and the expiry of a key. -/
inductive Event where
  | lock (h : Lock) (fault : Option GoError)
  | unlock (h : Lock) (fault : Option GoError)
  | tick (h : Lock)
  | expire (key : String)

/-- Store after an event. -/
def Event.apply (e : Event) (st : Store) : Store :=
  match e with
  | .lock h fault => (h.Lock st fault).store
  | .unlock h fault => (h.Unlock st fault).store
  | .tick h => h.keepAliveTick st
  | .expire key => redislock.expire st key

/-- Store after a sequence of events. -/
def run (st : Store) : List Event → Store
  | [] => st
  | e :: es => run (e.apply st) es

/-- An event that can happen while `a` holds the lock and that is neither a successful
`Unlock()` with the token of `a` on its key nor an expiry of that key.  A tick needs a
running ticker: `time.NewTicker` panics on a non-positive period, and the period is half
the lease, so a ticking handle has a positive lease. -/
def Event.keeps (a : Lock) (st : Store) : Event → Prop
  | .lock _ _ => True
  | .unlock h fault =>
      ¬ (h.key = a.key ∧ h.holder = a.holder ∧ (h.Unlock st fault).err = none)
  | .tick h => 0 < h.expiration
  | .expire key => key ≠ a.key

/-- Every event of the sequence, run from `st`, satisfies `Event.keeps`. -/
def Quiet (a : Lock) : Store → List Event → Prop
  | _, [] => True
  | st, e :: es => e.keeps a st ∧ Quiet a (e.apply st) es

instance Event.decidableKeeps (a : Lock) (st : Store) (e : Event) :
    Decidable (e.keeps a st) := by
  cases e <;> unfold Event.keeps <;> infer_instance

instance decidableQuiet (a : Lock) (evs : List Event) :
    ∀ st : Store, Decidable (Quiet a st evs) := by
  induction evs with
  | nil => intro st; unfold Quiet; infer_instance
  | cons e es ih =>
    intro st
    unfold Quiet
    have := ih (e.apply st)
    infer_instance

end redislock

/-! ## Reentrant lock (`reentrant_lock.go`) -/

namespace reentrantlock

/-- Package variable `defaultExpiration = 10 * time.Second`. -/
def defaultExpiration : Int := 10 * Second

/-- Hash stored under a key, with the fields `holder` and `count` the scripts write, and
the time to live of the key (`none`: the key has no expiry yet). -/
structure Hash where
  holder : String
  count : Int
  ttl : Option Int
deriving DecidableEq, Repr

/-- Store state seen by the reentrant lock: key to hash. -/
abbrev Store := String → Option Hash

/-- Store with no key. -/
def Store.empty : Store := fun _ => none

/-- Point update of the store. -/
def Store.put (st : Store) (key : String) (v : Option Hash) : Store :=
  fun k => if k = key then v else st k

/-- Command `HGET key "holder"`: the field, `none` (Lua `false`) when the key is absent. -/
def HGET_holder (st : Store) (key : String) : Option String :=
  (st key).map Hash.holder

/-- Command `HSET key "holder" holder "count" count`: writes both fields, creating the
hash without expiry when the key is absent and keeping the time to live otherwise. -/
def HSET (st : Store) (key holder : String) (count : Int) : Store :=
  match st key with
  | none => st.put key (some ⟨holder, count, none⟩)
  | some h => st.put key (some { h with holder := holder, count := count })

/-- Command `HINCRBY key "count" delta`: adds `delta` to the field and returns the new
value.  Both scripts issue it only after `HGET` found the field `holder`, so the key
exists; on an absent key the store is left as it is. -/
def HINCRBY (st : Store) (key : String) (delta : Int) : Int × Store :=
  match st key with
  | none => (delta, st)
  | some h => (h.count + delta, st.put key (some { h with count := h.count + delta }))

/-- Command `PEXPIRE key ms` inside a script: sets the time to live of an existing key
to `ms` milliseconds; a non-positive `ms` deletes the key. -/
def PEXPIRE (st : Store) (key : String) (ms : Int) : Int × Store :=
  match st key with
  | none => (0, st)
  | some h =>
    if ms ≤ 0 then (1, st.put key none)
    else (1, st.put key (some { h with ttl := some (ms * Millisecond) }))

/-- Command `DEL key`: removes the key and returns the number of keys removed. -/
def DEL (st : Store) (key : String) : Int × Store :=
  match st key with
  | some _ => (1, st.put key none)
  | none => (0, st)

/-- Client call `PExpire(key, expiration)`: sends `PEXPIRE key formatMs(expiration)`
and reports whether the reply was `1`. -/
def PExpire (st : Store) (key : String) (expiration : Int) : Bool × Store :=
  let res := PEXPIRE st key (formatMs expiration)
  (decide (res.1 = 1), res.2)

/-- Lease expiry of a key, an environment step. -/
def expire (st : Store) (key : String) : Store := st.put key none

/-- Handle `ReentrantLock` (the mutex and the client pointer carry no state of the
model). -/
structure ReentrantLock where
  key : String
  holder : String
  expiration : Int
  keepAlive : Bool
  keepAliveTtl : Int
deriving DecidableEq, Repr

/-- Constructor `NewReentrantLock`; `holder` is the value of `uuid.New().String()`. -/
def NewReentrantLock (holder key : String) (expiration : Int) : ReentrantLock :=
  let expiration := if expiration = 0 then defaultExpiration else expiration
  { key := key, holder := holder, expiration := expiration, keepAlive := false,
    keepAliveTtl := Int.tdiv expiration 2 }

/-- Method `startKeepAlive`, the part that runs in the caller: sets the flag. -/
def ReentrantLock.startKeepAlive (r : ReentrantLock) : ReentrantLock :=
  { r with keepAlive := true }

/-- Method `stopKeepAlive`. -/
def ReentrantLock.stopKeepAlive (r : ReentrantLock) : ReentrantLock :=
  { r with keepAlive := false }

/-- One iteration of the goroutine of `startKeepAlive`:
`r.client.PExpire(ctx, r.key, r.expiration)`, its result dropped. -/
def ReentrantLock.keepAliveTick (r : ReentrantLock) (st : Store) : Store :=
  (PExpire st r.key r.expiration).2

/-- Outcome of `Lock()`: the two return values, the handle and the store afterwards. -/
structure LockResult where
  acquired : Bool
  err : Option GoError
  handle : ReentrantLock
  store : Store

/-- Outcome of `Unlock()`: the return value, the handle and the store afterwards. -/
structure UnlockResult where
  err : Option GoError
  handle : ReentrantLock
  store : Store

/-- Lua script of `ReentrantLock.Lock`, with `KEYS[1] = key`, `ARGV[1] = arg1` and
`ARGV[2] = arg2`. -/
def lockScript (st : Store) (key arg1 : String) (arg2 : Int) : Int × Store :=
  match HGET_holder st key with
  | none =>
    let st1 := HSET st key arg1 1
    let st2 := (PEXPIRE st1 key arg2).2
    (1, st2)
  | some currentHolder =>
    if currentHolder = arg1 then
      let st1 := (HINCRBY st key 1).2
      let st2 := (PEXPIRE st1 key arg2).2
      (1, st2)
    else (0, st)

/-- Method `ReentrantLock.Lock`; the script receives
`int(r.expiration / time.Millisecond)`, a division that truncates, and `.Bool()` reads
a non-zero integer reply as true. -/
def ReentrantLock.Lock (r : ReentrantLock) (st : Store) (fault : Option GoError) :
    LockResult :=
  match fault with
  | some err => ⟨false, some err, r, st⟩
  | none =>
    let res := lockScript st r.key r.holder (Int.tdiv r.expiration Millisecond)
    let acquired := decide (res.1 ≠ 0)
    let r1 := if acquired && !r.keepAlive then r.startKeepAlive else r
    ⟨acquired, none, r1, res.2⟩

/-- Lua script of `ReentrantLock.Unlock`, with `KEYS[1] = key` and `ARGV[1] = arg1`. -/
def unlockScript (st : Store) (key arg1 : String) : Int × Store :=
  let currentHolder := HGET_holder st key
  if currentHolder = some arg1 then
    let res := HINCRBY st key (-1)
    let count := res.1
    if count ≤ 0 then (0, (DEL res.2 key).2)
    else (1, res.2)
  else (-1, st)

/-- Method `ReentrantLock.Unlock`. -/
def ReentrantLock.Unlock (r : ReentrantLock) (st : Store) (fault : Option GoError) :
    UnlockResult :=
  match fault with
  | some err => ⟨some (GoError.wrapf msgUnlockFailed err), r, st⟩
  | none =>
    let res := unlockScript st r.key r.holder
    let unlockedStatus := res.1
    if unlockedStatus = 0 then ⟨none, r.stopKeepAlive, res.2⟩
    else if unlockedStatus = 1 then ⟨none, r, res.2⟩
    else if unlockedStatus = -1 then ⟨some (GoError.errorf msgDifferentHolder), r, res.2⟩
    else ⟨none, r, res.2⟩

/-- Handle and store after `n` calls of `Lock()` in a row, every call reaching the store. -/
def lockTimes (r : ReentrantLock) (st : Store) : Nat → ReentrantLock × Store
  | 0 => (r, st)
  | n + 1 =>
    let p := lockTimes r st n
    let res := p.1.Lock p.2 none
    (res.handle, res.store)

/-- Handle and store after `n` calls of `Unlock()` in a row, every call reaching the
store. -/
def unlockTimes (r : ReentrantLock) (st : Store) : Nat → ReentrantLock × Store
  | 0 => (r, st)
  | n + 1 =>
    let p := unlockTimes r st n
    let res := p.1.Unlock p.2 none
    (res.handle, res.store)

/-- Steps that can act on the store: `Lock()` and `Unlock()` of some handle, a
keep-alive tick of some handle, and the expiry of a key. -/
inductive Event where
  | lock (h : ReentrantLock) (fault : Option GoError)
  | unlock (h : ReentrantLock) (fault : Option GoError)
  | tick (h : ReentrantLock)
  | expire (key : String)

/-- Store together with the ghost field `lastInc`: for every key, the token of the
handle whose `Lock()` last wrote or incremented `count` there. -/
structure World where
  store : Store
  lastInc : String → Option String

/-- World at start: empty store, nothing incremented. -/
def World.init : World := ⟨Store.empty, fun _ => none⟩

/-- World after an event.  Only a `Lock()` that acquired writes or increments `count`,
so only it updates the ghost field. -/
def Event.apply (e : Event) (w : World) : World :=
  match e with
  | .lock h fault =>
    let res := h.Lock w.store fault
    if res.acquired then
      ⟨res.store, fun k => if k = h.key then some h.holder else w.lastInc k⟩
    else ⟨res.store, w.lastInc⟩
  | .unlock h fault => ⟨(h.Unlock w.store fault).store, w.lastInc⟩
  | .tick h => ⟨h.keepAliveTick w.store, w.lastInc⟩
  | .expire key => ⟨reentrantlock.expire w.store key, w.lastInc⟩

/-- Worlds reachable from the start by any interleaving of events of any handles. -/
inductive Reachable : World → Prop where
  | init : Reachable World.init
  | step (w : World) (e : Event) : Reachable w → Reachable (e.apply w)

end reentrantlock

/-! ## Scenarios -/

namespace redislock

/-- Returns of the sequence `a.Lock(); b.Lock(); a.Unlock(); b.Lock()` run from `st`,
every call reaching the store. -/
def lockLockUnlockLock (a b : Lock) (st : Store) : Bool × Bool × Option GoError × Bool :=
  let r1 := a.Lock st none
  let r2 := b.Lock r1.store none
  let r3 := r1.handle.Unlock r2.store none
  let r4 := r2.handle.Lock r3.store none
  (r1.acquired, r2.acquired, r3.err, r4.acquired)

/-- Handle on `job:42` with the default lease. -/
def handleA : Lock := NewLock "holder-a" "job:42" 0

/-- Second handle on `job:42`, with a lease of 200 ms. -/
def handleB : Lock := NewLock "holder-b" "job:42" (200 * Millisecond)

/-- Store in which `job:42` holds the token of `handleA`. -/
def storeHeldByA : Store :=
  Store.empty.put "job:42" (some ⟨"holder-a", some (10 * Second)⟩)

/-- Results of `a.Lock()`, then the expiry of the key, then `b.Lock()`, from `st`. -/
def takeover (a b : Lock) (st : Store) : LockResult × LockResult :=
  let r1 := a.Lock st none
  (r1, b.Lock (expire r1.store a.key) none)

/-- Handle on `job:42` with a lease of 1.5 ms. -/
def handleShort : Lock := NewLock "holder-c" "job:42" 1500000

/-- Handle on `job:42` with a lease of 0.5 ms. -/
def handleTiny : Lock := NewLock "holder-d" "job:42" 500000

end redislock

namespace reentrantlock

/-- Handle and store after `n` calls of `Lock()` followed by `k` calls of `Unlock()`. -/
def lockThenUnlock (r : ReentrantLock) (st : Store) (n k : Nat) : ReentrantLock × Store :=
  unlockTimes (lockTimes r st n).1 (lockTimes r st n).2 k

/-- Results of `a.Lock()`, then the expiry of the key, then `b.Lock()`, from `st`. -/
def takeover (a b : ReentrantLock) (st : Store) : LockResult × LockResult :=
  let r1 := a.Lock st none
  (r1, b.Lock (expire r1.store a.key) none)

/-- Record invariant of a world: every stored record has a count of at least one and
carries the token of the handle that last wrote or incremented the count. -/
def RecordInv (w : World) : Prop :=
  ∀ k h, w.store k = some h → 1 ≤ h.count ∧ w.lastInc k = some h.holder

/-- Store in which `res:7` is held twice by `reentrantA`. -/
def storeHeldTwice : Store :=
  Store.empty.put "res:7" (some ⟨"holder-a", 2, some (10 * Second)⟩)

/-- Reentrant handle on `res:7` with the default lease. -/
def reentrantA : ReentrantLock := NewReentrantLock "holder-a" "res:7" 0

/-- Second reentrant handle on `res:7`, with a lease of 200 ms. -/
def reentrantB : ReentrantLock := NewReentrantLock "holder-b" "res:7" (200 * Millisecond)

/-- Reentrant handle on `res:7` with a lease of 1.5 ms. -/
def reentrantShort : ReentrantLock := NewReentrantLock "holder-c" "res:7" 1500000

/-- Reentrant handle on `res:7` with a lease of 0.5 ms. -/
def reentrantTiny : ReentrantLock := NewReentrantLock "holder-d" "res:7" 500000

/-- World after a sequence of events. -/
def runWorld (w : World) : List Event → World
  | [] => w
  | e :: es => runWorld (e.apply w) es

/-- World after `reentrantA` locked twice, the ticker of `reentrantB` fired, `reentrantB`
tried to lock and `reentrantA` unlocked once. -/
def worldDemo : World :=
  runWorld World.init
    [Event.lock reentrantA none, Event.lock reentrantA none, Event.tick reentrantB,
      Event.lock reentrantB none, Event.unlock reentrantA none]

end reentrantlock

/-! ## Snowflake id generator (`snowflake/`)

Go's `int64` and `int` sums and differences wrap to 64 bits (`wrap64`); the shifts and
the bitwise operators work on the 64-bit two's complement pattern, so a shift that
leaves the 63 value bits wraps as in Go, and a conversion to `uint` takes the pattern.
`time.Now().UnixMilli()` is a stream of readings: `clock k` is the value of the `k`-th
call. -/

namespace snowflake

/-- Two's complement bit pattern of an `int64`. -/
def toUint64 (x : Int) : Nat := (x % 2 ^ 64).toNat

/-- The `int64` with a given bit pattern. -/
def ofUint64 (n : Nat) : Int :=
  if n % 2 ^ 64 < 2 ^ 63 then ((n % 2 ^ 64 : Nat) : Int) else ((n % 2 ^ 64 : Nat) : Int) - 2 ^ 64

/-- Go `x << k` on `int64`; a count of 64 or more gives zero. -/
def shl64 (x : Int) (k : Nat) : Int := if 64 ≤ k then 0 else ofUint64 (toUint64 x <<< k)

/-- Go `x >> k` on `int64` (arithmetic shift). -/
def shr64 (x : Int) (k : Nat) : Int := x / 2 ^ k

/-- Go `x | y` on `int64`. -/
def or64 (x y : Int) : Int := ofUint64 (toUint64 x ||| toUint64 y)

/-- Go `x & y` on `int64`. -/
def and64 (x y : Int) : Int := ofUint64 (toUint64 x &&& toUint64 y)

/-- Go `x ^ y` on `int64`. -/
def xor64 (x y : Int) : Int := ofUint64 (toUint64 x ^^^ toUint64 y)

/-- Error `ErrInvalidWorkerId`. -/
def ErrInvalidWorkerId : GoError := GoError.errorf "worker Id out of range"

/-- Error `ErrInvalidDatacenterId`. -/
def ErrInvalidDatacenterId : GoError := GoError.errorf "datacenter Id out of range"

/-- Error `ErrClockMovedBackwards`. -/
def ErrClockMovedBackwards : GoError := GoError.errorf "clock moved backwards"

/-- Constant `epoch`. -/
def epoch : Int := 0

/-- Constant `workerIdBits`. -/
def workerIdBits : Nat := 5

/-- Constant `datacenterIdBits`. -/
def datacenterIdBits : Nat := 5

/-- Constant `sequenceBits`. -/
def sequenceBits : Nat := 12

/-- Constant `maxWorkerId`. -/
def maxWorkerId : Int := xor64 (-1) (shl64 (-1) workerIdBits)

/-- Constant `maxDatacenterId`. -/
def maxDatacenterId : Int := xor64 (-1) (shl64 (-1) datacenterIdBits)

/-- Constant `sequenceMask`. -/
def sequenceMask : Int := xor64 (-1) (shl64 (-1) sequenceBits)

/-- Constant `workerIdShift`. -/
def workerIdShift : Nat := sequenceBits

/-- Constant `datacenterIdShift`. -/
def datacenterIdShift : Nat := sequenceBits + workerIdBits

/-- Constant `timestampLeftShift`. -/
def timestampLeftShift : Nat := sequenceBits + workerIdBits + datacenterIdBits

/-- Struct `SnowConfig`; the field `epochTime` is the same instant as `epoch` and is
left out, the `uint` fields are natural numbers. -/
structure SnowConfig where
  epoch : Int
  sequenceBits : Nat
  workerIdBits : Nat
  datacenterIdBits : Nat
  maxWorkerId : Int
  maxDatacenterId : Int
  workerIdShift : Nat
  datacenterIdShift : Nat
  timestampLeftShift : Nat
  sequenceMask : Int
deriving DecidableEq, Repr

/-- Function `defaultSnowConfig`. -/
def defaultSnowConfig : SnowConfig :=
  { epoch := epoch
    sequenceBits := sequenceBits
    workerIdBits := workerIdBits
    datacenterIdBits := datacenterIdBits
    maxWorkerId := maxWorkerId
    maxDatacenterId := maxDatacenterId
    workerIdShift := workerIdShift
    datacenterIdShift := datacenterIdShift
    timestampLeftShift := timestampLeftShift
    sequenceMask := sequenceMask }

/-- Function `NewSnowConfig`; `epochTime` is given by its `UnixMilli()`, `none` is the
panic "illegal snowflake config".  The three widths are of type `int`: their sums wrap,
`uint(x)` is the bit pattern of `x`, and the shift counts are the widths themselves,
which the guard has found positive. -/
def NewSnowConfig (epochTime : Int) (datacenterIdBits workerIdBits sequenceBits : Int) :
    Option SnowConfig :=
  if wrap64 (wrap64 (sequenceBits + workerIdBits) + datacenterIdBits) ≠ 22 ∨
      sequenceBits < 1 ∨ workerIdBits < 1 ∨ datacenterIdBits < 1 then none
  else some
    { epoch := epochTime
      sequenceBits := toUint64 sequenceBits
      workerIdBits := toUint64 workerIdBits
      datacenterIdBits := toUint64 datacenterIdBits
      workerIdShift := toUint64 sequenceBits
      datacenterIdShift := toUint64 (wrap64 (sequenceBits + workerIdBits))
      timestampLeftShift :=
        toUint64 (wrap64 (wrap64 (sequenceBits + workerIdBits) + datacenterIdBits))
      maxWorkerId := xor64 (-1) (shl64 (-1) workerIdBits.toNat)
      maxDatacenterId := xor64 (-1) (shl64 (-1) datacenterIdBits.toNat)
      sequenceMask := xor64 (-1) (shl64 (-1) sequenceBits.toNat) }

/-- Struct `Snowflake` (the mutex carries no state of the model). -/
structure Snowflake where
  c : SnowConfig
  lastTimestamp : Int
  workerId : Int
  datacenterId : Int
  sequence : Int
  datacenterIdWorkId : Int
deriving DecidableEq, Repr

/-- Method `SnowConfig.NewSnowflake`. -/
def SnowConfig.NewSnowflake (c : SnowConfig) (workerId datacenterId : Int) :
    Except GoError Snowflake :=
  if workerId < 0 ∨ workerId > c.maxWorkerId then Except.error ErrInvalidWorkerId
  else if datacenterId < 0 ∨ datacenterId > c.maxDatacenterId then
    Except.error ErrInvalidDatacenterId
  else Except.ok
    { c := c
      lastTimestamp := -1
      workerId := workerId
      datacenterId := datacenterId
      sequence := 0
      datacenterIdWorkId :=
        or64 (shl64 datacenterId c.datacenterIdShift) (shl64 workerId c.workerIdShift) }

/-- Function `NewSnowflakeByDefaultConfig`. -/
def NewSnowflakeByDefaultConfig (workerId datacenterId : Int) : Except GoError Snowflake :=
  defaultSnowConfig.NewSnowflake workerId datacenterId

/-- Outcome of a `NextId()` that returned: the two return values, the generator
afterwards and the index of the next clock reading. -/
structure NextIdResult where
  id : Int
  err : Option GoError
  s : Snowflake
  reads : Nat
deriving DecidableEq, Repr

/-- Loop `for now <= s.lastTimestamp { now = time.Now().UnixMilli() - s.c.epoch }`: the
value of `now` on exit and the index of the next reading, `none` when the loop is still
running after `fuel` rounds. -/
def waitLoop (epoch lastTimestamp : Int) (clock : Nat → Int) : Nat → Int → Nat → Option (Int × Nat)
  | 0, now, pos => if now ≤ lastTimestamp then none else some (now, pos)
  | fuel + 1, now, pos =>
    if now ≤ lastTimestamp then
      waitLoop epoch lastTimestamp clock fuel (wrap64 (clock pos - epoch)) (pos + 1)
    else some (now, pos)

/-- Tail of `NextId`: store `now`, compose the id and return it. -/
def Snowflake.emit (s : Snowflake) (now : Int) (reads : Nat) : NextIdResult :=
  { id := or64 (or64 (shl64 now s.c.timestampLeftShift) s.datacenterIdWorkId) s.sequence
    err := none
    s := { s with lastTimestamp := now }
    reads := reads }

/-- Method `Snowflake.NextId`, reading the clock from index `pos`; `none` when the wait
for the next millisecond is still running after `fuel` rounds. -/
def Snowflake.NextId (s : Snowflake) (clock : Nat → Int) (pos fuel : Nat) :
    Option NextIdResult :=
  let now := wrap64 (clock pos - s.c.epoch)
  if now < s.lastTimestamp then some ⟨0, some ErrClockMovedBackwards, s, pos + 1⟩
  else if now = s.lastTimestamp then
    let s1 : Snowflake :=
      { s with sequence := and64 (wrap64 (s.sequence + 1)) s.c.sequenceMask }
    if s1.sequence = 0 then
      match waitLoop s.c.epoch s.lastTimestamp clock fuel now (pos + 1) with
      | none => none
      | some (now2, pos2) => some (s1.emit now2 pos2)
    else some (s1.emit now (pos + 1))
  else some (({ s with sequence := 0 } : Snowflake).emit now (pos + 1))

/-- Results of `n` calls of `NextId()` in a row, with the generator and the clock index
afterwards; `none` when one of the calls does not return within `fuel`. -/
def nextIds (clock : Nat → Int) (fuel : Nat) (s : Snowflake) (pos : Nat) :
    Nat → Option (List NextIdResult × Snowflake × Nat)
  | 0 => some ([], s, pos)
  | n + 1 =>
    match nextIds clock fuel s pos n with
    | none => none
    | some (rs, s1, pos1) =>
      match s1.NextId clock pos1 fuel with
      | none => none
      | some r => some (rs ++ [r], r.s, r.reads)

/-- Configs the package hands out: the default one and those `NewSnowConfig` returns,
called with three values of type `int`. -/
def SnowConfig.Accepted (c : SnowConfig) : Prop :=
  c = defaultSnowConfig ∨
    ∃ epochTime datacenterIdBits workerIdBits sequenceBits,
      IsInt64 datacenterIdBits ∧ IsInt64 workerIdBits ∧ IsInt64 sequenceBits ∧
        NewSnowConfig epochTime datacenterIdBits workerIdBits sequenceBits = some c

/-- Layout of a config with sequence, worker and datacenter widths `sb`, `wb`, `db`:
the widths are positive and add up to 22, and masks and shifts are those of the widths. -/
def SnowConfig.HasLayout (c : SnowConfig) (sb wb db : Nat) : Prop :=
  1 ≤ sb ∧ 1 ≤ wb ∧ 1 ≤ db ∧ sb + wb + db = 22 ∧
    c.sequenceBits = sb ∧ c.workerIdBits = wb ∧ c.datacenterIdBits = db ∧
    c.maxWorkerId = 2 ^ wb - 1 ∧ c.maxDatacenterId = 2 ^ db - 1 ∧
    c.sequenceMask = 2 ^ sb - 1 ∧
    c.workerIdShift = sb ∧ c.datacenterIdShift = sb + wb ∧ c.timestampLeftShift = 22

/-- Config that `NewSnowConfig` returns for the widths 24, `math.MaxInt64` and
`math.MaxInt64`, whose sum wraps to 22. -/
def wrappedConfig : SnowConfig :=
  (NewSnowConfig 0 24 9223372036854775807 9223372036854775807).getD defaultSnowConfig

/-- Config with the epoch `math.MinInt64 + 1` and the default widths. -/
def extremeConfig : SnowConfig :=
  (NewSnowConfig (-9223372036854775807) 5 5 12).getD defaultSnowConfig

/-- Generator of `extremeConfig` with worker 0 and datacenter 0, as `NewSnowflake`
returns it. -/
def extremeGen : Snowflake :=
  { c := extremeConfig, lastTimestamp := -1, workerId := 0, datacenterId := 0,
    sequence := 0,
    datacenterIdWorkId := or64 (shl64 0 extremeConfig.datacenterIdShift)
      (shl64 0 extremeConfig.workerIdShift) }

/-- Clock that shows the millisecond 1700000000000 (in November 2023). -/
def nowClock : Nat → Int := fun _ => 1700000000000

/-- Config with one sequence bit: two ids per millisecond. -/
def tinyConfig : SnowConfig :=
  (NewSnowConfig 0 10 11 1).getD defaultSnowConfig

/-- Generator of `tinyConfig` with worker 3 and datacenter 2. -/
def tinyGen : Snowflake :=
  { c := tinyConfig, lastTimestamp := -1, workerId := 3, datacenterId := 2, sequence := 0,
    datacenterIdWorkId := or64 (shl64 2 tinyConfig.datacenterIdShift)
      (shl64 3 tinyConfig.workerIdShift) }

/-- Generator of the default config with worker 3 and datacenter 2, as `NewSnowflake`
returns it. -/
def defaultGen : Snowflake :=
  { c := defaultSnowConfig, lastTimestamp := -1, workerId := 3, datacenterId := 2,
    sequence := 0,
    datacenterIdWorkId := or64 (shl64 2 defaultSnowConfig.datacenterIdShift)
      (shl64 3 defaultSnowConfig.workerIdShift) }

/-- What `NextId()` of `defaultGen` returns at the clock reading 1. -/
def demoResult : NextIdResult :=
  { id := 4468736, err := none, s := { defaultGen with lastTimestamp := 1 }, reads := 6 }

/-- The id that the fields of a generator compose: after a `NextId()` that returned an
id, this is that id. -/
def Snowflake.lastId (s : Snowflake) : Int :=
  or64 (or64 (shl64 s.lastTimestamp s.c.timestampLeftShift) s.datacenterIdWorkId) s.sequence

/-- Generator `tinyGen` after two ids in the millisecond 5. -/
def tinyAfterTwo : Snowflake := { tinyGen with lastTimestamp := 5, sequence := 1 }

/-- Clock that shows the same millisecond for ever. -/
def stalledClock : Nat → Int := fun _ => 5

/-- Clock that advances by one millisecond every third reading, up to one second. -/
def slowClock : Nat → Int := fun k => min (k / 3) 1000

/-- Five calls of `tinyGen` on `slowClock`, each with fuel for one round of waiting: the
third and the fifth call wait for the next millisecond. -/
def demoRun : List NextIdResult × Snowflake × Nat :=
  (nextIds slowClock 1 tinyGen 0 5).getD ([], tinyGen, 0)

end snowflake

/-! ## Bitmap (`bitmap/bitmap.go`)

Go's `int` is 64 bits wide: sums, differences and products wrap (`wrap64`); `/` and `%`
truncate towards zero as in Go.  A byte is a natural number; the bit index is below 8,
so `1 << bitIndex` fits the byte.  A panic, written out in the source or raised by the
runtime (division by zero, index out of range, `make` with a negative length), is the
result `none`.  The memory the runtime can allocate is not part of the model. -/

namespace bitmap

/-- Constant `defaultStep`. -/
def defaultStep : Int := 1

/-- Error built by `fmt.Errorf("position out of bounds")`. -/
def errOutOfBounds : GoError := GoError.errorf "position out of bounds"

/-- Struct `Bitmap`. -/
structure Bitmap where
  data : List Nat
  size : Int
  step : Int
  offset : Int
deriving DecidableEq, Repr

/-- Call `make([]byte, n)`: `n` zero bytes, a panic for a negative `n`. -/
def makeBytes (n : Int) : Option (List Nat) :=
  if n < 0 then none else some (List.replicate n.toNat 0)

/-- Go `x / y` on `int` for a non-zero `y`: the quotient truncated towards zero;
`math.MinInt64 / -1` wraps. -/
def div64 (x y : Int) : Int := wrap64 (Int.tdiv x y)

/-- Function `NewBitmap`. -/
def NewBitmap (size : Int) : Option Bitmap :=
  match makeBytes (div64 (wrap64 (size + 7)) 8) with
  | none => none
  | some d => some { data := d, size := size, step := defaultStep, offset := 0 }

/-- Function `NewBitmapWithOffset`. -/
def NewBitmapWithOffset (size offset : Int) : Option Bitmap :=
  match makeBytes (div64 (wrap64 (size + 7)) 8) with
  | none => none
  | some d => some { data := d, size := size, step := defaultStep, offset := offset }

/-- Function `NewBitmapWithRang`, from `first` to `last` (the parameters `begin` and
`end`). -/
def NewBitmapWithRang (first last step : Int) : Option Bitmap :=
  if step ≤ 0 then none
  else
    match makeBytes (div64 (wrap64 (wrap64 (last - first) + 7)) 8) with
    | none => none
    | some d =>
      some { data := d,
             size := div64 (wrap64 (wrap64 (wrap64 (last - first) + step) - 1)) step,
             offset := first,
             step := step }

/-- Method `encodePos`; a zero step is a division by zero. -/
def Bitmap.encodePos (b : Bitmap) (pos : Int) : Option Int :=
  let bit := wrap64 (pos - b.offset)
  if b.step = 0 then none
  else if Int.tmod bit b.step ≠ 0 then none
  else
    let bit := div64 bit b.step
    if bit < 0 ∨ bit ≥ b.size then none else some bit

/-- Method `tryEncodePos`; the outer `none` is the division by a zero step. -/
def Bitmap.tryEncodePos (b : Bitmap) (pos : Int) : Option (Int × Option GoError) :=
  let bit := wrap64 (pos - b.offset)
  if b.step = 0 then none
  else if Int.tmod bit b.step ≠ 0 then some (-1, some errOutOfBounds)
  else
    let bit := div64 bit b.step
    if bit < 0 ∨ bit ≥ b.size then some (-1, some errOutOfBounds) else some (bit, none)

/-- Method `decodePos`. -/
def Bitmap.decodePos (b : Bitmap) (bit : Int) : Int :=
  wrap64 (wrap64 (bit * b.step) + b.offset)

/-- Read of `b.data[i]`; an index outside the slice panics. -/
def Bitmap.byteAt (b : Bitmap) (i : Int) : Option Nat :=
  if i < 0 then none else b.data[i.toNat]?

/-- Method `Set`. -/
def Bitmap.Set (b : Bitmap) (pos : Int) : Option Bitmap :=
  match b.encodePos pos with
  | none => none
  | some bit =>
    let byteIndex := Int.tdiv bit 8
    let bitIndex := (Int.tmod bit 8).toNat
    match b.byteAt byteIndex with
    | none => none
    | some x => some { b with data := b.data.set byteIndex.toNat (x ||| (1 <<< bitIndex)) }

/-- Method `Clear`; `x &^ m` on a byte is `x & (0xff ^ m)`. -/
def Bitmap.Clear (b : Bitmap) (pos : Int) : Option Bitmap :=
  match b.encodePos pos with
  | none => none
  | some bit =>
    let byteIndex := Int.tdiv bit 8
    let bitIndex := (Int.tmod bit 8).toNat
    match b.byteAt byteIndex with
    | none => none
    | some x =>
      some { b with data := b.data.set byteIndex.toNat (x &&& (255 ^^^ (1 <<< bitIndex))) }

/-- Method `IsSet`. -/
def Bitmap.IsSet (b : Bitmap) (pos : Int) : Option Bool :=
  match b.encodePos pos with
  | none => none
  | some bit =>
    let byteIndex := Int.tdiv bit 8
    let bitIndex := (Int.tmod bit 8).toNat
    match b.byteAt byteIndex with
    | none => none
    | some x => some (decide (x &&& (1 <<< bitIndex) ≠ 0))

/-- Method `GetPos`: the two loops, over the bytes and over the eight bits of each.  The
index `i*8+j` is below eight times the length of the slice and does not wrap. -/
def Bitmap.GetPos (b : Bitmap) : List Int :=
  (List.range b.data.length).flatMap fun (i : Nat) =>
    (List.range 8).filterMap fun (j : Nat) =>
      if ((i : Int) * 8 + (j : Int) < b.size) ∧ ((b.data.getD i 0) &&& ((1 : Nat) <<< j)) ≠ 0 then
        some (b.decodePos ((i : Int) * 8 + (j : Int)))
      else none

/-- Method `GetNoPos`. -/
def Bitmap.GetNoPos (b : Bitmap) : List Int :=
  (List.range b.data.length).flatMap fun (i : Nat) =>
    (List.range 8).filterMap fun (j : Nat) =>
      if ((i : Int) * 8 + (j : Int) < b.size) ∧ ((b.data.getD i 0) &&& ((1 : Nat) <<< j)) = 0 then
        some (b.decodePos ((i : Int) * 8 + (j : Int)))
      else none

/-- Method `TrySet`: the bitmap afterwards and the returned error. -/
def Bitmap.TrySet (b : Bitmap) (pos : Int) : Option (Bitmap × Option GoError) :=
  match b.tryEncodePos pos with
  | none => none
  | some (_, some err) => some (b, some err)
  | some (bit, none) =>
    let byteIndex := Int.tdiv bit 8
    let bitIndex := (Int.tmod bit 8).toNat
    match b.byteAt byteIndex with
    | none => none
    | some x =>
      some ({ b with data := b.data.set byteIndex.toNat (x ||| (1 <<< bitIndex)) }, none)

/-- Method `TryClear`: the bitmap afterwards and the returned error. -/
def Bitmap.TryClear (b : Bitmap) (pos : Int) : Option (Bitmap × Option GoError) :=
  match b.tryEncodePos pos with
  | none => none
  | some (_, some err) => some (b, some err)
  | some (bit, none) =>
    let byteIndex := Int.tdiv bit 8
    let bitIndex := (Int.tmod bit 8).toNat
    match b.byteAt byteIndex with
    | none => none
    | some x =>
      some ({ b with data := b.data.set byteIndex.toNat (x &&& (255 ^^^ (1 <<< bitIndex))) },
        none)

/-- Method `IsSetWithErr`: the two return values. -/
def Bitmap.IsSetWithErr (b : Bitmap) (pos : Int) : Option (Bool × Option GoError) :=
  match b.tryEncodePos pos with
  | none => none
  | some (_, some err) => some (false, some err)
  | some (bit, none) =>
    let byteIndex := Int.tdiv bit 8
    let bitIndex := (Int.tmod bit 8).toNat
    match b.byteAt byteIndex with
    | none => none
    | some x => some (decide (x &&& (1 <<< bitIndex) ≠ 0), none)

/-- Method `Size`. -/
def Bitmap.Size (b : Bitmap) : Int := b.size

/-- Method `Step`. -/
def Bitmap.Step (b : Bitmap) : Int := b.step

/-- Method `Offset`. -/
def Bitmap.Offset (b : Bitmap) : Int := b.offset

/-- Bitmaps a program can build: returned by a constructor called with values of type
`int`, then modified through `Set`, `Clear`, `TrySet` and `TryClear`. -/
inductive Built : Bitmap → Prop where
  | newBitmap (size : Int) (b : Bitmap) : IsInt64 size → NewBitmap size = some b → Built b
  | newBitmapWithOffset (size offset : Int) (b : Bitmap) :
      IsInt64 size → IsInt64 offset → NewBitmapWithOffset size offset = some b → Built b
  | newBitmapWithRang (first last step : Int) (b : Bitmap) :
      IsInt64 first → IsInt64 last → IsInt64 step →
        NewBitmapWithRang first last step = some b → Built b
  | set (b b1 : Bitmap) (pos : Int) : Built b → b.Set pos = some b1 → Built b1
  | clear (b b1 : Bitmap) (pos : Int) : Built b → b.Clear pos = some b1 → Built b1
  | trySet (b b1 : Bitmap) (pos : Int) (err : Option GoError) :
      Built b → b.TrySet pos = some (b1, err) → Built b1
  | tryClear (b b1 : Bitmap) (pos : Int) (err : Option GoError) :
      Built b → b.TryClear pos = some (b1, err) → Built b1

/-- Shape every built bitmap has: a positive step, a byte slice that holds `size` bits,
an offset of type `int`, and no bit below the size whose product with the step leaves
the type `int`. -/
def Bitmap.Wf (b : Bitmap) : Prop :=
  0 < b.step ∧ b.size ≤ 8 * (b.data.length : Int) ∧
    b.size * b.step < 9223372036854775808 ∧ IsInt64 b.offset

/-- Bit `n` of the byte slice. -/
def bitAt (data : List Nat) (n : Nat) : Bool := (data.getD (n / 8) 0).testBit (n % 8)

/-- Byte slice with bit `n` set, as `Set` writes it. -/
def setBit (data : List Nat) (n : Nat) : List Nat :=
  data.set (n / 8) (data.getD (n / 8) 0 ||| (1 <<< (n % 8)))

/-- Byte slice with bit `n` cleared, as `Clear` writes it. -/
def clearBit (data : List Nat) (n : Nat) : List Nat :=
  data.set (n / 8) (data.getD (n / 8) 0 &&& (255 ^^^ (1 <<< (n % 8))))

/-- Bitmap of the positions 10, 15, 20, 25. -/
def demoRange : Bitmap := (NewBitmapWithRang 10 30 5).getD ⟨[], 0, 1, 0⟩

/-- Bitmap `demoRange` after `Set(15)` and `Set(25)`. -/
def demoMarked : Bitmap :=
  ((demoRange.Set 15).bind fun b => b.Set 25).getD demoRange

/-- Bitmap of the eight positions from `math.MaxInt64 - 3` on: the last four wrap
around to `math.MinInt64` and above. -/
def wrapOffset : Bitmap := (NewBitmapWithOffset 8 9223372036854775804).getD ⟨[], 0, 1, 0⟩

/-- Bitmap `wrapOffset` after `Set(math.MaxInt64)` and `Set(math.MinInt64)`. -/
def wrapMarked : Bitmap :=
  ((wrapOffset.Set 9223372036854775807).bind
    fun b => b.Set (-9223372036854775808)).getD wrapOffset

/-- Zero value of the type `Bitmap`, as `var b bitmap.Bitmap` declares it. -/
def zeroBitmap : Bitmap := ⟨[], 0, 0, 0⟩

/-- Bitmap of eight positions with the offset `math.MaxInt64`. -/
def topOffset : Bitmap := (NewBitmapWithOffset 8 9223372036854775807).getD ⟨[], 0, 1, 0⟩

/-- What `NewBitmapWithRang(0, 10, math.MaxInt64)` returns. -/
def overflowRange : Bitmap :=
  (NewBitmapWithRang 0 10 9223372036854775807).getD ⟨[], 0, 1, 0⟩

end bitmap

/-! ## Durations: lemmas -/

/-- A positive duration is sent as at least one millisecond. -/
theorem formatMs_pos (dur : Int) (h : 0 < dur) : 0 < formatMs dur := by
  unfold formatMs
  split
  · decide
  · rename_i hn
    rw [Int.tdiv_eq_ediv (le_of_lt h) (by decide)]
    unfold Millisecond at *
    omega

/-- A positive duration below one millisecond is sent as one millisecond. -/
theorem formatMs_small (dur : Int) (h0 : 0 < dur) (h : dur < Millisecond) :
    formatMs dur = 1 := by
  simp [formatMs, h0, h]

/-- A duration of at least one millisecond is truncated to whole milliseconds. -/
theorem formatMs_large (dur : Int) (h : Millisecond ≤ dur) :
    formatMs dur = Int.tdiv dur Millisecond ∧ formatMs dur * Millisecond ≤ dur ∧
      dur < formatMs dur * Millisecond + Millisecond := by
  have h0 : (0 : Int) ≤ dur := le_trans (by decide) h
  have hf : formatMs dur = Int.tdiv dur Millisecond := by
    unfold formatMs
    rw [if_neg]
    intro hh
    exact absurd hh.2 (not_lt.mpr h)
  rw [hf, Int.tdiv_eq_ediv h0 (by decide)]
  unfold Millisecond at *
  refine ⟨rfl, ?_, ?_⟩ <;> omega

/-- A positive whole number of milliseconds is sent as it is. -/
theorem formatMs_whole (dur : Int) (h0 : 0 < dur) (hdvd : Millisecond ∣ dur) :
    formatMs dur * Millisecond = dur := by
  have hle : Millisecond ≤ dur := Int.le_of_dvd h0 hdvd
  rw [(formatMs_large dur hle).1, Int.tdiv_eq_ediv (le_of_lt h0) (by decide)]
  exact Int.ediv_mul_cancel hdvd

/-! ## 64-bit wrap: lemmas -/

/-- A value of type `int64` is its own wrap. -/
theorem wrap64_of_isInt64 (z : Int) (h : IsInt64 z) : wrap64 z = z := by
  unfold wrap64
  unfold IsInt64 at h
  omega

/-- A wrapped value is of type `int64`. -/
theorem isInt64_wrap64 (z : Int) : IsInt64 (wrap64 z) := by
  unfold wrap64 IsInt64
  omega

/-- Wrapping an operand of a sum before the sum changes nothing. -/
theorem wrap64_add_left (a b : Int) : wrap64 (wrap64 a + b) = wrap64 (a + b) := by
  unfold wrap64
  omega

/-- Wrapping an operand of a difference before the difference changes nothing. -/
theorem wrap64_sub_left (a b : Int) : wrap64 (wrap64 a - b) = wrap64 (a - b) := by
  unfold wrap64
  omega

/-- Two values of type `int64` with the same wrap are equal. -/
theorem wrap64_inj (a b : Int) (ha : IsInt64 a) (hb : IsInt64 b) (h : wrap64 a = wrap64 b) :
    a = b := by
  rw [wrap64_of_isInt64 a ha, wrap64_of_isInt64 b hb] at h
  exact h

/-! ## Exclusive lock: lemmas -/

namespace redislock

theorem put_same (st : Store) (key : String) (v : Option Entry) :
    st.put key v key = v := by
  simp [Store.put]

theorem put_other (st : Store) (key k : String) (v : Option Entry) (h : k ≠ key) :
    st.put key v k = st k := by
  simp [Store.put, h]

/-- `Lock()` on a key that exists: not acquired, no error, same store, same handle. -/
theorem lock_present (r : Lock) (st : Store) (e : Entry) (h : st r.key = some e) :
    (r.Lock st none).acquired = false ∧ (r.Lock st none).err = none ∧
      (r.Lock st none).store = st ∧ (r.Lock st none).handle = r := by
  simp [Lock.Lock, SetNX, h]

/-- `Lock()` on an absent key: acquired, no error, the key now holds the token. -/
theorem lock_absent (r : Lock) (st : Store) (h : st r.key = none) :
    (r.Lock st none).acquired = true ∧ (r.Lock st none).err = none ∧
      (r.Lock st none).store = st.put r.key (some ⟨r.holder, setTtl r.expiration⟩) ∧
      (r.Lock st none).handle.keepAlive = true := by
  cases hk : r.keepAlive <;> simp [Lock.Lock, SetNX, h, hk, Lock.startKeepAlive]

/-- `Unlock()` when the key does not hold the own token (absent key included): the
error of status `-1`, same store, same handle. -/
theorem unlock_mismatch (r : Lock) (st : Store) (h : GET st r.key ≠ some r.holder) :
    (r.Unlock st none).err = some (GoError.errorf msgDifferentHolder) ∧
      (r.Unlock st none).store = st ∧ (r.Unlock st none).handle = r := by
  simp [Lock.Unlock, unlockScript, h]

/-- `Unlock()` when the key holds the own token: no error, key deleted, flag cleared. -/
theorem unlock_match (r : Lock) (st : Store) (h : GET st r.key = some r.holder) :
    (r.Unlock st none).err = none ∧ (r.Unlock st none).store = st.put r.key none ∧
      (r.Unlock st none).handle = r.stopKeepAlive := by
  obtain ⟨ent, hent, -⟩ : ∃ ent, st r.key = some ent ∧ ent.value = r.holder := by
    simpa [GET] using h
  simp [Lock.Unlock, unlockScript, h, DEL, hent]

/-- An event other than a successful `Unlock()` of the holder and an expiry of its key
leaves the token stored under the key of the holder in place. -/
theorem keeps_holder (a : Lock) (st : Store) (e : Event) (hk : e.keeps a st)
    (hold : GET st a.key = some a.holder) : GET (e.apply st) a.key = some a.holder := by
  obtain ⟨ent, hent, hval⟩ : ∃ ent, st a.key = some ent ∧ ent.value = a.holder := by
    simpa [GET] using hold
  cases e with
  | lock h fault =>
    cases fault with
    | some err => simpa [Event.apply, Lock.Lock] using hold
    | none =>
      cases hh : st h.key with
      | some e2 => simpa [Event.apply, Lock.Lock, SetNX, hh] using hold
      | none =>
        have hne : a.key ≠ h.key := by
          intro heq; rw [heq] at hent; rw [hent] at hh; cases hh
        simp [Event.apply, Lock.Lock, SetNX, hh, GET, Store.put, hne, hent, hval]
  | unlock h fault =>
    cases fault with
    | some err => simpa [Event.apply, Lock.Unlock] using hold
    | none =>
      by_cases hm : GET st h.key = some h.holder
      · have hne : a.key ≠ h.key := by
          intro heq
          apply hk
          refine ⟨heq.symm, ?_, (unlock_match h st hm).1⟩
          rw [← heq, hold] at hm
          exact (Option.some.inj hm).symm
        simp [Event.apply, (unlock_match h st hm).2.1, GET, Store.put, hne, hent, hval]
      · simpa [Event.apply, (unlock_mismatch h st hm).2.1] using hold
  | tick h =>
    have hpos : ¬ formatMs h.expiration ≤ 0 := not_le.mpr (formatMs_pos _ hk)
    by_cases hkey : h.key = a.key
    · simp [Event.apply, Lock.keepAliveTick, PExpire, hkey, hent, hpos, GET, Store.put, hval]
    · have hne : a.key ≠ h.key := fun h1 => hkey h1.symm
      cases hh : st h.key <;>
        simp [Event.apply, Lock.keepAliveTick, PExpire, hh, hpos, GET, Store.put, hne, hent,
          hval]
  | expire key =>
    have hne : a.key ≠ key := fun h1 => hk h1.symm
    simp [Event.apply, expire, GET, Store.put, hne, hent, hval]

/-- A quiet sequence of events leaves the token of the holder in place. -/
theorem quiet_holder (a : Lock) (evs : List Event) :
    ∀ st : Store, Quiet a st evs → GET st a.key = some a.holder →
      GET (run st evs) a.key = some a.holder := by
  induction evs with
  | nil => intro st _ h; simpa [run] using h
  | cons e es ih =>
    intro st hq h
    exact ih (e.apply st) hq.2 (keeps_holder a st e hq.1 h)

end redislock

/-! ## Exclusive lock: properties -/

namespace redislock

/-- C1: mutual exclusion of the exclusive lock.  If `a.Lock()` returned true on `st` and
the events since then contain neither a successful `Unlock()` with the token of `a` on
its key nor an expiry of that key, then `Lock()` of every handle `b` on the same key
(whatever its token, the handle `a` itself included) returns `(false, nil)` and the key
still holds the token of `a`. -/
theorem C1_exclusive_lock_excludes (a b : Lock) (st : Store) (evs : List Event)
    (hkey : b.key = a.key) (hacq : (a.Lock st none).acquired = true)
    (hquiet : Quiet a (a.Lock st none).store evs) :
    (b.Lock (run (a.Lock st none).store evs) none).acquired = false ∧
      (b.Lock (run (a.Lock st none).store evs) none).err = none ∧
      GET (b.Lock (run (a.Lock st none).store evs) none).store a.key = some a.holder ∧
      ((a.Lock st none).handle.Lock (run (a.Lock st none).store evs) none).acquired
        = false := by
  have habs : st a.key = none := by
    cases h : st a.key with
    | none => rfl
    | some e => rw [(lock_present a st e h).1] at hacq; cases hacq
  have h0 : GET (a.Lock st none).store a.key = some a.holder := by
    rw [(lock_absent a st habs).2.2.1]; simp [GET, Store.put]
  have h1 := quiet_holder a evs _ hquiet h0
  obtain ⟨ent, hent, -⟩ :
      ∃ ent, run (a.Lock st none).store evs a.key = some ent ∧ ent.value = a.holder := by
    simpa [GET] using h1
  have hb := lock_present b _ ent (by rw [hkey]; exact hent)
  have hakey : (a.Lock st none).handle.key = a.key := by
    cases hk : a.keepAlive <;> simp [Lock.Lock, SetNX, habs, hk, Lock.startKeepAlive]
  have ha := lock_present (a.Lock st none).handle _ ent (by rw [hakey]; exact hent)
  refine ⟨hb.1, hb.2.1, ?_, ha.1⟩
  rw [hb.2.2.1]; exact h1

/-- Witness of C1: `handleA` locks the empty store, then `handleB` tries to lock, the
ticker of `handleA` fires, `handleB` tries to unlock and another key expires. -/
theorem C1_exclusive_lock_excludes_witness :
    (handleB.Lock (run (handleA.Lock Store.empty none).store
        [Event.lock handleB none, Event.tick (handleA.Lock Store.empty none).handle,
          Event.unlock handleB none, Event.expire "job:7"]) none).acquired = false ∧
      (handleB.Lock (run (handleA.Lock Store.empty none).store
        [Event.lock handleB none, Event.tick (handleA.Lock Store.empty none).handle,
          Event.unlock handleB none, Event.expire "job:7"]) none).err = none ∧
      GET (handleB.Lock (run (handleA.Lock Store.empty none).store
        [Event.lock handleB none, Event.tick (handleA.Lock Store.empty none).handle,
          Event.unlock handleB none, Event.expire "job:7"]) none).store handleA.key
        = some handleA.holder ∧
      ((handleA.Lock Store.empty none).handle.Lock (run (handleA.Lock Store.empty none).store
        [Event.lock handleB none, Event.tick (handleA.Lock Store.empty none).handle,
          Event.unlock handleB none, Event.expire "job:7"]) none).acquired = false :=
  C1_exclusive_lock_excludes handleA handleB Store.empty _ rfl
    (by simp [Lock.Lock, SetNX, Store.empty])
    (by decide)

/-- C2 as stated fails: a handle with a lease of 1.5 ms locks an absent key, `Lock()`
returns true, and the key holds the token with a time to live of 1 ms, not of the
lease: the client sends the lease in whole milliseconds. -/
theorem C2_ttl_below_the_lease :
    handleShort.expiration = 1500000 ∧ Store.empty handleShort.key = none ∧
      (handleShort.Lock Store.empty none).acquired = true ∧
      (handleShort.Lock Store.empty none).store handleShort.key
        = some ⟨handleShort.holder, some 1000000⟩ ∧
      (handleShort.Lock Store.empty none).store handleShort.key
        ≠ some ⟨handleShort.holder, some handleShort.expiration⟩ := by
  decide

/-- C2 (amended): `Lock()` of the exclusive lock, the store answering.  It returns true
exactly when the key did not exist; it never returns an error; on an existing key it
returns `(false, nil)` and leaves the store as it was; when it returns true the key
afterwards holds the token of the handle, and for a positive lease its time to live is
the lease in whole milliseconds: one millisecond for a lease below a millisecond, the
lease truncated to milliseconds otherwise (within a millisecond below the lease), the
lease itself when it is a whole number of milliseconds. -/
theorem C2_lock_iff_key_absent (r : Lock) (st : Store) :
    ((r.Lock st none).acquired = true ↔ st r.key = none) ∧
      (r.Lock st none).err = none ∧
      (∀ e, st r.key = some e →
        (r.Lock st none).acquired = false ∧ (r.Lock st none).err = none ∧
          (r.Lock st none).store = st) ∧
      ((r.Lock st none).acquired = true →
        (r.Lock st none).store r.key = some ⟨r.holder, setTtl r.expiration⟩) ∧
      (0 < r.expiration →
        setTtl r.expiration = some (formatMs r.expiration * Millisecond)) ∧
      (0 < r.expiration → r.expiration < Millisecond →
        setTtl r.expiration = some Millisecond) ∧
      (Millisecond ≤ r.expiration →
        setTtl r.expiration = some (Int.tdiv r.expiration Millisecond * Millisecond) ∧
          Int.tdiv r.expiration Millisecond * Millisecond ≤ r.expiration ∧
          r.expiration < Int.tdiv r.expiration Millisecond * Millisecond + Millisecond) ∧
      (0 < r.expiration → Millisecond ∣ r.expiration →
        setTtl r.expiration = some r.expiration) := by
  have httl : 0 < r.expiration →
      setTtl r.expiration = some (formatMs r.expiration * Millisecond) := by
    intro h0; simp [setTtl, h0]
  have hrest : (0 < r.expiration → r.expiration < Millisecond →
        setTtl r.expiration = some Millisecond) ∧
      (Millisecond ≤ r.expiration →
        setTtl r.expiration = some (Int.tdiv r.expiration Millisecond * Millisecond) ∧
          Int.tdiv r.expiration Millisecond * Millisecond ≤ r.expiration ∧
          r.expiration < Int.tdiv r.expiration Millisecond * Millisecond + Millisecond) ∧
      (0 < r.expiration → Millisecond ∣ r.expiration →
        setTtl r.expiration = some r.expiration) := by
    refine ⟨?_, ?_, ?_⟩
    · intro h0 h1
      rw [httl h0, formatMs_small _ h0 h1, Int.one_mul]
    · intro h1
      have hl := formatMs_large _ h1
      have h0 : 0 < r.expiration := lt_of_lt_of_le (by decide) h1
      rw [httl h0, ← hl.1]
      exact ⟨rfl, hl.2.1, hl.2.2⟩
    · intro h0 hd
      rw [httl h0, formatMs_whole _ h0 hd]
  cases h : st r.key with
  | none =>
    have ha := lock_absent r st h
    refine ⟨⟨fun _ => rfl, fun _ => ha.1⟩, ha.2.1, ?_, ?_, httl, hrest⟩
    · intro e he; cases he
    · intro _; rw [ha.2.2.1]; exact put_same _ _ _
  | some e =>
    have hp := lock_present r st e h
    refine ⟨⟨?_, ?_⟩, hp.2.1, ?_, ?_, httl, hrest⟩
    · intro h1; rw [hp.1] at h1; cases h1
    · intro h1; cases h1
    · intro e2 _; exact ⟨hp.1, hp.2.1, hp.2.2.1⟩
    · intro h1; rw [hp.1] at h1; cases h1

/-- C3 (what the code does): `Unlock()` on an absent key, the store answering, returns
the error of status `-1`, "lock is held by a different holder", and not the error of
status `0`, "lock does not exist"; store and handle are unchanged. -/
theorem C3_unlock_absent_reports_different_holder (r : Lock) (st : Store)
    (habs : st r.key = none) :
    (r.Unlock st none).err = some (GoError.errorf msgDifferentHolder) ∧
      (r.Unlock st none).err ≠ some (GoError.errorf msgNotExist) ∧
      (r.Unlock st none).err ≠ none ∧
      (r.Unlock st none).store = st ∧ (r.Unlock st none).handle = r := by
  have hm := unlock_mismatch r st (by simp [GET, habs])
  refine ⟨hm.1, ?_, ?_, hm.2.1, hm.2.2⟩
  · rw [hm.1]; simp [msgDifferentHolder, msgNotExist]
  · rw [hm.1]; simp

/-- Witness of C3: `handleA.Unlock()` on the empty store. -/
theorem C3_unlock_absent_reports_different_holder_witness :
    (handleA.Unlock Store.empty none).err = some (GoError.errorf msgDifferentHolder) ∧
      (handleA.Unlock Store.empty none).err ≠ some (GoError.errorf msgNotExist) ∧
      (handleA.Unlock Store.empty none).err ≠ none ∧
      (handleA.Unlock Store.empty none).store = Store.empty ∧
      (handleA.Unlock Store.empty none).handle = handleA :=
  C3_unlock_absent_reports_different_holder handleA Store.empty rfl

/-- C5: `Unlock()` of the exclusive lock by the handle whose token is stored under the
key returns nil, deletes the key and clears the keep-alive flag, and the next `Lock()`
of any handle `b` on that key returns true; on a key absent at first the sequence
`a.Lock(); b.Lock(); a.Unlock(); b.Lock()` returns true, false, nil, true. -/
theorem C5_unlock_by_holder_releases (a b : Lock) (hkey : b.key = a.key) :
    (∀ st : Store, GET st a.key = some a.holder →
      (a.Unlock st none).err = none ∧ (a.Unlock st none).store a.key = none ∧
        (a.Unlock st none).handle.keepAlive = false ∧
        (b.Lock (a.Unlock st none).store none).acquired = true ∧
        (b.Lock (a.Unlock st none).store none).err = none) ∧
      (∀ st : Store, st a.key = none →
        lockLockUnlockLock a b st = (true, false, none, true)) := by
  have part1 : ∀ (x : Lock) (st : Store), x.key = a.key → GET st x.key = some x.holder →
      (x.Unlock st none).err = none ∧ (x.Unlock st none).store a.key = none ∧
        (x.Unlock st none).handle.keepAlive = false ∧
        (b.Lock (x.Unlock st none).store none).acquired = true ∧
        (b.Lock (x.Unlock st none).store none).err = none := by
    intro x st hx hold
    have hm := unlock_match x st hold
    have habs : (x.Unlock st none).store b.key = none := by
      rw [hm.2.1, hkey, ← hx]; exact put_same _ _ _
    have hl := lock_absent b _ habs
    refine ⟨hm.1, ?_, ?_, hl.1, hl.2.1⟩
    · rw [← hkey]; exact habs
    · rw [hm.2.2]; rfl
  refine ⟨fun st hold => part1 a st rfl hold, ?_⟩
  intro st habs
  have h1 := lock_absent a st habs
  have hakey : (a.Lock st none).handle.key = a.key := by
    cases hk : a.keepAlive <;> simp [Lock.Lock, SetNX, habs, hk, Lock.startKeepAlive]
  have hahold : (a.Lock st none).handle.holder = a.holder := by
    cases hk : a.keepAlive <;> simp [Lock.Lock, SetNX, habs, hk, Lock.startKeepAlive]
  have hent : (a.Lock st none).store b.key = some ⟨a.holder, setTtl a.expiration⟩ := by
    rw [h1.2.2.1, hkey]; exact put_same _ _ _
  have h2 := lock_present b _ _ hent
  have hold : GET (b.Lock (a.Lock st none).store none).store (a.Lock st none).handle.key
      = some (a.Lock st none).handle.holder := by
    rw [h2.2.2.1, hakey, hahold, ← hkey]; simp [GET, hent]
  have h3 := part1 (a.Lock st none).handle _ hakey hold
  simp only [lockLockUnlockLock, h1.1, h2.1, h3.1, h2.2.2.2, h3.2.2.2.1]

/-- Witness of C5: `handleA` and `handleB` on `job:42`, from the store in which
`handleA` holds the key and from the empty store. -/
theorem C5_unlock_by_holder_releases_witness :
    ((handleA.Unlock storeHeldByA none).err = none ∧
        (handleA.Unlock storeHeldByA none).store handleA.key = none ∧
        (handleA.Unlock storeHeldByA none).handle.keepAlive = false ∧
        (handleB.Lock (handleA.Unlock storeHeldByA none).store none).acquired = true ∧
        (handleB.Lock (handleA.Unlock storeHeldByA none).store none).err = none) ∧
      lockLockUnlockLock handleA handleB Store.empty = (true, false, none, true) :=
  ⟨(C5_unlock_by_holder_releases handleA handleB rfl).1 storeHeldByA
      (by simp [GET, storeHeldByA, Store.put, handleA, NewLock]),
    (C5_unlock_by_holder_releases handleA handleB rfl).2 Store.empty rfl⟩

end redislock

/-! ## Reentrant lock: lemmas -/

namespace reentrantlock

theorem hash_put_same (st : Store) (key : String) (v : Option Hash) :
    st.put key v key = v := by
  simp [Store.put]

theorem hash_put_other (st : Store) (key k : String) (v : Option Hash) (h : k ≠ key) :
    st.put key v k = st k := by
  simp [Store.put, h]

theorem hash_put_put (st : Store) (key : String) (v w : Option Hash) :
    (st.put key v).put key w = st.put key w := by
  funext k
  by_cases h : k = key <;> simp [Store.put, h]

/-- The lease in whole milliseconds, as `Lock()` hands it to the script. -/
theorem lease_ms_pos (r : ReentrantLock) (hlease : Millisecond ≤ r.expiration) :
    0 < Int.tdiv r.expiration Millisecond := by
  have h0 : (0 : Int) ≤ r.expiration := le_trans (by decide) hlease
  rw [Int.tdiv_eq_ediv h0 (by decide)]
  unfold Millisecond at *
  omega

/-- `Lock()` on an absent key with a lease of at least a millisecond: acquired, the
record is created with count `1` and the lease truncated to whole milliseconds. -/
theorem relock_absent (r : ReentrantLock) (st : Store) (h : st r.key = none)
    (hlease : Millisecond ≤ r.expiration) :
    (r.Lock st none).acquired = true ∧ (r.Lock st none).err = none ∧
      (r.Lock st none).store = st.put r.key
        (some ⟨r.holder, 1, some (Int.tdiv r.expiration Millisecond * Millisecond)⟩) ∧
      (r.Lock st none).handle = r.startKeepAlive := by
  have hms : ¬ Int.tdiv r.expiration Millisecond ≤ 0 := not_le.mpr (lease_ms_pos r hlease)
  have hst : (r.Lock st none).store = st.put r.key
      (some ⟨r.holder, 1, some (Int.tdiv r.expiration Millisecond * Millisecond)⟩) := by
    simp [ReentrantLock.Lock, lockScript, HGET_holder, h, HSET, PEXPIRE, hash_put_same, hash_put_put,
      hms]
  refine ⟨?_, ?_, hst, ?_⟩
  · simp [ReentrantLock.Lock, lockScript, HGET_holder, h]
  · simp [ReentrantLock.Lock]
  · cases hk : r.keepAlive <;>
      simp [ReentrantLock.Lock, lockScript, HGET_holder, h, hk, ReentrantLock.startKeepAlive]
    cases r; simp_all

/-- `Lock()` on a record of the own token with a lease of at least a millisecond:
acquired, count incremented by one, time to live reset. -/
theorem relock_own (r : ReentrantLock) (st : Store) (h : Hash) (hrec : st r.key = some h)
    (hown : h.holder = r.holder) (hlease : Millisecond ≤ r.expiration) :
    (r.Lock st none).acquired = true ∧ (r.Lock st none).err = none ∧
      (r.Lock st none).store = st.put r.key
        (some ⟨h.holder, h.count + 1,
          some (Int.tdiv r.expiration Millisecond * Millisecond)⟩) ∧
      (r.Lock st none).handle = r.startKeepAlive := by
  have hms : ¬ Int.tdiv r.expiration Millisecond ≤ 0 := not_le.mpr (lease_ms_pos r hlease)
  have hst : (r.Lock st none).store = st.put r.key
      (some ⟨h.holder, h.count + 1,
        some (Int.tdiv r.expiration Millisecond * Millisecond)⟩) := by
    simp [ReentrantLock.Lock, lockScript, HGET_holder, hrec, hown, HINCRBY, PEXPIRE, hash_put_same,
      hash_put_put, hms]
  refine ⟨?_, ?_, hst, ?_⟩
  · simp [ReentrantLock.Lock, lockScript, HGET_holder, hrec, hown]
  · simp [ReentrantLock.Lock]
  · cases hk : r.keepAlive <;>
      simp [ReentrantLock.Lock, lockScript, HGET_holder, hrec, hown, hk,
        ReentrantLock.startKeepAlive]
    cases r; simp_all

/-- `Lock()` on a record of another token: `(false, nil)`, same store, same handle. -/
theorem relock_other (r : ReentrantLock) (st : Store) (h : Hash) (hrec : st r.key = some h)
    (hother : h.holder ≠ r.holder) :
    (r.Lock st none).acquired = false ∧ (r.Lock st none).err = none ∧
      (r.Lock st none).store = st ∧ (r.Lock st none).handle = r := by
  simp [ReentrantLock.Lock, lockScript, HGET_holder, hrec, hother]

/-- `Unlock()` when the record does not carry the own token (absent record included):
the error of status `-1`, same store, same handle. -/
theorem reunlock_mismatch (r : ReentrantLock) (st : Store)
    (h : HGET_holder st r.key ≠ some r.holder) :
    (r.Unlock st none).err = some (GoError.errorf msgDifferentHolder) ∧
      (r.Unlock st none).store = st ∧ (r.Unlock st none).handle = r := by
  simp [ReentrantLock.Unlock, unlockScript, h]

/-- `Unlock()` of the holder while the count stays positive: nil, count decremented,
handle unchanged. -/
theorem reunlock_own_held (r : ReentrantLock) (st : Store) (h : Hash)
    (hrec : st r.key = some h) (hown : h.holder = r.holder) (hcount : 1 < h.count) :
    (r.Unlock st none).err = none ∧
      (r.Unlock st none).store = st.put r.key (some ⟨h.holder, h.count - 1, h.ttl⟩) ∧
      (r.Unlock st none).handle = r := by
  have hc : ¬ h.count + -1 ≤ 0 := by omega
  simp [ReentrantLock.Unlock, unlockScript, HGET_holder, hrec, hown, HINCRBY, hc]
  rfl

/-- `Unlock()` of the holder that brings the count to zero or below: nil, record
deleted, keep-alive flag cleared. -/
theorem reunlock_own_last (r : ReentrantLock) (st : Store) (h : Hash)
    (hrec : st r.key = some h) (hown : h.holder = r.holder) (hcount : h.count ≤ 1) :
    (r.Unlock st none).err = none ∧ (r.Unlock st none).store = st.put r.key none ∧
      (r.Unlock st none).handle = r.stopKeepAlive := by
  have hc : h.count + -1 ≤ 0 := by omega
  simp [ReentrantLock.Unlock, unlockScript, HGET_holder, hrec, hown, HINCRBY, hc, DEL,
    hash_put_same, hash_put_put]

/-- After `n + 1` calls of `Lock()` on a key absent at first the record has count
`n + 1` and the flag is set. -/
theorem lockTimes_succ (r : ReentrantLock) (st : Store) (habs : st r.key = none)
    (hlease : Millisecond ≤ r.expiration) (n : Nat) :
    lockTimes r st (n + 1) = (r.startKeepAlive, st.put r.key
      (some ⟨r.holder, (n : Int) + 1,
        some (Int.tdiv r.expiration Millisecond * Millisecond)⟩)) := by
  induction n with
  | zero =>
    have h := relock_absent r st habs hlease
    simp only [lockTimes, h.2.2.1, h.2.2.2]
    simp
  | succ n ih =>
    have hrec : (st.put r.key (some ⟨r.holder, (n : Int) + 1,
        some (Int.tdiv r.expiration Millisecond * Millisecond)⟩)) r.startKeepAlive.key
        = some ⟨r.holder, (n : Int) + 1,
          some (Int.tdiv r.expiration Millisecond * Millisecond)⟩ := hash_put_same _ _ _
    have h := relock_own r.startKeepAlive _ _ hrec rfl hlease
    rw [lockTimes, ih]
    simp only [h.2.2.1, h.2.2.2]
    simp [ReentrantLock.startKeepAlive, hash_put_put]

/-- While fewer unlocks than the count have been made, the record stays, its count
lowered by the number of unlocks, and the handle is untouched. -/
theorem unlockTimes_held (x : ReentrantLock) (st : Store) (c : Int) (t : Option Int)
    (k : Nat) (hk : (k : Int) < c) :
    unlockTimes x (st.put x.key (some ⟨x.holder, c, t⟩)) k
      = (x, st.put x.key (some ⟨x.holder, c - k, t⟩)) := by
  induction k with
  | zero => simp [unlockTimes]
  | succ k ih =>
    have hk2 : (k : Int) < c := by push_cast at hk; omega
    have hrec : (st.put x.key (some ⟨x.holder, c - k, t⟩)) x.key
        = some ⟨x.holder, c - k, t⟩ := hash_put_same _ _ _
    have h := reunlock_own_held x _ _ hrec rfl (by push_cast at hk; show 1 < c - k; omega)
    rw [unlockTimes, ih hk2]
    simp only [h.2.1, h.2.2, hash_put_put]
    push_cast
    rw [sub_sub]

/-- The unlock that matches the last outstanding lock deletes the record and clears the
flag. -/
theorem unlockTimes_last (x : ReentrantLock) (st : Store) (t : Option Int) (k : Nat) :
    unlockTimes x (st.put x.key (some ⟨x.holder, (k : Int) + 1, t⟩)) (k + 1)
      = (x.stopKeepAlive, st.put x.key none) := by
  have hheld := unlockTimes_held x st ((k : Int) + 1) t k (by omega)
  have hrec : (st.put x.key (some ⟨x.holder, (k : Int) + 1 - k, t⟩)) x.key
      = some ⟨x.holder, (k : Int) + 1 - k, t⟩ := hash_put_same _ _ _
  have h := reunlock_own_last x _ _ hrec rfl (by show (k : Int) + 1 - k ≤ 1; omega)
  rw [unlockTimes, hheld]
  simp only [h.2.1, h.2.2, hash_put_put]

end reentrantlock

/-! ## Reentrant lock: properties -/

namespace reentrantlock

/-- C6 as stated fails: with a lease of 0.5 ms the script receives
`int(expiration / time.Millisecond) = 0` and `PEXPIRE key 0` deletes the record its own
`HSET` just wrote.  Each of three calls of `Lock()` in a row on the absent key returns
true, no expiry and no other handle acting, and the record is absent afterwards, not
present with count 3; the `Unlock()` that follows returns an error, not nil. -/
theorem C6_sub_millisecond_lease_leaves_no_record :
    reentrantTiny.expiration = 500000 ∧ Store.empty reentrantTiny.key = none ∧
      (∀ i, i < 3 → ((lockTimes reentrantTiny Store.empty i).1.Lock
        (lockTimes reentrantTiny Store.empty i).2 none).acquired = true) ∧
      (lockTimes reentrantTiny Store.empty 1).2 reentrantTiny.key = none ∧
      (lockTimes reentrantTiny Store.empty 3).2 reentrantTiny.key = none ∧
      ((lockTimes reentrantTiny Store.empty 3).1.Unlock
        (lockTimes reentrantTiny Store.empty 3).2 none).err
        = some (GoError.errorf msgDifferentHolder) := by
  decide

/-- C6 (amended): nesting of the reentrant lock.  On a key absent at first, with a lease of at
least a millisecond, no expiry and no other handle acting, for every `N ≥ 1` each of
`N` calls of `Lock()` in a row returns `(true, nil)` and the record then has count `N`;
each of the `N` calls of `Unlock()` that follow returns nil; after `k < N` of them the
record is still there with count `N - k > 0` and the keep-alive flag is still set; after
the `N`-th the record is deleted and the flag is cleared. -/
theorem C6_reentrant_nesting (r : ReentrantLock) (st : Store) (N : Nat) (hN : 1 ≤ N)
    (habs : st r.key = none) (hlease : Millisecond ≤ r.expiration) :
    (∀ i, i < N → ((lockTimes r st i).1.Lock (lockTimes r st i).2 none).acquired = true ∧
        ((lockTimes r st i).1.Lock (lockTimes r st i).2 none).err = none) ∧
      (lockTimes r st N).2 r.key = some ⟨r.holder, N,
        some (Int.tdiv r.expiration Millisecond * Millisecond)⟩ ∧
      (lockTimes r st N).1.keepAlive = true ∧
      (∀ k, k < N → ((lockThenUnlock r st N k).1.Unlock (lockThenUnlock r st N k).2
        none).err = none) ∧
      (∀ k, k < N → (lockThenUnlock r st N k).2 r.key = some ⟨r.holder, (N : Int) - k,
          some (Int.tdiv r.expiration Millisecond * Millisecond)⟩ ∧
        (0 : Int) < (N : Int) - k ∧ (lockThenUnlock r st N k).1.keepAlive = true) ∧
      (lockThenUnlock r st N N).2 r.key = none ∧
      (lockThenUnlock r st N N).1.keepAlive = false := by
  obtain ⟨n, rfl⟩ : ∃ n, N = n + 1 := ⟨N - 1, by omega⟩
  have hP := lockTimes_succ r st habs hlease n
  have hheld : ∀ k, k < n + 1 → lockThenUnlock r st (n + 1) k
      = (r.startKeepAlive, st.put r.key (some ⟨r.holder, ((n : Int) + 1) - k,
          some (Int.tdiv r.expiration Millisecond * Millisecond)⟩)) := by
    intro k hk
    rw [lockThenUnlock, hP]
    exact unlockTimes_held r.startKeepAlive st _ _ k (by omega)
  refine ⟨?_, ?_, ?_, ?_, ?_, ?_, ?_⟩
  · intro i hi
    cases i with
    | zero =>
      have h := relock_absent r st habs hlease
      exact ⟨h.1, h.2.1⟩
    | succ j =>
      rw [lockTimes_succ r st habs hlease j]
      have h := relock_own r.startKeepAlive _ ⟨r.holder, (j : Int) + 1,
        some (Int.tdiv r.expiration Millisecond * Millisecond)⟩
        (hash_put_same st r.key _) rfl hlease
      exact ⟨h.1, h.2.1⟩
  · rw [hP]; simp [Store.put]
  · rw [hP]; rfl
  · intro k hk
    rw [hheld k hk]
    by_cases hlast : k = n
    · subst hlast
      exact (reunlock_own_last r.startKeepAlive _ _ (hash_put_same st r.key _) rfl
        (by show (k : Int) + 1 - k ≤ 1; omega)).1
    · exact (reunlock_own_held r.startKeepAlive _ _ (hash_put_same st r.key _) rfl
        (by show 1 < (n : Int) + 1 - k; omega)).1
  · intro k hk
    rw [hheld k hk]
    refine ⟨?_, by push_cast; omega, rfl⟩
    simp [Store.put, ReentrantLock.startKeepAlive]
  · rw [lockThenUnlock, hP]
    have h : unlockTimes r.startKeepAlive (st.put r.key (some ⟨r.holder, (n : Int) + 1,
        some (Int.tdiv r.expiration Millisecond * Millisecond)⟩)) (n + 1)
        = (r.startKeepAlive.stopKeepAlive, st.put r.key none) :=
      unlockTimes_last r.startKeepAlive st _ n
    show (unlockTimes r.startKeepAlive _ (n + 1)).2 r.key = none
    rw [h]; simp [Store.put]
  · rw [lockThenUnlock, hP]
    have h : unlockTimes r.startKeepAlive (st.put r.key (some ⟨r.holder, (n : Int) + 1,
        some (Int.tdiv r.expiration Millisecond * Millisecond)⟩)) (n + 1)
        = (r.startKeepAlive.stopKeepAlive, st.put r.key none) :=
      unlockTimes_last r.startKeepAlive st _ n
    show (unlockTimes r.startKeepAlive _ (n + 1)).1.keepAlive = false
    rw [h]; rfl

/-- Witness of C6: three locks and three unlocks of `reentrantA` on the empty store. -/
theorem C6_reentrant_nesting_witness :
    (lockTimes reentrantA Store.empty 3).2 reentrantA.key = some ⟨reentrantA.holder, (3 : Nat),
        some (Int.tdiv reentrantA.expiration Millisecond * Millisecond)⟩ ∧
      (lockThenUnlock reentrantA Store.empty 3 2).2 reentrantA.key
        = some ⟨reentrantA.holder, ((3 : Nat) : Int) - (2 : Nat),
          some (Int.tdiv reentrantA.expiration Millisecond * Millisecond)⟩ ∧
      (lockThenUnlock reentrantA Store.empty 3 2).1.keepAlive = true ∧
      (lockThenUnlock reentrantA Store.empty 3 3).2 reentrantA.key = none ∧
      (lockThenUnlock reentrantA Store.empty 3 3).1.keepAlive = false :=
  have h := C6_reentrant_nesting reentrantA Store.empty 3 (by decide) rfl (by decide)
  ⟨h.2.1, (h.2.2.2.2.1 2 (by decide)).1, (h.2.2.2.2.1 2 (by decide)).2.2, h.2.2.2.2.2.1,
    h.2.2.2.2.2.2⟩

/-- C7 as stated fails: with a lease of 1.5 ms `Lock()` on an absent record creates it
with a time to live of 1 ms, not of the lease duration. -/
theorem C7_ttl_is_not_the_lease :
    Store.empty reentrantShort.key = none ∧
      reentrantShort.expiration = 1500000 ∧
      (reentrantShort.Lock Store.empty none).acquired = true ∧
      (reentrantShort.Lock Store.empty none).store reentrantShort.key
        = some ⟨reentrantShort.holder, 1, some 1000000⟩ ∧
      (reentrantShort.Lock Store.empty none).store reentrantShort.key
        ≠ some ⟨reentrantShort.holder, 1, some reentrantShort.expiration⟩ := by
  have hl : Millisecond ≤ reentrantShort.expiration := by decide
  have h := relock_absent reentrantShort Store.empty rfl hl
  have ht : Int.tdiv reentrantShort.expiration Millisecond * Millisecond = 1000000 := by
    decide
  refine ⟨rfl, by decide, h.1, ?_, ?_⟩
  · rw [h.2.2.1, ht]; exact hash_put_same _ _ _
  · rw [h.2.2.1, ht, hash_put_same]
    simp [reentrantShort, NewReentrantLock]

/-- C7, amended: `Lock()` of the reentrant lock, for every store state and every lease
of at least a millisecond.  On an absent record it creates holder = own token,
count = 1 with a time to live equal to the lease truncated to whole milliseconds and
returns true; on a record of the own token it increments count by exactly one, resets
the time to live to the truncated lease and returns true; on a record of another token
it returns `(false, nil)` and leaves the store as it was.  The truncated lease is the
lease itself when that is a whole number of milliseconds. -/
theorem C7_reentrant_lock_cases (r : ReentrantLock) (st : Store)
    (hlease : Millisecond ≤ r.expiration) :
    (st r.key = none →
      (r.Lock st none).acquired = true ∧ (r.Lock st none).err = none ∧
        (r.Lock st none).store = st.put r.key
          (some ⟨r.holder, 1, some (Int.tdiv r.expiration Millisecond * Millisecond)⟩)) ∧
      (∀ h, st r.key = some h → h.holder = r.holder →
        (r.Lock st none).acquired = true ∧ (r.Lock st none).err = none ∧
          (r.Lock st none).store = st.put r.key
            (some ⟨h.holder, h.count + 1,
              some (Int.tdiv r.expiration Millisecond * Millisecond)⟩)) ∧
      (∀ h, st r.key = some h → h.holder ≠ r.holder →
        (r.Lock st none).acquired = false ∧ (r.Lock st none).err = none ∧
          (r.Lock st none).store = st) ∧
      (Millisecond ∣ r.expiration →
        Int.tdiv r.expiration Millisecond * Millisecond = r.expiration) := by
  refine ⟨?_, ?_, ?_, ?_⟩
  · intro habs
    have h := relock_absent r st habs hlease
    exact ⟨h.1, h.2.1, h.2.2.1⟩
  · intro h hrec hown
    have h1 := relock_own r st h hrec hown hlease
    exact ⟨h1.1, h1.2.1, h1.2.2.1⟩
  · intro h hrec hother
    have h1 := relock_other r st h hrec hother
    exact ⟨h1.1, h1.2.1, h1.2.2.1⟩
  · intro hdvd
    have h0 : (0 : Int) ≤ r.expiration := le_trans (by decide) hlease
    rw [Int.tdiv_eq_ediv h0 (by decide)]
    exact Int.ediv_mul_cancel hdvd

/-- Witness of C7: `reentrantShort` on the empty store, `reentrantA` on its own record
and `reentrantB` on the record of `reentrantA`. -/
theorem C7_reentrant_lock_cases_witness :
    ((reentrantShort.Lock Store.empty none).acquired = true ∧
        (reentrantShort.Lock Store.empty none).err = none ∧
        (reentrantShort.Lock Store.empty none).store = Store.empty.put reentrantShort.key
          (some ⟨reentrantShort.holder, 1,
            some (Int.tdiv reentrantShort.expiration Millisecond * Millisecond)⟩)) ∧
      ((reentrantA.Lock storeHeldTwice none).acquired = true ∧
        (reentrantA.Lock storeHeldTwice none).err = none ∧
        (reentrantA.Lock storeHeldTwice none).store = storeHeldTwice.put reentrantA.key
          (some ⟨"holder-a", 2 + 1,
            some (Int.tdiv reentrantA.expiration Millisecond * Millisecond)⟩)) ∧
      ((reentrantB.Lock storeHeldTwice none).acquired = false ∧
        (reentrantB.Lock storeHeldTwice none).err = none ∧
        (reentrantB.Lock storeHeldTwice none).store = storeHeldTwice) :=
  ⟨(C7_reentrant_lock_cases reentrantShort Store.empty (by decide)).1 rfl,
    (C7_reentrant_lock_cases reentrantA storeHeldTwice (by decide)).2.1
      ⟨"holder-a", 2, some (10 * Second)⟩ rfl rfl,
    (C7_reentrant_lock_cases reentrantB storeHeldTwice (by decide)).2.2.1
      ⟨"holder-a", 2, some (10 * Second)⟩ rfl (by decide)⟩

/-- Writing under one key a record that satisfies the invariant keeps the invariant. -/
theorem recordInv_put (st : Store) (last last2 : String → Option String) (key : String)
    (v : Option Hash) (hinv : RecordInv ⟨st, last⟩)
    (hv : ∀ h, v = some h → 1 ≤ h.count ∧ last2 key = some h.holder)
    (hlast : ∀ k, k ≠ key → last2 k = last k) : RecordInv ⟨st.put key v, last2⟩ := by
  intro k h hk
  by_cases hkk : k = key
  · subst hkk
    simp only [Store.put, if_true] at hk
    exact hv h hk
  · simp only [Store.put, hkk, if_false] at hk
    have := hinv k h hk
    exact ⟨this.1, by show last2 k = some h.holder; rw [hlast k hkk]; exact this.2⟩

/-- Every event keeps the record invariant. -/
theorem recordInv_step (w : World) (e : Event) (hinv : RecordInv w) :
    RecordInv (e.apply w) := by
  obtain ⟨st, last⟩ := w
  cases e with
  | lock x fault =>
    cases fault with
    | some err => simpa [Event.apply, ReentrantLock.Lock] using hinv
    | none =>
      cases hrec : st x.key with
      | none =>
        by_cases hms : Int.tdiv x.expiration Millisecond ≤ 0
        · have hst : (x.Lock st none).store = st.put x.key none := by
            simp [ReentrantLock.Lock, lockScript, HGET_holder, hrec, HSET, PEXPIRE,
              hash_put_same, hash_put_put, hms]
          have hacq : (x.Lock st none).acquired = true := by
            simp [ReentrantLock.Lock, lockScript, HGET_holder, hrec]
          simp only [Event.apply, hacq, if_true, hst]
          exact recordInv_put st last _ x.key none hinv (by intro h hh; cases hh)
            (by intro k hk; simp [hk])
        · have hst : (x.Lock st none).store = st.put x.key
              (some ⟨x.holder, 1, some (Int.tdiv x.expiration Millisecond * Millisecond)⟩) := by
            simp [ReentrantLock.Lock, lockScript, HGET_holder, hrec, HSET, PEXPIRE,
              hash_put_same, hash_put_put, hms]
          have hacq : (x.Lock st none).acquired = true := by
            simp [ReentrantLock.Lock, lockScript, HGET_holder, hrec]
          simp only [Event.apply, hacq, if_true, hst]
          refine recordInv_put st last _ x.key _ hinv ?_ (by intro k hk; simp [hk])
          intro h hh
          cases hh
          simp
      | some rec =>
        by_cases hown : rec.holder = x.holder
        · have hacq : (x.Lock st none).acquired = true := by
            simp [ReentrantLock.Lock, lockScript, HGET_holder, hrec, hown]
          by_cases hms : Int.tdiv x.expiration Millisecond ≤ 0
          · have hst : (x.Lock st none).store = st.put x.key none := by
              simp [ReentrantLock.Lock, lockScript, HGET_holder, hrec, hown, HINCRBY, PEXPIRE,
                hash_put_same, hash_put_put, hms]
            simp only [Event.apply, hacq, if_true, hst]
            exact recordInv_put st last _ x.key none hinv (by intro h hh; cases hh)
              (by intro k hk; simp [hk])
          · have hst : (x.Lock st none).store = st.put x.key
                (some ⟨rec.holder, rec.count + 1,
                  some (Int.tdiv x.expiration Millisecond * Millisecond)⟩) := by
              simp [ReentrantLock.Lock, lockScript, HGET_holder, hrec, hown, HINCRBY, PEXPIRE,
                hash_put_same, hash_put_put, hms]
            simp only [Event.apply, hacq, if_true, hst]
            refine recordInv_put st last _ x.key _ hinv ?_ (by intro k hk; simp [hk])
            intro h hh
            cases hh
            have := (hinv x.key rec hrec).1
            exact ⟨by show 1 ≤ rec.count + 1; omega, by simp [hown]⟩
        · have h := relock_other x st rec hrec hown
          simp only [Event.apply, h.1, h.2.2.1]
          simpa using hinv
  | unlock x fault =>
    cases fault with
    | some err => simpa [Event.apply, ReentrantLock.Unlock] using hinv
    | none =>
      by_cases hm : HGET_holder st x.key = some x.holder
      · obtain ⟨rec, hrec, hown⟩ : ∃ rec, st x.key = some rec ∧ rec.holder = x.holder := by
          simpa [HGET_holder] using hm
        have hold := hinv x.key rec hrec
        by_cases hc : 1 < rec.count
        · have h := reunlock_own_held x st rec hrec hown hc
          simp only [Event.apply, h.2.1]
          refine recordInv_put st last last x.key _ hinv ?_ (fun _ _ => rfl)
          intro h2 hh
          cases hh
          exact ⟨by show 1 ≤ rec.count - 1; omega, hold.2⟩
        · have h := reunlock_own_last x st rec hrec hown (by omega)
          simp only [Event.apply, h.2.1]
          exact recordInv_put st last last x.key none hinv (by intro h hh; cases hh)
            (fun _ _ => rfl)
      · have h := reunlock_mismatch x st hm
        simp only [Event.apply, h.2.1]
        exact hinv
  | tick x =>
    cases hrec : st x.key with
    | none =>
      simpa [Event.apply, ReentrantLock.keepAliveTick, PExpire, PEXPIRE, hrec] using hinv
    | some rec =>
      have hold := hinv x.key rec hrec
      by_cases hms : formatMs x.expiration ≤ 0
      · simp only [Event.apply, ReentrantLock.keepAliveTick, PExpire, PEXPIRE, hrec, hms,
          if_true]
        exact recordInv_put st last last x.key none hinv (by intro h hh; cases hh)
          (fun _ _ => rfl)
      · simp only [Event.apply, ReentrantLock.keepAliveTick, PExpire, PEXPIRE, hrec, hms,
          if_false]
        refine recordInv_put st last last x.key _ hinv ?_ (fun _ _ => rfl)
        intro h2 hh
        cases hh
        exact hold
  | expire key =>
    simp only [Event.apply, expire]
    exact recordInv_put st last last key none hinv (by intro h hh; cases hh) (fun _ _ => rfl)

/-- The record invariant holds in every reachable world. -/
theorem reachable_recordInv (w : World) (hw : Reachable w) : RecordInv w := by
  induction hw with
  | init => intro k h hk; simp [World.init, Store.empty] at hk
  | step w e _ ih => exact recordInv_step w e ih

/-- `Lock()` on an absent key, whatever the lease: acquired, flag set, and the key
afterwards is absent or holds the fresh record of the handle. -/
theorem relock_absent_any (r : ReentrantLock) (st : Store) (h : st r.key = none) :
    (r.Lock st none).acquired = true ∧ (r.Lock st none).err = none ∧
      (r.Lock st none).handle = r.startKeepAlive ∧
      (HGET_holder (r.Lock st none).store r.key = none ∨
        HGET_holder (r.Lock st none).store r.key = some r.holder) := by
  refine ⟨?_, ?_, ?_, ?_⟩
  · simp [ReentrantLock.Lock, lockScript, HGET_holder, h]
  · simp [ReentrantLock.Lock]
  · cases hk : r.keepAlive <;>
      simp [ReentrantLock.Lock, lockScript, HGET_holder, h, hk, ReentrantLock.startKeepAlive]
    cases r; simp_all
  · by_cases hms : Int.tdiv r.expiration Millisecond ≤ 0
    · left
      simp [ReentrantLock.Lock, lockScript, HGET_holder, h, HSET, PEXPIRE, hash_put_same,
        hash_put_put, hms]
    · right
      simp [ReentrantLock.Lock, lockScript, HGET_holder, h, HSET, PEXPIRE, hash_put_same,
        hash_put_put, hms]

/-- Worlds obtained by running events from a reachable world are reachable. -/
theorem reachable_runWorld (es : List Event) :
    ∀ w : World, Reachable w → Reachable (runWorld w es) := by
  induction es with
  | nil => intro w hw; exact hw
  | cons e es ih => intro w hw; exact ih _ (Reachable.step w e hw)

/-- C8: record invariant of the reentrant lock.  In every world reachable from the empty
store by any interleaving of `Lock()`, `Unlock()` and keep-alive ticks of any handles
and of key expiry, a record that exists (it has both fields by the type `Hash`) has
count at least one, never zero or below, and its holder is the token of the handle whose
`Lock()` last wrote or incremented the count; and an `Unlock()` of the holder that
brings the count to zero deletes the record in the same step. -/
theorem C8_reentrant_record_invariant (w : World) (hw : Reachable w) :
    (∀ k h, w.store k = some h →
      1 ≤ h.count ∧ ¬ h.count ≤ 0 ∧ w.lastInc k = some h.holder) ∧
      (∀ (r : ReentrantLock) (h : Hash), w.store r.key = some h → h.holder = r.holder →
        h.count - 1 ≤ 0 → (r.Unlock w.store none).store r.key = none) := by
  have hinv := reachable_recordInv w hw
  refine ⟨?_, ?_⟩
  · intro k h hk
    have := hinv k h hk
    exact ⟨this.1, by omega, this.2⟩
  · intro r h hrec hown hc
    rw [(reunlock_own_last r w.store h hrec hown (by omega)).2.1]
    exact hash_put_same _ _ _

/-- Witness of C8: the record of `res:7` in `worldDemo`. -/
theorem C8_reentrant_record_invariant_witness :
    worldDemo.store "res:7" = some ⟨"holder-a", 1, some (200 * Millisecond)⟩ ∧
      (1 : Int) ≤ 1 ∧ ¬ (1 : Int) ≤ 0 ∧ worldDemo.lastInc "res:7" = some "holder-a" ∧
      (reentrantA.Unlock worldDemo.store none).store reentrantA.key = none := by
  have hs : worldDemo.store "res:7" = some ⟨"holder-a", 1, some (200 * Millisecond)⟩ := by
    decide
  have h := C8_reentrant_record_invariant worldDemo
    (reachable_runWorld _ World.init Reachable.init)
  exact ⟨hs, (h.1 "res:7" _ hs).1, (h.1 "res:7" _ hs).2.1, (h.1 "res:7" _ hs).2.2,
    h.2 reentrantA _ hs rfl (by decide)⟩

end reentrantlock

/-! ## Both variants: release by a foreign handle, stale renewal, frame of a tick -/

/-- C4: `Unlock()` by a handle whose token differs from the holder stored under the key,
for both variants: it returns the error "lock is held by a different holder", never nil,
and leaves the store (holder, count, time to live) and the handle as they were.  In
particular after `a.Lock()`, the expiry of the key and `b.Lock()` on the same key,
`a.Unlock()` returns that error and the record of `b` is as `b.Lock()` left it. -/
theorem C4_unlock_by_other_holder (a b : redislock.Lock)
    (ra rb : reentrantlock.ReentrantLock) (hkey : b.key = a.key)
    (htok : a.holder ≠ b.holder) (hrkey : rb.key = ra.key) (hrtok : ra.holder ≠ rb.holder) :
    (∀ (st : redislock.Store) (e : redislock.Entry), st a.key = some e →
      e.value ≠ a.holder →
        (a.Unlock st none).err = some (GoError.errorf msgDifferentHolder) ∧
          (a.Unlock st none).err ≠ none ∧ (a.Unlock st none).store = st ∧
          (a.Unlock st none).handle = a) ∧
      (∀ (st : reentrantlock.Store) (h : reentrantlock.Hash), st ra.key = some h →
        h.holder ≠ ra.holder →
          (ra.Unlock st none).err = some (GoError.errorf msgDifferentHolder) ∧
            (ra.Unlock st none).err ≠ none ∧ (ra.Unlock st none).store = st ∧
            (ra.Unlock st none).handle = ra) ∧
      (∀ st : redislock.Store, st a.key = none →
        (redislock.takeover a b st).1.acquired = true ∧
          (redislock.takeover a b st).2.acquired = true ∧
          (redislock.takeover a b st).2.store a.key
            = some ⟨b.holder, redislock.setTtl b.expiration⟩ ∧
          ((redislock.takeover a b st).1.handle.Unlock
            (redislock.takeover a b st).2.store none).err
            = some (GoError.errorf msgDifferentHolder) ∧
          ((redislock.takeover a b st).1.handle.Unlock
            (redislock.takeover a b st).2.store none).store
            = (redislock.takeover a b st).2.store) ∧
      (∀ st : reentrantlock.Store, st ra.key = none →
        (reentrantlock.takeover ra rb st).1.acquired = true ∧
          (reentrantlock.takeover ra rb st).2.acquired = true ∧
          (Millisecond ≤ rb.expiration →
            (reentrantlock.takeover ra rb st).2.store ra.key = some ⟨rb.holder, 1,
              some (Int.tdiv rb.expiration Millisecond * Millisecond)⟩) ∧
          ((reentrantlock.takeover ra rb st).1.handle.Unlock
            (reentrantlock.takeover ra rb st).2.store none).err
            = some (GoError.errorf msgDifferentHolder) ∧
          ((reentrantlock.takeover ra rb st).1.handle.Unlock
            (reentrantlock.takeover ra rb st).2.store none).store
            = (reentrantlock.takeover ra rb st).2.store) := by
  refine ⟨?_, ?_, ?_, ?_⟩
  · intro st e he hne
    have h := redislock.unlock_mismatch a st (by simp [redislock.GET, he, hne])
    exact ⟨h.1, by rw [h.1]; simp, h.2.1, h.2.2⟩
  · intro st h hh hne
    have h1 := reentrantlock.reunlock_mismatch ra st
      (by simp [reentrantlock.HGET_holder, hh, hne])
    exact ⟨h1.1, by rw [h1.1]; simp, h1.2.1, h1.2.2⟩
  · intro st habs
    have h1 := redislock.lock_absent a st habs
    have hexp : redislock.expire (a.Lock st none).store a.key b.key = none := by
      rw [hkey]; exact redislock.put_same _ _ _
    have h2 := redislock.lock_absent b _ hexp
    have hrec : (b.Lock (redislock.expire (a.Lock st none).store a.key) none).store a.key
        = some ⟨b.holder, redislock.setTtl b.expiration⟩ := by
      rw [h2.2.2.1, ← hkey]; exact redislock.put_same _ _ _
    have hakey : (a.Lock st none).handle.key = a.key := by
      cases hk : a.keepAlive <;>
        simp [redislock.Lock.Lock, redislock.SetNX, habs, hk, redislock.Lock.startKeepAlive]
    have hahold : (a.Lock st none).handle.holder = a.holder := by
      cases hk : a.keepAlive <;>
        simp [redislock.Lock.Lock, redislock.SetNX, habs, hk, redislock.Lock.startKeepAlive]
    have h3 := redislock.unlock_mismatch (a.Lock st none).handle
      (b.Lock (redislock.expire (a.Lock st none).store a.key) none).store
      (by rw [hakey, hahold]; simp [redislock.GET, hrec]; exact fun h => htok h.symm)
    exact ⟨h1.1, h2.1, hrec, h3.1, h3.2.1⟩
  · intro st habs
    have h1 := reentrantlock.relock_absent_any ra st habs
    have hexp : reentrantlock.expire (ra.Lock st none).store ra.key rb.key = none := by
      rw [hrkey]; exact reentrantlock.hash_put_same _ _ _
    have h2 := reentrantlock.relock_absent_any rb _ hexp
    have hmis : reentrantlock.HGET_holder
        (rb.Lock (reentrantlock.expire (ra.Lock st none).store ra.key) none).store
        (ra.Lock st none).handle.key ≠ some (ra.Lock st none).handle.holder := by
      rw [h1.2.2.1]
      show reentrantlock.HGET_holder _ ra.key ≠ some ra.holder
      have h22 := h2.2.2.2
      rw [hrkey] at h22
      rcases h22 with h | h
      · rw [h]; simp
      · rw [h]; simpa using fun h => hrtok h.symm
    have h3 := reentrantlock.reunlock_mismatch (ra.Lock st none).handle _ hmis
    refine ⟨h1.1, h2.1, ?_, h3.1, h3.2.1⟩
    intro hlease
    have h4 := reentrantlock.relock_absent rb _ hexp hlease
    show (rb.Lock (reentrantlock.expire (ra.Lock st none).store ra.key) none).store ra.key = _
    rw [h4.2.2.1, ← hrkey]; exact reentrantlock.hash_put_same _ _ _

/-- Witness of C4: `redislock.handleB` and `reentrantB` unlock records held by `redislock.handleA` and
`reentrantA`; `redislock.handleA` and `reentrantA` unlock after their lease expired and
`redislock.handleB`, `reentrantB` took the key. -/
theorem C4_unlock_by_other_holder_witness :
    ((redislock.handleB.Unlock redislock.storeHeldByA none).err
          = some (GoError.errorf msgDifferentHolder) ∧
        (redislock.handleB.Unlock redislock.storeHeldByA none).err ≠ none ∧
        (redislock.handleB.Unlock redislock.storeHeldByA none).store = redislock.storeHeldByA ∧
        (redislock.handleB.Unlock redislock.storeHeldByA none).handle = redislock.handleB) ∧
      ((reentrantlock.reentrantB.Unlock reentrantlock.storeHeldTwice none).err
          = some (GoError.errorf msgDifferentHolder) ∧
        (reentrantlock.reentrantB.Unlock reentrantlock.storeHeldTwice none).err ≠ none ∧
        (reentrantlock.reentrantB.Unlock reentrantlock.storeHeldTwice none).store
          = reentrantlock.storeHeldTwice ∧
        (reentrantlock.reentrantB.Unlock reentrantlock.storeHeldTwice none).handle = reentrantlock.reentrantB) ∧
      ((redislock.takeover redislock.handleA redislock.handleB redislock.Store.empty).2.store redislock.handleA.key
          = some ⟨redislock.handleB.holder, some redislock.handleB.expiration⟩ ∧
        ((redislock.takeover redislock.handleA redislock.handleB redislock.Store.empty).1.handle.Unlock
          (redislock.takeover redislock.handleA redislock.handleB redislock.Store.empty).2.store none).err
          = some (GoError.errorf msgDifferentHolder)) ∧
      ((reentrantlock.takeover reentrantlock.reentrantA reentrantlock.reentrantB reentrantlock.Store.empty).2.store
          reentrantlock.reentrantA.key = some ⟨reentrantlock.reentrantB.holder, 1,
            some (Int.tdiv reentrantlock.reentrantB.expiration Millisecond * Millisecond)⟩ ∧
        ((reentrantlock.takeover reentrantlock.reentrantA reentrantlock.reentrantB reentrantlock.Store.empty).1.handle.Unlock
          (reentrantlock.takeover reentrantlock.reentrantA reentrantlock.reentrantB reentrantlock.Store.empty).2.store
          none).err = some (GoError.errorf msgDifferentHolder)) :=
  have h1 := C4_unlock_by_other_holder redislock.handleB redislock.handleA reentrantlock.reentrantB reentrantlock.reentrantA rfl
    (by decide) rfl (by decide)
  have h2 := C4_unlock_by_other_holder redislock.handleA redislock.handleB reentrantlock.reentrantA reentrantlock.reentrantB rfl
    (by decide) rfl (by decide)
  ⟨h1.1 redislock.storeHeldByA ⟨"holder-a", some (10 * Second)⟩ rfl (by decide),
    h1.2.1 reentrantlock.storeHeldTwice ⟨"holder-a", 2, some (10 * Second)⟩ rfl (by decide),
    ⟨(h2.2.2.1 redislock.Store.empty rfl).2.2.1.trans (by decide),
      (h2.2.2.1 redislock.Store.empty rfl).2.2.2.1⟩,
    ⟨(h2.2.2.2 reentrantlock.Store.empty rfl).2.2.1 (by decide),
      (h2.2.2.2 reentrantlock.Store.empty rfl).2.2.2.1⟩⟩

/-- C9: stale renewal, for both variants.  On a key absent at first, after `a.Lock()`
returned true, the key expired and `b.Lock()` returned true for a handle `b` with
another token, the keep-alive flag of `a` is still true and the next tick of `a` sets
the time to live of the record of `b` to the lease of `a` (as the client sends it, in
whole milliseconds: the lease itself when it is a whole number of milliseconds); holder
(and count) stay those of `b`: the tick never compares the stored holder with the token
of `a`. -/
theorem C9_stale_renewal (a b : redislock.Lock) (st : redislock.Store)
    (ra rb : reentrantlock.ReentrantLock) (rst : reentrantlock.Store)
    (hkey : b.key = a.key) (htok : a.holder ≠ b.holder) (habs : st a.key = none)
    (hpos : 0 < a.expiration)
    (hrkey : rb.key = ra.key) (hrtok : ra.holder ≠ rb.holder) (hrabs : rst ra.key = none)
    (hrpos : 0 < ra.expiration) (hrlease : Millisecond ≤ rb.expiration) :
    ((redislock.takeover a b st).1.acquired = true ∧
        (redislock.takeover a b st).2.acquired = true ∧
        (redislock.takeover a b st).1.handle.keepAlive = true ∧
        (redislock.takeover a b st).2.store a.key
          = some ⟨b.holder, redislock.setTtl b.expiration⟩ ∧
        b.holder ≠ (redislock.takeover a b st).1.handle.holder ∧
        (redislock.takeover a b st).1.handle.keepAliveTick
          (redislock.takeover a b st).2.store a.key
          = some ⟨b.holder, some (formatMs a.expiration * Millisecond)⟩ ∧
        (Millisecond ∣ a.expiration →
          (redislock.takeover a b st).1.handle.keepAliveTick
            (redislock.takeover a b st).2.store a.key
            = some ⟨b.holder, some a.expiration⟩)) ∧
      ((reentrantlock.takeover ra rb rst).1.acquired = true ∧
        (reentrantlock.takeover ra rb rst).2.acquired = true ∧
        (reentrantlock.takeover ra rb rst).1.handle.keepAlive = true ∧
        (reentrantlock.takeover ra rb rst).2.store ra.key = some ⟨rb.holder, 1,
          some (Int.tdiv rb.expiration Millisecond * Millisecond)⟩ ∧
        rb.holder ≠ (reentrantlock.takeover ra rb rst).1.handle.holder ∧
        (reentrantlock.takeover ra rb rst).1.handle.keepAliveTick
          (reentrantlock.takeover ra rb rst).2.store ra.key
          = some ⟨rb.holder, 1, some (formatMs ra.expiration * Millisecond)⟩ ∧
        (Millisecond ∣ ra.expiration →
          (reentrantlock.takeover ra rb rst).1.handle.keepAliveTick
            (reentrantlock.takeover ra rb rst).2.store ra.key
            = some ⟨rb.holder, 1, some ra.expiration⟩)) := by
  constructor
  · have h1 := redislock.lock_absent a st habs
    have hexp : redislock.expire (a.Lock st none).store a.key b.key = none := by
      rw [hkey]; exact redislock.put_same _ _ _
    have h2 := redislock.lock_absent b _ hexp
    have hrec : (b.Lock (redislock.expire (a.Lock st none).store a.key) none).store a.key
        = some ⟨b.holder, redislock.setTtl b.expiration⟩ := by
      rw [h2.2.2.1, ← hkey]; exact redislock.put_same _ _ _
    have hh : (a.Lock st none).handle = a.startKeepAlive := by
      cases hk : a.keepAlive <;>
        simp [redislock.Lock.Lock, redislock.SetNX, habs, hk, redislock.Lock.startKeepAlive]
      cases a; simp_all
    have hnp : ¬ formatMs a.expiration ≤ 0 := not_le.mpr (formatMs_pos _ hpos)
    have htick : (a.Lock st none).handle.keepAliveTick
        (b.Lock (redislock.expire (a.Lock st none).store a.key) none).store a.key
        = some ⟨b.holder, some (formatMs a.expiration * Millisecond)⟩ := by
      rw [hh]
      simp [redislock.Lock.keepAliveTick, redislock.PExpire, redislock.Lock.startKeepAlive,
        hrec, hnp, redislock.Store.put]
    refine ⟨h1.1, h2.1, h1.2.2.2, hrec, ?_, htick, ?_⟩
    · show b.holder ≠ (a.Lock st none).handle.holder
      rw [hh]; exact fun h => htok h.symm
    · intro hd
      show (a.Lock st none).handle.keepAliveTick
        (b.Lock (redislock.expire (a.Lock st none).store a.key) none).store a.key = _
      rw [htick, formatMs_whole _ hpos hd]
  · have h1 := reentrantlock.relock_absent_any ra rst hrabs
    have hexp : reentrantlock.expire (ra.Lock rst none).store ra.key rb.key = none := by
      rw [hrkey]; exact reentrantlock.hash_put_same _ _ _
    have h2 := reentrantlock.relock_absent rb _ hexp hrlease
    have hrec : (rb.Lock (reentrantlock.expire (ra.Lock rst none).store ra.key) none).store
        ra.key = some ⟨rb.holder, 1,
          some (Int.tdiv rb.expiration Millisecond * Millisecond)⟩ := by
      rw [h2.2.2.1, ← hrkey]; exact reentrantlock.hash_put_same _ _ _
    have hnp : ¬ formatMs ra.expiration ≤ 0 := not_le.mpr (formatMs_pos _ hrpos)
    have htick : (ra.Lock rst none).handle.keepAliveTick
        (rb.Lock (reentrantlock.expire (ra.Lock rst none).store ra.key) none).store ra.key
        = some ⟨rb.holder, 1, some (formatMs ra.expiration * Millisecond)⟩ := by
      rw [h1.2.2.1]
      simp [reentrantlock.ReentrantLock.keepAliveTick, reentrantlock.PExpire,
        reentrantlock.PEXPIRE, reentrantlock.ReentrantLock.startKeepAlive, hrec, hnp,
        reentrantlock.Store.put]
    refine ⟨h1.1, h2.1, ?_, hrec, ?_, htick, ?_⟩
    · show (ra.Lock rst none).handle.keepAlive = true
      rw [h1.2.2.1]; rfl
    · show rb.holder ≠ (ra.Lock rst none).handle.holder
      rw [h1.2.2.1]; exact fun h => hrtok h.symm
    · intro hd
      show (ra.Lock rst none).handle.keepAliveTick
        (rb.Lock (reentrantlock.expire (ra.Lock rst none).store ra.key) none).store ra.key = _
      rw [htick, formatMs_whole _ hrpos hd]

/-- Witness of C9: `redislock.handleA` (lease 10 s) renews the record of `redislock.handleB` (lease 200 ms),
and `reentrantA` that of `reentrantB`, from the empty store. -/
theorem C9_stale_renewal_witness :
    ((redislock.takeover redislock.handleA redislock.handleB redislock.Store.empty).2.store redislock.handleA.key
          = some ⟨redislock.handleB.holder, some redislock.handleB.expiration⟩ ∧
        (redislock.takeover redislock.handleA redislock.handleB redislock.Store.empty).1.handle.keepAlive = true ∧
        (redislock.takeover redislock.handleA redislock.handleB redislock.Store.empty).1.handle.keepAliveTick
          (redislock.takeover redislock.handleA redislock.handleB redislock.Store.empty).2.store redislock.handleA.key
          = some ⟨redislock.handleB.holder, some redislock.handleA.expiration⟩) ∧
      ((reentrantlock.takeover reentrantlock.reentrantA reentrantlock.reentrantB reentrantlock.Store.empty).2.store
          reentrantlock.reentrantA.key = some ⟨reentrantlock.reentrantB.holder, 1,
            some (Int.tdiv reentrantlock.reentrantB.expiration Millisecond * Millisecond)⟩ ∧
        (reentrantlock.takeover reentrantlock.reentrantA reentrantlock.reentrantB
          reentrantlock.Store.empty).1.handle.keepAlive = true ∧
        (reentrantlock.takeover reentrantlock.reentrantA reentrantlock.reentrantB
          reentrantlock.Store.empty).1.handle.keepAliveTick
          (reentrantlock.takeover reentrantlock.reentrantA reentrantlock.reentrantB reentrantlock.Store.empty).2.store
          reentrantlock.reentrantA.key = some ⟨reentrantlock.reentrantB.holder, 1, some reentrantlock.reentrantA.expiration⟩) :=
  have h := C9_stale_renewal redislock.handleA redislock.handleB redislock.Store.empty reentrantlock.reentrantA reentrantlock.reentrantB
    reentrantlock.Store.empty rfl (by decide) rfl (by decide) rfl (by decide) rfl (by decide)
    (by decide)
  ⟨⟨h.1.2.2.2.1.trans (by decide), h.1.2.2.1, h.1.2.2.2.2.2.2 (by decide)⟩,
    ⟨h.2.2.2.2.1, h.2.2.2.1, h.2.2.2.2.2.2.2 (by decide)⟩⟩

/-- Time to live a tick leaves, against the lease `d` of the ticking handle. -/
theorem tick_ttl_bounds (d t : Int) (h0 : 0 < d) (ht : t = formatMs d * Millisecond) :
    (Millisecond ≤ d → t ≤ d ∧ d < t + Millisecond) ∧ (d < Millisecond → t = Millisecond) ∧
      (Millisecond ∣ d → t = d) := by
  subst ht
  refine ⟨fun h => ⟨(formatMs_large d h).2.1, (formatMs_large d h).2.2⟩, fun h => ?_,
    fun h => formatMs_whole d h0 h⟩
  rw [formatMs_small d h0 h, Int.one_mul]

/-- C10 as stated fails: a tick of a handle with a lease of 0.5 ms leaves the key with a
time to live of 1 ms, which is not the lease and is above it, in both variants: the
client sends a positive duration below a millisecond as one millisecond. -/
theorem C10_tick_above_the_lease :
    (redislock.handleTiny.expiration = 500000 ∧
        redislock.handleTiny.keepAliveTick redislock.storeHeldByA redislock.handleTiny.key
          = some ⟨"holder-a", some 1000000⟩ ∧
        redislock.handleTiny.keepAliveTick redislock.storeHeldByA redislock.handleTiny.key
          ≠ some ⟨"holder-a", some redislock.handleTiny.expiration⟩ ∧
        redislock.handleTiny.expiration < 1000000) ∧
      (reentrantlock.reentrantTiny.expiration = 500000 ∧
        reentrantlock.reentrantTiny.keepAliveTick reentrantlock.storeHeldTwice
          reentrantlock.reentrantTiny.key = some ⟨"holder-a", 2, some 1000000⟩ ∧
        reentrantlock.reentrantTiny.keepAliveTick reentrantlock.storeHeldTwice
          reentrantlock.reentrantTiny.key
          ≠ some ⟨"holder-a", 2, some reentrantlock.reentrantTiny.expiration⟩ ∧
        reentrantlock.reentrantTiny.expiration < 1000000) := by
  decide

/-- C10 (amended): frame of a keep-alive tick, for both variants.  A tick of a handle
whose ticker runs (a positive lease) changes nothing in the store but the time to live
of the key of the handle: the stored holder (and count) of every key is as before, an
absent key stays absent, every other key is untouched, and when the key exists its time
to live after the tick is the lease in whole milliseconds.  For a lease of at least a
millisecond that is the lease truncated to milliseconds, not above the lease and less
than a millisecond below it, and the lease itself when it is a whole number of
milliseconds; for a lease below a millisecond it is one millisecond. -/
theorem C10_tick_frame (r : redislock.Lock) (st : redislock.Store)
    (x : reentrantlock.ReentrantLock) (xst : reentrantlock.Store)
    (hpos : 0 < r.expiration) (hxpos : 0 < x.expiration) :
    ((∀ k, redislock.GET (r.keepAliveTick st) k = redislock.GET st k) ∧
        (st r.key = none → r.keepAliveTick st = st) ∧
        (∀ k, k ≠ r.key → r.keepAliveTick st k = st k) ∧
        (∀ e, st r.key = some e →
          r.keepAliveTick st r.key
            = some ⟨e.value, some (formatMs r.expiration * Millisecond)⟩) ∧
        (∀ e t, r.keepAliveTick st r.key = some e → e.ttl = some t →
          (Millisecond ≤ r.expiration → t ≤ r.expiration ∧ r.expiration < t + Millisecond) ∧
            (r.expiration < Millisecond → t = Millisecond) ∧
            (Millisecond ∣ r.expiration → t = r.expiration))) ∧
      ((∀ k, (x.keepAliveTick xst k).map (fun h => (h.holder, h.count))
          = (xst k).map (fun h => (h.holder, h.count))) ∧
        (xst x.key = none → x.keepAliveTick xst = xst) ∧
        (∀ k, k ≠ x.key → x.keepAliveTick xst k = xst k) ∧
        (∀ h, xst x.key = some h →
          x.keepAliveTick xst x.key
            = some ⟨h.holder, h.count, some (formatMs x.expiration * Millisecond)⟩) ∧
        (∀ h t, x.keepAliveTick xst x.key = some h → h.ttl = some t →
          (Millisecond ≤ x.expiration → t ≤ x.expiration ∧ x.expiration < t + Millisecond) ∧
            (x.expiration < Millisecond → t = Millisecond) ∧
            (Millisecond ∣ x.expiration → t = x.expiration))) := by
  have hnp : ¬ formatMs r.expiration ≤ 0 := not_le.mpr (formatMs_pos _ hpos)
  have hxnp : ¬ formatMs x.expiration ≤ 0 := not_le.mpr (formatMs_pos _ hxpos)
  constructor
  · cases hrec : st r.key with
    | none =>
      have hsame : r.keepAliveTick st = st := by
        simp [redislock.Lock.keepAliveTick, redislock.PExpire, hrec]
      refine ⟨fun k => by rw [hsame], fun _ => hsame, fun k _ => by rw [hsame], ?_, ?_⟩
      · intro e he; cases he
      · intro e t he; rw [hsame, hrec] at he; cases he
    | some e0 =>
      have hst : r.keepAliveTick st
          = st.put r.key (some ⟨e0.value, some (formatMs r.expiration * Millisecond)⟩) := by
        simp [redislock.Lock.keepAliveTick, redislock.PExpire, hrec, hnp]
      refine ⟨?_, ?_, ?_, ?_, ?_⟩
      · intro k
        by_cases hk : k = r.key
        · subst hk; simp [hst, redislock.GET, redislock.Store.put, hrec]
        · simp [hst, redislock.GET, redislock.Store.put, hk]
      · intro h; cases h
      · intro k hk; rw [hst]; exact redislock.put_other _ _ _ _ hk
      · intro e he; cases he; rw [hst]; exact redislock.put_same _ _ _
      · intro e t he ht
        rw [hst, redislock.put_same] at he
        cases he
        exact tick_ttl_bounds _ _ hpos (Option.some.inj ht).symm
  · cases hrec : xst x.key with
    | none =>
      have hsame : x.keepAliveTick xst = xst := by
        simp [reentrantlock.ReentrantLock.keepAliveTick, reentrantlock.PExpire,
          reentrantlock.PEXPIRE, hrec]
      refine ⟨fun k => by rw [hsame], fun _ => hsame, fun k _ => by rw [hsame], ?_, ?_⟩
      · intro h hh; cases hh
      · intro h t hh; rw [hsame, hrec] at hh; cases hh
    | some h0 =>
      have hst : x.keepAliveTick xst = xst.put x.key
          (some ⟨h0.holder, h0.count, some (formatMs x.expiration * Millisecond)⟩) := by
        simp [reentrantlock.ReentrantLock.keepAliveTick, reentrantlock.PExpire,
          reentrantlock.PEXPIRE, hrec, hxnp]
      refine ⟨?_, ?_, ?_, ?_, ?_⟩
      · intro k
        by_cases hk : k = x.key
        · subst hk; simp [hst, reentrantlock.Store.put, hrec]
        · simp [hst, reentrantlock.Store.put, hk]
      · intro h; cases h
      · intro k hk; rw [hst]; exact reentrantlock.hash_put_other _ _ _ _ hk
      · intro h hh; cases hh; rw [hst]; exact reentrantlock.hash_put_same _ _ _
      · intro h t hh ht
        rw [hst, reentrantlock.hash_put_same] at hh
        cases hh
        exact tick_ttl_bounds _ _ hxpos (Option.some.inj ht).symm

/-- Witness of C10: the ticker of `handleB` (lease 200 ms) on the record of `handleA`,
the ticker of `reentrantB` (lease 200 ms) on the record of `reentrantA`. -/
theorem C10_tick_frame_witness :
    redislock.handleB.keepAliveTick redislock.storeHeldByA redislock.handleB.key
        = some ⟨"holder-a", some redislock.handleB.expiration⟩ ∧
      redislock.handleB.keepAliveTick redislock.storeHeldByA "job:7"
        = redislock.storeHeldByA "job:7" ∧
      reentrantlock.reentrantB.keepAliveTick reentrantlock.storeHeldTwice
        reentrantlock.reentrantB.key
        = some ⟨"holder-a", 2, some reentrantlock.reentrantB.expiration⟩ ∧
      reentrantlock.reentrantB.keepAliveTick reentrantlock.Store.empty
        = reentrantlock.Store.empty :=
  have h := C10_tick_frame redislock.handleB redislock.storeHeldByA reentrantlock.reentrantB
    reentrantlock.storeHeldTwice (by decide) (by decide)
  have h2 := C10_tick_frame redislock.handleB redislock.storeHeldByA reentrantlock.reentrantB
    reentrantlock.Store.empty (by decide) (by decide)
  ⟨(h.1.2.2.2.1 ⟨"holder-a", some (10 * Second)⟩ rfl).trans (by decide),
    h.1.2.2.1 "job:7" (by decide),
    (h.2.2.2.2.1 ⟨"holder-a", 2, some (10 * Second)⟩ rfl).trans (by decide), h2.2.2.1 rfl⟩

/-! ## Both variants: keep-alive lifecycle and store errors -/

/-- C11: keep-alive lifecycle, for both variants, the flag `keepAlive` standing for the
running scheduler.  The flag is false after construction; after every `Lock()` that
returns true it is true; a `Lock()` that returns false leaves the handle as it was;
`Unlock()` leaves the flag false, the rest of the handle as it was, when it fully gives
up ownership (exclusive: the stored token was the own one and the key was deleted;
reentrant: the record was the own one, its count reached zero and it was deleted), and in
every other outcome (count still positive, foreign or absent record, store error) it
leaves the handle, the flag included, as it was. -/
theorem C11_keep_alive_lifecycle (r : redislock.Lock) (st : redislock.Store)
    (x : reentrantlock.ReentrantLock) (xst : reentrantlock.Store) (fault : Option GoError)
    (holder key : String) (expiration : Int) :
    ((redislock.NewLock holder key expiration).keepAlive = false ∧
        (reentrantlock.NewReentrantLock holder key expiration).keepAlive = false) ∧
      (((r.Lock st fault).acquired = true → (r.Lock st fault).handle.keepAlive = true) ∧
        ((r.Lock st fault).acquired = false → (r.Lock st fault).handle = r) ∧
        ((x.Lock xst fault).acquired = true → (x.Lock xst fault).handle.keepAlive = true) ∧
        ((x.Lock xst fault).acquired = false → (x.Lock xst fault).handle = x)) ∧
      ((fault = none ∧ redislock.GET st r.key = some r.holder →
          (r.Unlock st fault).err = none ∧ (r.Unlock st fault).store r.key = none ∧
            (r.Unlock st fault).handle.keepAlive = false ∧
            (r.Unlock st fault).handle = ({ r with keepAlive := false } : redislock.Lock)) ∧
        (¬ (fault = none ∧ redislock.GET st r.key = some r.holder) →
          (r.Unlock st fault).err ≠ none ∧ (r.Unlock st fault).store = st ∧
            (r.Unlock st fault).handle.keepAlive = r.keepAlive ∧
            (r.Unlock st fault).handle = r)) ∧
      ((∀ h, fault = none → xst x.key = some h → h.holder = x.holder → h.count ≤ 1 →
          (x.Unlock xst fault).err = none ∧ (x.Unlock xst fault).store x.key = none ∧
            (x.Unlock xst fault).handle.keepAlive = false ∧
            (x.Unlock xst fault).handle
              = ({ x with keepAlive := false } : reentrantlock.ReentrantLock)) ∧
        (∀ h, fault = none → xst x.key = some h → h.holder = x.holder → 1 < h.count →
          (x.Unlock xst fault).err = none ∧
            (x.Unlock xst fault).store x.key = some ⟨h.holder, h.count - 1, h.ttl⟩ ∧
            (x.Unlock xst fault).handle.keepAlive = x.keepAlive ∧
            (x.Unlock xst fault).handle = x) ∧
        (fault ≠ none ∨ reentrantlock.HGET_holder xst x.key ≠ some x.holder →
          (x.Unlock xst fault).err ≠ none ∧ (x.Unlock xst fault).store = xst ∧
            (x.Unlock xst fault).handle.keepAlive = x.keepAlive ∧
            (x.Unlock xst fault).handle = x)) := by
  refine ⟨⟨rfl, rfl⟩, ⟨?_, ?_, ?_, ?_⟩, ⟨?_, ?_⟩, ⟨?_, ?_, ?_⟩⟩
  · cases fault with
    | some e => intro h; simp [redislock.Lock.Lock] at h
    | none =>
      cases hk : st r.key with
      | none => intro _; exact (redislock.lock_absent r st hk).2.2.2
      | some e => intro h; rw [(redislock.lock_present r st e hk).1] at h; cases h
  · cases fault with
    | some e => intro _; rfl
    | none =>
      cases hk : st r.key with
      | none => intro h; rw [(redislock.lock_absent r st hk).1] at h; cases h
      | some e => intro _; exact (redislock.lock_present r st e hk).2.2.2
  · cases fault with
    | some e => intro h; simp [reentrantlock.ReentrantLock.Lock] at h
    | none =>
      intro h
      cases hk : x.keepAlive <;>
        simp_all [reentrantlock.ReentrantLock.Lock, reentrantlock.ReentrantLock.startKeepAlive]
  · cases fault with
    | some e => intro _; rfl
    | none =>
      intro h
      simp_all [reentrantlock.ReentrantLock.Lock]
  · rintro ⟨rfl, hold⟩
    have h := redislock.unlock_match r st hold
    refine ⟨h.1, by rw [h.2.1]; exact redislock.put_same _ _ _, ?_, ?_⟩
    · rw [h.2.2]; rfl
    · rw [h.2.2]; rfl
  · intro hn
    cases fault with
    | some e => simp [redislock.Lock.Unlock]
    | none =>
      have h := redislock.unlock_mismatch r st (fun hh => hn ⟨rfl, hh⟩)
      exact ⟨by rw [h.1]; simp, h.2.1, by rw [h.2.2], h.2.2⟩
  · rintro h rfl hrec hown hc
    have h1 := reentrantlock.reunlock_own_last x xst h hrec hown hc
    refine ⟨h1.1, by rw [h1.2.1]; exact reentrantlock.hash_put_same _ _ _, ?_, ?_⟩
    · rw [h1.2.2]; rfl
    · rw [h1.2.2]; rfl
  · rintro h rfl hrec hown hc
    have h1 := reentrantlock.reunlock_own_held x xst h hrec hown hc
    exact ⟨h1.1, by rw [h1.2.1]; exact reentrantlock.hash_put_same _ _ _, by rw [h1.2.2],
      h1.2.2⟩
  · intro hn
    cases fault with
    | some e => simp [reentrantlock.ReentrantLock.Unlock]
    | none =>
      have h := reentrantlock.reunlock_mismatch x xst (by
        rcases hn with hn | hn
        · exact absurd rfl hn
        · exact hn)
      exact ⟨by rw [h.1]; simp, h.2.1, by rw [h.2.2], h.2.2⟩

/-- Witness of C11: `handleA` locks the empty store and its flag is set; the `Unlock()`
of `handleB` leaves the flag of `handleB` as it was and the `Unlock()` of `handleA`
clears the flag of `handleA`.  `reentrantA` locks twice: the flag is set, it is still
set after the first `Unlock()` and it is cleared by the second. -/
theorem C11_keep_alive_lifecycle_witness :
    (redislock.handleA.keepAlive = false ∧
        (redislock.handleA.Lock redislock.Store.empty none).handle.keepAlive = true ∧
        (redislock.handleB.Unlock (redislock.handleA.Lock redislock.Store.empty none).store
          none).handle.keepAlive = false ∧
        ((redislock.handleA.Lock redislock.Store.empty none).handle.Unlock
          (redislock.handleA.Lock redislock.Store.empty none).store none).handle.keepAlive
          = false) ∧
      ((reentrantlock.lockTimes reentrantlock.reentrantA reentrantlock.Store.empty 2).1.keepAlive
          = true ∧
        (reentrantlock.lockThenUnlock reentrantlock.reentrantA reentrantlock.Store.empty
          2 1).1.keepAlive = true ∧
        (reentrantlock.lockThenUnlock reentrantlock.reentrantA reentrantlock.Store.empty
          2 2).1.keepAlive = false) :=
  have h0 := C11_keep_alive_lifecycle redislock.handleA redislock.Store.empty
    (reentrantlock.lockTimes reentrantlock.reentrantA reentrantlock.Store.empty 1).1
    (reentrantlock.lockTimes reentrantlock.reentrantA reentrantlock.Store.empty 1).2
    none "holder-a" "job:42" 0
  have h1 := C11_keep_alive_lifecycle redislock.handleB
    (redislock.handleA.Lock redislock.Store.empty none).store
    (reentrantlock.lockTimes reentrantlock.reentrantA reentrantlock.Store.empty 2).1
    (reentrantlock.lockTimes reentrantlock.reentrantA reentrantlock.Store.empty 2).2
    none "holder-a" "job:42" 0
  have h2 := C11_keep_alive_lifecycle
    (redislock.handleA.Lock redislock.Store.empty none).handle
    (redislock.handleA.Lock redislock.Store.empty none).store
    (reentrantlock.lockThenUnlock reentrantlock.reentrantA reentrantlock.Store.empty 2 1).1
    (reentrantlock.lockThenUnlock reentrantlock.reentrantA reentrantlock.Store.empty 2 1).2
    none "holder-a" "job:42" 0
  ⟨⟨h0.1.1, h0.2.1.1 (by decide), (h1.2.2.1.2 (by decide)).2.2.1, (h2.2.2.1.1 (by decide)).2.2.1⟩,
    ⟨h0.2.1.2.2.1 (by decide),
      ((h1.2.2.2.2.1 ⟨"holder-a", 2, some (10 * Second)⟩ rfl (by decide) (by decide)
        (by decide)).2.2.1).trans (h0.2.1.2.2.1 (by decide)),
      (h2.2.2.2.1 ⟨"holder-a", 1, some (10 * Second)⟩ rfl (by decide) (by decide)
        (by decide)).2.2.1⟩⟩

/-- C12 as stated fails for `Unlock()`: when the store call of `redislock.handleA.Unlock()`
fails with the client error "connection refused", the caller does not get that error
value but a new one that wraps it behind the text "unlock failed: ". -/
theorem C12_unlock_wraps_store_error :
    (redislock.handleA.Unlock redislock.Store.empty
        (some (GoError.client "connection refused"))).err
        ≠ some (GoError.client "connection refused") ∧
      (redislock.handleA.Unlock redislock.Store.empty
        (some (GoError.client "connection refused"))).err
        = some (GoError.wrapf "unlock failed: " (GoError.client "connection refused")) ∧
      (reentrantlock.reentrantA.Unlock reentrantlock.Store.empty
        (some (GoError.client "connection refused"))).err
        ≠ some (GoError.client "connection refused") := by
  refine ⟨?_, rfl, ?_⟩
  · simp [redislock.Lock.Unlock]
  · simp [reentrantlock.ReentrantLock.Unlock]

/-- C12, amended: store errors, for both variants.  When the store call of `Lock()`
fails with an error `e`, `Lock()` returns `(false, e)` with exactly that error value;
when the store call of `Unlock()` fails with `e`, `Unlock()` returns `e` wrapped by
`fmt.Errorf("unlock failed: %w", e)`; in both cases the store is as before (the call is
not issued again) and the handle, its keep-alive flag included, is unchanged. -/
theorem C12_store_errors (r : redislock.Lock) (st : redislock.Store)
    (x : reentrantlock.ReentrantLock) (xst : reentrantlock.Store) (e : GoError) :
    ((r.Lock st (some e)).acquired = false ∧ (r.Lock st (some e)).err = some e ∧
        (r.Lock st (some e)).store = st ∧ (r.Lock st (some e)).handle = r) ∧
      ((x.Lock xst (some e)).acquired = false ∧ (x.Lock xst (some e)).err = some e ∧
        (x.Lock xst (some e)).store = xst ∧ (x.Lock xst (some e)).handle = x) ∧
      ((r.Unlock st (some e)).err = some (GoError.wrapf msgUnlockFailed e) ∧
        (r.Unlock st (some e)).store = st ∧ (r.Unlock st (some e)).handle = r) ∧
      ((x.Unlock xst (some e)).err = some (GoError.wrapf msgUnlockFailed e) ∧
        (x.Unlock xst (some e)).store = xst ∧ (x.Unlock xst (some e)).handle = x) :=
  ⟨⟨rfl, rfl, rfl, rfl⟩, ⟨rfl, rfl, rfl, rfl⟩, ⟨rfl, rfl, rfl⟩, ⟨rfl, rfl, rfl⟩⟩

/-! ## Snowflake: 64-bit arithmetic -/

namespace snowflake

theorem toUint64_natCast (n : Nat) (h : n < 2 ^ 64) : toUint64 (n : Int) = n := by
  unfold toUint64
  have : ((n : Int) % 2 ^ 64) = ((n % 2 ^ 64 : Nat) : Int) := by norm_cast
  rw [this, Int.toNat_ofNat, Nat.mod_eq_of_lt h]

theorem ofUint64_of_lt (n : Nat) (h : n < 2 ^ 63) : ofUint64 n = (n : Int) := by
  unfold ofUint64
  have h64 : n % 2 ^ 64 = n := Nat.mod_eq_of_lt (lt_trans h (by norm_num))
  rw [h64, if_pos h]

theorem shl64_natCast (n k : Nat) (h : n * 2 ^ k < 2 ^ 63) :
    shl64 (n : Int) k = ((n * 2 ^ k : Nat) : Int) := by
  have hn : n < 2 ^ 64 := by
    have : n ≤ n * 2 ^ k := Nat.le_mul_of_pos_right n (Nat.pow_pos (by norm_num))
    exact lt_of_le_of_lt this (lt_trans h (by norm_num))
  have hk : ¬ 64 ≤ k ∨ n = 0 := by
    by_cases h64 : 64 ≤ k
    · right
      by_contra hn0
      have h1 : (2 : Nat) ^ 64 ≤ 2 ^ k := Nat.pow_le_pow_right (by norm_num) h64
      have h2 : 1 * 2 ^ k ≤ n * 2 ^ k := Nat.mul_le_mul_right _ (Nat.pos_of_ne_zero hn0)
      have h3 : (2 : Nat) ^ 63 < 2 ^ 64 := by norm_num
      omega
    · exact Or.inl h64
  unfold shl64
  rcases hk with hk | hk
  · rw [if_neg hk, toUint64_natCast n hn, Nat.shiftLeft_eq, ofUint64_of_lt _ h]
  · subst hk
    split
    · simp
    · rw [toUint64_natCast 0 (by norm_num), Nat.shiftLeft_eq, ofUint64_of_lt _ h]

/-- Bitwise or of a multiple of `2 ^ k` and a value below `2 ^ k` is their sum. -/
theorem or64_natCast (a b k : Nat) (hb : b < 2 ^ k) (h : a * 2 ^ k + b < 2 ^ 63) :
    or64 ((a * 2 ^ k : Nat) : Int) (b : Int) = ((a * 2 ^ k + b : Nat) : Int) := by
  have h1 : a * 2 ^ k < 2 ^ 64 := lt_of_le_of_lt (Nat.le_add_right _ _) (lt_trans h (by norm_num))
  have h2 : b < 2 ^ 64 := lt_of_le_of_lt (Nat.le_add_left _ _) (lt_trans h (by norm_num))
  unfold or64
  rw [toUint64_natCast _ h1, toUint64_natCast _ h2]
  have hor : a * 2 ^ k ||| b = a * 2 ^ k + b := by
    rw [Nat.mul_comm a (2 ^ k)]
    exact (Nat.mul_add_lt_is_or hb a).symm
  rw [hor, ofUint64_of_lt _ h]

/-- Masking with `2 ^ k - 1` keeps the value modulo `2 ^ k`, whatever the sign. -/
theorem and64_mask (y : Int) (k : Nat) (hk : k ≤ 62) :
    and64 y (2 ^ k - 1) = y % 2 ^ k := by
  have hpk : (2 : Nat) ^ k < 2 ^ 63 := Nat.pow_lt_pow_right (by norm_num) (by omega)
  have hpos : 0 < (2 : Nat) ^ k := Nat.pow_pos (by norm_num)
  have hm : ((2 : Int) ^ k - 1) = ((2 ^ k - 1 : Nat) : Int) := by
    rw [Nat.cast_sub hpos]; norm_cast
  unfold and64
  rw [hm, toUint64_natCast _ (by omega), Nat.and_pow_two_sub_one_eq_mod]
  have hlt : toUint64 y % 2 ^ k < 2 ^ 63 := lt_trans (Nat.mod_lt _ hpos) hpk
  rw [ofUint64_of_lt _ hlt]
  unfold toUint64
  have hnn : 0 ≤ y % 2 ^ 64 := Int.emod_nonneg _ (by norm_num)
  rw [Int.natCast_mod, Int.toNat_of_nonneg hnn]
  push_cast
  have hdvd : ((2 : Int) ^ k) ∣ 2 ^ 64 := pow_dvd_pow 2 (by omega)
  exact Int.emod_emod_of_dvd y hdvd

/-- Wrapping does not change the bit pattern. -/
theorem toUint64_wrap64 (x : Int) : toUint64 (wrap64 x) = toUint64 x := by
  unfold toUint64
  have h64 : (2 : Int) ^ 64 = 18446744073709551616 := by norm_num
  rw [h64]
  congr 1
  unfold wrap64
  omega

/-- Masking a wrapped value is masking the value. -/
theorem and64_wrap64 (x m : Int) : and64 (wrap64 x) m = and64 x m := by
  unfold and64
  rw [toUint64_wrap64]

/-- A timestamp in `[0, 2^41)` is its own wrap. -/
theorem wrap64_of_range (x : Int) (h : 0 ≤ x ∧ x < 2 ^ 41) : wrap64 x = x := by
  have h41 : (2 : Int) ^ 41 = 2199023255552 := by norm_num
  rw [h41] at h
  exact wrap64_of_isInt64 x (by unfold IsInt64; omega)

/-- The masks `-1 ^ (-1 << k)` of the config. -/
theorem mask_eq (k : Nat) (hk : k ≤ 22) : xor64 (-1) (shl64 (-1) k) = 2 ^ k - 1 := by
  interval_cases k <;> rfl

/-- Quotient and remainder of `q * m + r` with `r < m`. -/
theorem div_mod_unique (q r m : Nat) (h : r < m) :
    (q * m + r) / m = q ∧ (q * m + r) % m = r := by
  have hm : 0 < m := lt_of_le_of_lt (Nat.zero_le r) h
  constructor
  · rw [Nat.add_comm, Nat.add_mul_div_right _ _ hm, Nat.div_eq_of_lt h, Nat.zero_add]
  · rw [Nat.add_comm, Nat.add_mul_mod_self_right, Nat.mod_eq_of_lt h]

end snowflake

/-! ## Snowflake: configs -/

namespace snowflake

/-- The bit pattern of a non-negative `int` is the value itself. -/
theorem toUint64_of_nonneg (x : Int) (h0 : 0 ≤ x) (h : x < 18446744073709551616) :
    toUint64 x = x.toNat := by
  unfold toUint64
  have h64 : (2 : Int) ^ 64 = 18446744073709551616 := by norm_num
  rw [h64, Int.emod_eq_of_lt h0 h]

/-- A shift of 64 or more leaves the mask `-1`. -/
theorem mask_wide (k : Nat) (hk : 64 ≤ k) : xor64 (-1) (shl64 (-1) k) = -1 := by
  unfold shl64
  rw [if_pos hk]
  decide

/-- What the guard of `NewSnowConfig` has checked when a config is returned. -/
theorem newSnowConfig_guard (e d w sq : Int) (c : SnowConfig)
    (h : NewSnowConfig e d w sq = some c) :
    wrap64 (wrap64 (sq + w) + d) = 22 ∧ 1 ≤ sq ∧ 1 ≤ w ∧ 1 ≤ d ∧
      c = { epoch := e
            sequenceBits := toUint64 sq
            workerIdBits := toUint64 w
            datacenterIdBits := toUint64 d
            workerIdShift := toUint64 sq
            datacenterIdShift := toUint64 (wrap64 (sq + w))
            timestampLeftShift := toUint64 (wrap64 (wrap64 (sq + w) + d))
            maxWorkerId := xor64 (-1) (shl64 (-1) w.toNat)
            maxDatacenterId := xor64 (-1) (shl64 (-1) d.toNat)
            sequenceMask := xor64 (-1) (shl64 (-1) sq.toNat) } := by
  unfold NewSnowConfig at h
  split at h
  · cases h
  · rename_i hn
    simp only [not_or, not_not, not_lt] at hn
    obtain ⟨hsum, hs, hw, hd⟩ := hn
    cases h
    exact ⟨hsum, hs, hw, hd, rfl⟩

/-- What `NewSnowConfig` returns for widths that add up to 22 has the layout of its three
widths. -/
theorem newSnowConfig_layout (e d w sq : Int) (c : SnowConfig)
    (h : NewSnowConfig e d w sq = some c) (hsum : sq + w + d = 22) :
    c.HasLayout sq.toNat w.toNat d.toNat ∧ c.epoch = e ∧
      (sq.toNat : Int) = sq ∧ (w.toNat : Int) = w ∧ (d.toNat : Int) = d := by
  obtain ⟨-, hs, hw, hd, hc⟩ := newSnowConfig_guard e d w sq c h
  have hsn : (sq.toNat : Int) = sq := Int.toNat_of_nonneg (by omega)
  have hwn : (w.toNat : Int) = w := Int.toNat_of_nonneg (by omega)
  have hdn : (d.toNat : Int) = d := Int.toNat_of_nonneg (by omega)
  have hsw : wrap64 (sq + w) = sq + w := wrap64_of_isInt64 _ (by unfold IsInt64; omega)
  have hswd : wrap64 (wrap64 (sq + w) + d) = 22 := by
    rw [hsw, hsum]; decide
  have hs22 : sq.toNat ≤ 22 := by omega
  have hw22 : w.toNat ≤ 22 := by omega
  have hd22 : d.toNat ≤ 22 := by omega
  have h1 : toUint64 sq = sq.toNat := toUint64_of_nonneg _ (by omega) (by omega)
  have h2 : toUint64 w = w.toNat := toUint64_of_nonneg _ (by omega) (by omega)
  have h3 : toUint64 d = d.toNat := toUint64_of_nonneg _ (by omega) (by omega)
  have h4 : toUint64 (wrap64 (sq + w)) = sq.toNat + w.toNat := by
    rw [hsw, toUint64_of_nonneg _ (by omega) (by omega)]; omega
  have h5 : toUint64 (wrap64 (wrap64 (sq + w) + d)) = 22 := by
    rw [hswd]; decide
  subst hc
  refine ⟨⟨by omega, by omega, by omega, by omega, h1, h2, h3, ?_, ?_, ?_, h1, h4, h5⟩, rfl,
    hsn, hwn, hdn⟩
  · exact mask_eq _ hw22
  · exact mask_eq _ hd22
  · exact mask_eq _ hs22

/-- What `NewSnowConfig` returns for widths of type `int` that do not add up to 22, the
sum wrapping to 22: one of the two maxima is `-1`. -/
theorem newSnowConfig_wrapped (e d w sq : Int) (c : SnowConfig)
    (hdi : IsInt64 d) (hwi : IsInt64 w) (hsi : IsInt64 sq)
    (h : NewSnowConfig e d w sq = some c) (hsum : sq + w + d ≠ 22) :
    c.maxWorkerId = -1 ∨ c.maxDatacenterId = -1 := by
  obtain ⟨hg, hs, hw, hd, hc⟩ := newSnowConfig_guard e d w sq c h
  have hwide : 64 ≤ w ∨ 64 ≤ d := by
    unfold wrap64 at hg
    unfold IsInt64 at hdi hwi hsi
    omega
  subst hc
  rcases hwide with hk | hk
  · exact Or.inl (mask_wide _ (by omega))
  · exact Or.inr (mask_wide _ (by omega))

/-- The default config has the layout 12, 5, 5. -/
theorem defaultSnowConfig_layout : defaultSnowConfig.HasLayout 12 5 5 := by
  refine ⟨by decide, by decide, by decide, rfl, rfl, rfl, rfl, ?_, ?_, ?_, rfl, rfl, rfl⟩
  · exact mask_eq 5 (by decide)
  · exact mask_eq 5 (by decide)
  · exact mask_eq 12 (by decide)

/-- `NewSnowflake` accepts exactly the ids within the two maxima. -/
theorem newSnowflake_cases (c : SnowConfig) (wk dc : Int) :
    (0 ≤ wk ∧ wk ≤ c.maxWorkerId ∧ 0 ≤ dc ∧ dc ≤ c.maxDatacenterId →
        c.NewSnowflake wk dc = Except.ok
          { c := c, lastTimestamp := -1, workerId := wk, datacenterId := dc, sequence := 0,
            datacenterIdWorkId :=
              or64 (shl64 dc c.datacenterIdShift) (shl64 wk c.workerIdShift) }) ∧
      (¬ (0 ≤ wk ∧ wk ≤ c.maxWorkerId) →
        c.NewSnowflake wk dc = Except.error ErrInvalidWorkerId) ∧
      (0 ≤ wk ∧ wk ≤ c.maxWorkerId → ¬ (0 ≤ dc ∧ dc ≤ c.maxDatacenterId) →
        c.NewSnowflake wk dc = Except.error ErrInvalidDatacenterId) := by
  refine ⟨?_, ?_, ?_⟩
  · rintro ⟨h1, h2, h3, h4⟩
    have hw : ¬ (wk < 0 ∨ wk > c.maxWorkerId) := by omega
    have hd : ¬ (dc < 0 ∨ dc > c.maxDatacenterId) := by omega
    simp [SnowConfig.NewSnowflake, hw, hd]
  · intro h
    have hw : wk < 0 ∨ wk > c.maxWorkerId := by omega
    simp [SnowConfig.NewSnowflake, hw]
  · intro h1 h2
    have hw : ¬ (wk < 0 ∨ wk > c.maxWorkerId) := by omega
    have hd : dc < 0 ∨ dc > c.maxDatacenterId := by omega
    simp [SnowConfig.NewSnowflake, hw, hd]

/-- A config with a maximum of `-1` yields no generator. -/
theorem newSnowflake_none (c : SnowConfig) (wk dc : Int)
    (h : c.maxWorkerId = -1 ∨ c.maxDatacenterId = -1) :
    ∃ err, c.NewSnowflake wk dc = Except.error err := by
  have hcases := newSnowflake_cases c wk dc
  by_cases hwk : 0 ≤ wk ∧ wk ≤ c.maxWorkerId
  · have hdc : ¬ (0 ≤ dc ∧ dc ≤ c.maxDatacenterId) := by
      rcases h with h | h
      · omega
      · omega
    exact ⟨_, hcases.2.2 hwk hdc⟩
  · exact ⟨_, hcases.2.1 hwk⟩

/-- Every accepted config that yields a generator has a layout. -/
theorem accepted_layout (c : SnowConfig) (h : c.Accepted) (wk dc : Int) (g : Snowflake)
    (hg : c.NewSnowflake wk dc = Except.ok g) :
    ∃ sb wb db, c.HasLayout sb wb db := by
  rcases h with h | ⟨e, d, w, sq, hd, hw, hs, h⟩
  · subst h; exact ⟨12, 5, 5, defaultSnowConfig_layout⟩
  · by_cases hsum : sq + w + d = 22
    · exact ⟨_, _, _, (newSnowConfig_layout e d w sq c h hsum).1⟩
    · obtain ⟨err, herr⟩ := newSnowflake_none c wk dc
        (newSnowConfig_wrapped e d w sq c hd hw hs h hsum)
      rw [herr] at hg
      cases hg

/-- C16 (what the code does): config validation.  The three widths are of type `int`
and the guard adds them with wrap-around: `NewSnowConfig(t, 24, MaxInt64, MaxInt64)`
does not panic, although the widths do not add up to 22, and returns a config with
`maxWorkerId = sequenceMask = -1`, a worker shift of `MaxInt64` and a timestamp shift of
22, on which `NewSnowflake` accepts no ids at all.  On widths whose sum does not wrap
the code does what the claim says: `NewSnowConfig` panics exactly when the three widths
do not add up to 22 or one of them is below 1; otherwise the config it returns has
`maxWorkerId = 2^workerIdBits - 1`, `maxDatacenterId = 2^datacenterIdBits - 1`,
`sequenceMask = 2^sequenceBits - 1`, `workerIdShift = sequenceBits`,
`datacenterIdShift = sequenceBits + workerIdBits`, `timestampLeftShift = 22`, and
`NewSnowflake` on it returns a generator exactly for `0 ≤ workerId ≤ maxWorkerId` and
`0 ≤ datacenterId ≤ maxDatacenterId`, `ErrInvalidWorkerId` for another worker id and
`ErrInvalidDatacenterId` for a valid worker id with another datacenter id. -/
theorem C16_config_validation :
    (IsInt64 24 ∧ IsInt64 9223372036854775807 ∧
        (9223372036854775807 : Int) + 9223372036854775807 + 24 ≠ 22 ∧
        NewSnowConfig 0 24 9223372036854775807 9223372036854775807 = some wrappedConfig ∧
        wrappedConfig.maxWorkerId = -1 ∧ wrappedConfig.sequenceMask = -1 ∧
        wrappedConfig.maxDatacenterId = 2 ^ 24 - 1 ∧
        wrappedConfig.workerIdShift = 9223372036854775807 ∧
        wrappedConfig.datacenterIdShift = 18446744073709551614 ∧
        wrappedConfig.timestampLeftShift = 22 ∧
        (∀ wk dc : Int, ∃ err, wrappedConfig.NewSnowflake wk dc = Except.error err)) ∧
      (∀ epochTime datacenterIdBits workerIdBits sequenceBits : Int,
        IsInt64 (sequenceBits + workerIdBits) →
        IsInt64 (sequenceBits + workerIdBits + datacenterIdBits) →
        (NewSnowConfig epochTime datacenterIdBits workerIdBits sequenceBits = none ↔
            (sequenceBits + workerIdBits + datacenterIdBits ≠ 22 ∨ sequenceBits < 1 ∨
              workerIdBits < 1 ∨ datacenterIdBits < 1)) ∧
          (∀ c, NewSnowConfig epochTime datacenterIdBits workerIdBits sequenceBits = some c →
            c.maxWorkerId = 2 ^ workerIdBits.toNat - 1 ∧
              c.maxDatacenterId = 2 ^ datacenterIdBits.toNat - 1 ∧
              c.sequenceMask = 2 ^ sequenceBits.toNat - 1 ∧
              (c.workerIdShift : Int) = sequenceBits ∧
              (c.datacenterIdShift : Int) = sequenceBits + workerIdBits ∧
              c.timestampLeftShift = 22 ∧
              (∀ wk dc : Int,
                ((∃ g, c.NewSnowflake wk dc = Except.ok g) ↔
                  (0 ≤ wk ∧ wk ≤ c.maxWorkerId ∧ 0 ≤ dc ∧ dc ≤ c.maxDatacenterId)) ∧
                (¬ (0 ≤ wk ∧ wk ≤ c.maxWorkerId) →
                  c.NewSnowflake wk dc = Except.error ErrInvalidWorkerId) ∧
                (0 ≤ wk ∧ wk ≤ c.maxWorkerId → ¬ (0 ≤ dc ∧ dc ≤ c.maxDatacenterId) →
                  c.NewSnowflake wk dc = Except.error ErrInvalidDatacenterId)))) := by
  constructor
  · have hc : NewSnowConfig 0 24 9223372036854775807 9223372036854775807
        = some wrappedConfig := by decide
    have hmw : wrappedConfig.maxWorkerId = -1 := by decide
    refine ⟨by decide, by decide, by decide, hc, hmw, by decide, by decide, by decide,
      by decide, by decide, ?_⟩
    intro wk dc
    exact newSnowflake_none _ wk dc (Or.inl hmw)
  · intro epochTime datacenterIdBits workerIdBits sequenceBits hsw hswd
    have hwrap : wrap64 (wrap64 (sequenceBits + workerIdBits) + datacenterIdBits)
        = sequenceBits + workerIdBits + datacenterIdBits := by
      rw [wrap64_of_isInt64 _ hsw, wrap64_of_isInt64 _ hswd]
    constructor
    · unfold NewSnowConfig
      rw [hwrap]
      split
      · rename_i h; exact ⟨fun _ => h, fun _ => rfl⟩
      · rename_i h; exact ⟨fun hh => (by cases hh), fun hh => absurd hh h⟩
    · intro c hc
      have hsum : sequenceBits + workerIdBits + datacenterIdBits = 22 := by
        rw [← hwrap]; exact (newSnowConfig_guard _ _ _ _ c hc).1
      obtain ⟨hl, -, hs, hw, hd⟩ := newSnowConfig_layout _ _ _ _ c hc hsum
      obtain ⟨-, -, -, -, -, -, -, hmw, hmd, hsm, hws, hds, hts⟩ := hl
      refine ⟨hmw, hmd, hsm, by rw [hws, hs], by rw [hds]; push_cast; rw [hs, hw], hts, ?_⟩
      intro wk dc
      have hcases := newSnowflake_cases c wk dc
      refine ⟨⟨?_, fun h => ⟨_, hcases.1 h⟩⟩, hcases.2.1, hcases.2.2⟩
      rintro ⟨g, hg⟩
      by_contra hn
      by_cases hwk : 0 ≤ wk ∧ wk ≤ c.maxWorkerId
      · have hdc : ¬ (0 ≤ dc ∧ dc ≤ c.maxDatacenterId) := fun hdc =>
          hn ⟨hwk.1, hwk.2, hdc.1, hdc.2⟩
        rw [hcases.2.2 hwk hdc] at hg; cases hg
      · rw [hcases.2.1 hwk] at hg; cases hg

end snowflake

/-! ## Snowflake: layout of an id -/

namespace snowflake

/-- The three low fields together stay below `2 ^ 22`. -/
theorem low_fields_lt (sb wb db dc wk sq : Nat) (hsum : sb + wb + db = 22)
    (hdc : dc < 2 ^ db) (hwk : wk < 2 ^ wb) (hsq : sq < 2 ^ sb) :
    wk * 2 ^ sb + sq < 2 ^ (sb + wb) ∧
      dc * 2 ^ (sb + wb) + (wk * 2 ^ sb + sq) < 2 ^ 22 := by
  have h1 : wk * 2 ^ sb + sq < 2 ^ (sb + wb) := by
    have : (wk + 1) * 2 ^ sb ≤ 2 ^ wb * 2 ^ sb := Nat.mul_le_mul_right _ hwk
    rw [pow_add, Nat.mul_comm (2 ^ sb) (2 ^ wb)]
    calc wk * 2 ^ sb + sq < wk * 2 ^ sb + 2 ^ sb := by omega
      _ = (wk + 1) * 2 ^ sb := by ring
      _ ≤ 2 ^ wb * 2 ^ sb := this
  refine ⟨h1, ?_⟩
  have h22 : (2 : Nat) ^ 22 = 2 ^ db * 2 ^ (sb + wb) := by
    rw [← pow_add]; congr 1; omega
  have : (dc + 1) * 2 ^ (sb + wb) ≤ 2 ^ db * 2 ^ (sb + wb) := Nat.mul_le_mul_right _ hdc
  rw [h22]
  calc dc * 2 ^ (sb + wb) + (wk * 2 ^ sb + sq) < dc * 2 ^ (sb + wb) + 2 ^ (sb + wb) := by omega
    _ = (dc + 1) * 2 ^ (sb + wb) := by ring
    _ ≤ 2 ^ db * 2 ^ (sb + wb) := this

/-- The id is the sum of its four fields, each at its shift. -/
theorem compose_eq (sb wb db t dc wk sq : Nat) (hsum : sb + wb + db = 22)
    (ht : t < 2 ^ 41) (hdc : dc < 2 ^ db) (hwk : wk < 2 ^ wb) (hsq : sq < 2 ^ sb) :
    or64 (or64 (shl64 (t : Int) 22) (or64 (shl64 (dc : Int) (sb + wb)) (shl64 (wk : Int) sb)))
        (sq : Int)
      = ((t * 2 ^ 22 + (dc * 2 ^ (sb + wb) + (wk * 2 ^ sb + sq)) : Nat) : Int) := by
  obtain ⟨hlow1, hlow2⟩ := low_fields_lt sb wb db dc wk sq hsum hdc hwk hsq
  have htop : t * 2 ^ 22 + (dc * 2 ^ (sb + wb) + (wk * 2 ^ sb + sq)) < 2 ^ 63 := by
    have : (t + 1) * 2 ^ 22 ≤ 2 ^ 41 * 2 ^ 22 := Nat.mul_le_mul_right _ ht
    have h63 : (2 : Nat) ^ 41 * 2 ^ 22 = 2 ^ 63 := by norm_num
    have hexp : (t + 1) * 2 ^ 22 = t * 2 ^ 22 + 2 ^ 22 := by ring
    omega
  have hwk2 : wk * 2 ^ sb < 2 ^ (sb + wb) := lt_of_le_of_lt (Nat.le_add_right _ _) hlow1
  rw [shl64_natCast t 22 (by omega), shl64_natCast dc (sb + wb) (by omega),
    shl64_natCast wk sb (by omega)]
  rw [or64_natCast dc (wk * 2 ^ sb) (sb + wb) hwk2 (by omega)]
  rw [or64_natCast t (dc * 2 ^ (sb + wb) + wk * 2 ^ sb) 22 (by omega) (by omega)]
  have hfac : t * 2 ^ 22 + (dc * 2 ^ (sb + wb) + wk * 2 ^ sb)
      = (t * 2 ^ (wb + db) + dc * 2 ^ wb + wk) * 2 ^ sb := by
    have h22 : (2 : Nat) ^ 22 = 2 ^ (wb + db) * 2 ^ sb := by
      rw [← pow_add]; congr 1; omega
    have hsw : (2 : Nat) ^ (sb + wb) = 2 ^ wb * 2 ^ sb := by
      rw [← pow_add]; congr 1; omega
    rw [h22, hsw]; ring
  have hlt : (t * 2 ^ (wb + db) + dc * 2 ^ wb + wk) * 2 ^ sb + sq < 2 ^ 63 := by
    rw [← hfac]; omega
  have key := or64_natCast (t * 2 ^ (wb + db) + dc * 2 ^ wb + wk) sq sb hsq hlt
  rw [← hfac] at key
  rw [key]
  simp only [Nat.add_assoc]

end snowflake

/-! ## Snowflake: one call of `NextId` -/

namespace snowflake

/-- When the wait loop ends, `now` is past `lastTimestamp`, and it is the value the
loop was entered with or a later clock reading. -/
theorem waitLoop_some (e last : Int) (clock : Nat → Int) (fuel : Nat) :
    ∀ (now : Int) (pos : Nat) (now2 : Int) (pos2 : Nat),
      waitLoop e last clock fuel now pos = some (now2, pos2) →
        last < now2 ∧ ((now2 = now ∧ pos2 = pos) ∨
          ∃ k, pos ≤ k ∧ k < pos2 ∧ now2 = wrap64 (clock k - e)) := by
  induction fuel with
  | zero =>
    intro now pos now2 pos2 h
    unfold waitLoop at h
    split at h
    · cases h
    · rename_i hn
      cases h
      exact ⟨not_le.mp hn, Or.inl ⟨rfl, rfl⟩⟩
  | succ fuel ih =>
    intro now pos now2 pos2 h
    unfold waitLoop at h
    split at h
    · obtain ⟨h1, h2⟩ := ih _ _ _ _ h
      refine ⟨h1, Or.inr ?_⟩
      rcases h2 with ⟨hn, hp⟩ | ⟨k, hk1, hk2, hk3⟩
      · exact ⟨pos, le_refl _, by omega, hn⟩
      · exact ⟨k, by omega, hk2, hk3⟩
    · rename_i hn
      cases h
      exact ⟨not_le.mp hn, Or.inl ⟨rfl, rfl⟩⟩

/-- The wait loop ends within `fuel` rounds when one of the next `fuel` readings is past
`lastTimestamp`. -/
theorem waitLoop_returns (e last : Int) (clock : Nat → Int) (fuel : Nat) :
    ∀ (now : Int) (pos k : Nat), pos ≤ k → k < pos + fuel → last < wrap64 (clock k - e) →
      ∃ res, waitLoop e last clock fuel now pos = some res := by
  induction fuel with
  | zero => intro now pos k h1 h2 _; omega
  | succ fuel ih =>
    intro now pos k h1 h2 h3
    unfold waitLoop
    split
    · by_cases hk : k = pos
      · subst hk
        cases fuel with
        | zero =>
          unfold waitLoop
          rw [if_neg (not_le.mpr h3)]
          exact ⟨_, rfl⟩
        | succ f =>
          unfold waitLoop
          rw [if_neg (not_le.mpr h3)]
          exact ⟨_, rfl⟩
      · exact ih _ (pos + 1) k (by omega) (by omega) h3
    · exact ⟨_, rfl⟩

/-- A `NextId()` that returns an error returns `(0, ErrClockMovedBackwards)`, has seen
a reading before `lastTimestamp` and has left the generator as it was. -/
theorem nextId_err (s : Snowflake) (clock : Nat → Int) (pos fuel : Nat) (r : NextIdResult)
    (h : s.NextId clock pos fuel = some r) (herr : r.err ≠ none) :
    wrap64 (clock pos - s.c.epoch) < s.lastTimestamp ∧
      r = ⟨0, some ErrClockMovedBackwards, s, pos + 1⟩ := by
  unfold Snowflake.NextId at h
  simp only at h
  split at h
  · rename_i hlt
    cases h
    exact ⟨hlt, rfl⟩
  · split at h
    · split at h
      · split at h
        · cases h
        · cases h; exact absurd rfl herr
      · cases h; exact absurd rfl herr
    · cases h; exact absurd rfl herr

/-- A `NextId()` that returns without error: its timestamp is a clock reading made
during the call; either the timestamp is past `lastTimestamp` and the sequence is zero,
or the timestamp is `lastTimestamp` and the sequence is the old one plus one under the
mask, not zero; the id is composed from the new timestamp and sequence. -/
theorem nextId_ok (s : Snowflake) (clock : Nat → Int) (pos fuel : Nat) (r : NextIdResult)
    (h : s.NextId clock pos fuel = some r) (herr : r.err = none) :
    (∃ k, pos ≤ k ∧ k < r.reads ∧ r.s.lastTimestamp = wrap64 (clock k - s.c.epoch)) ∧
      r.s.c = s.c ∧ r.s.workerId = s.workerId ∧ r.s.datacenterId = s.datacenterId ∧
      r.s.datacenterIdWorkId = s.datacenterIdWorkId ∧
      r.id = or64 (or64 (shl64 r.s.lastTimestamp s.c.timestampLeftShift)
        s.datacenterIdWorkId) r.s.sequence ∧
      ((s.lastTimestamp < r.s.lastTimestamp ∧ r.s.sequence = 0) ∨
        (r.s.lastTimestamp = s.lastTimestamp ∧
          r.s.sequence = and64 (s.sequence + 1) s.c.sequenceMask ∧ r.s.sequence ≠ 0)) := by
  unfold Snowflake.NextId at h
  simp only [and64_wrap64] at h
  split at h
  · cases h; cases herr
  · rename_i hnlt
    split at h
    · rename_i heq
      split at h
      · rename_i hzero
        split at h
        · cases h
        · rename_i now2 pos2 hw
          cases h
          obtain ⟨hgt, hsrc⟩ := waitLoop_some _ _ _ _ _ _ _ _ hw
          refine ⟨?_, rfl, rfl, rfl, rfl, rfl, Or.inl ⟨hgt, hzero⟩⟩
          rcases hsrc with ⟨hn, hp⟩ | ⟨k, hk1, hk2, hk3⟩
          · exfalso
            rw [hn, heq] at hgt
            exact lt_irrefl _ hgt
          · exact ⟨k, by omega, hk2, hk3⟩
      · rename_i hnz
        cases h
        exact ⟨⟨pos, le_refl _, Nat.lt_succ_self _, rfl⟩, rfl, rfl, rfl, rfl, rfl,
          Or.inr ⟨heq, rfl, hnz⟩⟩
    · rename_i hne
      cases h
      refine ⟨⟨pos, le_refl _, Nat.lt_succ_self _, rfl⟩, rfl, rfl, rfl, rfl, rfl,
        Or.inl ⟨?_, rfl⟩⟩
      exact lt_of_le_of_ne (not_lt.mp hnlt) (fun hh => hne hh.symm)

/-- Casts commute with division by a power of two. -/
theorem natCast_div_two_pow (n k : Nat) : ((n : Int) / 2 ^ k) = ((n / 2 ^ k : Nat) : Int) := by
  rw [Int.natCast_div]; push_cast; rfl

/-- Casts commute with the remainder modulo a power of two. -/
theorem natCast_mod_two_pow (n k : Nat) : ((n : Int) % 2 ^ k) = ((n % 2 ^ k : Nat) : Int) := by
  rw [Int.natCast_mod]; push_cast; rfl

/-- Reading the four fields back from the sum. -/
theorem fields_of_sum (sb wb db t dc wk sq : Nat) (hsum : sb + wb + db = 22)
    (hdc : dc < 2 ^ db) (hwk : wk < 2 ^ wb) (hsq : sq < 2 ^ sb) :
    (t * 2 ^ 22 + (dc * 2 ^ (sb + wb) + (wk * 2 ^ sb + sq))) / 2 ^ 22 = t ∧
      (t * 2 ^ 22 + (dc * 2 ^ (sb + wb) + (wk * 2 ^ sb + sq))) / 2 ^ (sb + wb) % 2 ^ db = dc ∧
      (t * 2 ^ 22 + (dc * 2 ^ (sb + wb) + (wk * 2 ^ sb + sq))) / 2 ^ sb % 2 ^ wb = wk ∧
      (t * 2 ^ 22 + (dc * 2 ^ (sb + wb) + (wk * 2 ^ sb + sq))) % 2 ^ sb = sq := by
  obtain ⟨hlow1, hlow2⟩ := low_fields_lt sb wb db dc wk sq hsum hdc hwk hsq
  have h22 : (2 : Nat) ^ 22 = 2 ^ db * 2 ^ (sb + wb) := by
    rw [← pow_add]; congr 1; omega
  have h22b : (2 : Nat) ^ 22 = 2 ^ (wb + db) * 2 ^ sb := by
    rw [← pow_add]; congr 1; omega
  have hsw : (2 : Nat) ^ (sb + wb) = 2 ^ wb * 2 ^ sb := by
    rw [← pow_add]; congr 1; omega
  have hwd : (2 : Nat) ^ (wb + db) = 2 ^ db * 2 ^ wb := by
    rw [← pow_add]; congr 1; omega
  refine ⟨(div_mod_unique t _ _ hlow2).1, ?_, ?_, ?_⟩
  · have e1 : t * 2 ^ 22 + (dc * 2 ^ (sb + wb) + (wk * 2 ^ sb + sq))
        = (t * 2 ^ db + dc) * 2 ^ (sb + wb) + (wk * 2 ^ sb + sq) := by
      rw [h22]; ring
    rw [e1, (div_mod_unique _ _ _ hlow1).1]
    exact (div_mod_unique t dc _ hdc).2
  · have e1 : t * 2 ^ 22 + (dc * 2 ^ (sb + wb) + (wk * 2 ^ sb + sq))
        = ((t * 2 ^ db + dc) * 2 ^ wb + wk) * 2 ^ sb + sq := by
      rw [h22b, hsw, hwd]; ring
    rw [e1, (div_mod_unique _ _ _ hsq).1]
    exact (div_mod_unique _ wk _ hwk).2
  · have e1 : t * 2 ^ 22 + (dc * 2 ^ (sb + wb) + (wk * 2 ^ sb + sq))
        = ((t * 2 ^ db + dc) * 2 ^ wb + wk) * 2 ^ sb + sq := by
      rw [h22b, hsw, hwd]; ring
    rw [e1]
    exact (div_mod_unique _ sq _ hsq).2

/-- The id composed by `NextId` from a timestamp below `2 ^ 41`, ids within the maxima
of the config and a sequence within the mask: value and fields. -/
theorem id_fields (c : SnowConfig) (sb wb db : Nat) (hl : c.HasLayout sb wb db)
    (t dc wk sq : Int) (ht : 0 ≤ t ∧ t < 2 ^ 41) (hdc : 0 ≤ dc ∧ dc ≤ c.maxDatacenterId)
    (hwk : 0 ≤ wk ∧ wk ≤ c.maxWorkerId) (hsq : 0 ≤ sq ∧ sq ≤ c.sequenceMask) :
    or64 (or64 (shl64 t c.timestampLeftShift)
        (or64 (shl64 dc c.datacenterIdShift) (shl64 wk c.workerIdShift))) sq
        = t * 2 ^ 22 + (dc * 2 ^ (sb + wb) + (wk * 2 ^ sb + sq)) ∧
      0 ≤ t * 2 ^ 22 + (dc * 2 ^ (sb + wb) + (wk * 2 ^ sb + sq)) ∧
      dc * 2 ^ (sb + wb) + (wk * 2 ^ sb + sq) < 2 ^ 22 ∧
      shr64 (t * 2 ^ 22 + (dc * 2 ^ (sb + wb) + (wk * 2 ^ sb + sq))) c.timestampLeftShift = t ∧
      and64 (shr64 (t * 2 ^ 22 + (dc * 2 ^ (sb + wb) + (wk * 2 ^ sb + sq)))
        c.datacenterIdShift) c.maxDatacenterId = dc ∧
      and64 (shr64 (t * 2 ^ 22 + (dc * 2 ^ (sb + wb) + (wk * 2 ^ sb + sq)))
        c.workerIdShift) c.maxWorkerId = wk ∧
      and64 (t * 2 ^ 22 + (dc * 2 ^ (sb + wb) + (wk * 2 ^ sb + sq))) c.sequenceMask = sq := by
  obtain ⟨hsb, hwb, hdb, hsum, -, -, -, hmw, hmd, hsm, hws, hds, hts⟩ := hl
  rw [hmw] at hwk; rw [hmd] at hdc; rw [hsm] at hsq
  rw [hmw, hmd, hsm, hws, hds, hts]
  obtain ⟨ht0, ht1⟩ := ht
  obtain ⟨hdc0, hdc1⟩ := hdc
  obtain ⟨hwk0, hwk1⟩ := hwk
  obtain ⟨hsq0, hsq1⟩ := hsq
  lift t to Nat using ht0
  lift dc to Nat using hdc0
  lift wk to Nat using hwk0
  lift sq to Nat using hsq0
  have ht' : t < 2 ^ 41 := by exact_mod_cast ht1
  have hdc' : dc < 2 ^ db := by
    have : (dc : Int) < 2 ^ db := by omega
    exact_mod_cast this
  have hwk' : wk < 2 ^ wb := by
    have : (wk : Int) < 2 ^ wb := by omega
    exact_mod_cast this
  have hsq' : sq < 2 ^ sb := by
    have : (sq : Int) < 2 ^ sb := by omega
    exact_mod_cast this
  obtain ⟨f1, f2, f3, f4⟩ := fields_of_sum sb wb db t dc wk sq hsum hdc' hwk' hsq'
  obtain ⟨-, hlow2⟩ := low_fields_lt sb wb db dc wk sq hsum hdc' hwk' hsq'
  have hcast : ((t : Int) * 2 ^ 22 + ((dc : Int) * 2 ^ (sb + wb) + ((wk : Int) * 2 ^ sb + sq)))
      = ((t * 2 ^ 22 + (dc * 2 ^ (sb + wb) + (wk * 2 ^ sb + sq)) : Nat) : Int) := by
    push_cast; ring
  refine ⟨?_, ?_, ?_, ?_, ?_, ?_, ?_⟩
  · rw [hcast]; exact compose_eq sb wb db t dc wk sq hsum ht' hdc' hwk' hsq'
  · rw [hcast]; exact Int.natCast_nonneg _
  · have : ((dc : Int) * 2 ^ (sb + wb) + ((wk : Int) * 2 ^ sb + sq))
        = ((dc * 2 ^ (sb + wb) + (wk * 2 ^ sb + sq) : Nat) : Int) := by push_cast; ring
    rw [this]; exact_mod_cast hlow2
  · rw [hcast]; unfold shr64
    rw [natCast_div_two_pow, f1]
  · rw [hcast]; unfold shr64
    rw [and64_mask _ db (by omega), natCast_div_two_pow, natCast_mod_two_pow, f2]
  · rw [hcast]; unfold shr64
    rw [and64_mask _ wb (by omega), natCast_div_two_pow, natCast_mod_two_pow, f3]
  · rw [hcast, and64_mask _ sb (by omega), natCast_mod_two_pow, f4]

/-- What a successful `NewSnowflake` tells: the ids are within the maxima and the
generator is the fresh one. -/
theorem newSnowflake_ok (c : SnowConfig) (wk dc : Int) (s0 : Snowflake)
    (h : c.NewSnowflake wk dc = Except.ok s0) :
    (0 ≤ wk ∧ wk ≤ c.maxWorkerId) ∧ (0 ≤ dc ∧ dc ≤ c.maxDatacenterId) ∧
      s0 = { c := c, lastTimestamp := -1, workerId := wk, datacenterId := dc, sequence := 0,
             datacenterIdWorkId :=
               or64 (shl64 dc c.datacenterIdShift) (shl64 wk c.workerIdShift) } := by
  have hcases := newSnowflake_cases c wk dc
  by_cases hwk : 0 ≤ wk ∧ wk ≤ c.maxWorkerId
  · by_cases hdc : 0 ≤ dc ∧ dc ≤ c.maxDatacenterId
    · rw [hcases.1 ⟨hwk.1, hwk.2, hdc.1, hdc.2⟩] at h
      cases h
      exact ⟨hwk, hdc, rfl⟩
    · rw [hcases.2.2 hwk hdc] at h; cases h
  · rw [hcases.2.1 hwk] at h; cases h

/-- The sequence after a masking step lies within the mask. -/
theorem masked_range (c : SnowConfig) (sb wb db : Nat) (hl : c.HasLayout sb wb db)
    (x : Int) : 0 ≤ and64 x c.sequenceMask ∧ and64 x c.sequenceMask ≤ c.sequenceMask ∧
      and64 x c.sequenceMask = x % 2 ^ sb := by
  obtain ⟨hsb, hwb, hdb, hsum, -, -, -, -, -, hsm, -, -, -⟩ := hl
  rw [hsm, and64_mask _ sb (by omega)]
  have hpos : (0 : Int) < 2 ^ sb := by positivity
  have h1 := Int.emod_nonneg x (ne_of_gt hpos)
  have h2 := Int.emod_lt_of_pos x hpos
  exact ⟨h1, by omega, rfl⟩

/-- C14: layout of an id.  For every accepted config, every generator `NewSnowflake`
returned for `workerId`, `datacenterId` (in any state of its timestamp and sequence) and
every clock whose readings, taken from the epoch, lie in `[0, 2^41)`, the id of a
`NextId()` that returns without error is non-negative, its timestamp field
`id >> timestampLeftShift` is the timestamp of the call, a clock reading,
`(id >> datacenterIdShift) & maxDatacenterId` is `datacenterId`,
`(id >> workerIdShift) & maxWorkerId` is `workerId`, and `id & sequenceMask` is the
sequence of the generator, which lies in `[0, 2^sequenceBits - 1]`. -/
theorem C14_id_layout (c : SnowConfig) (hc : c.Accepted) (wk dc : Int) (s0 : Snowflake)
    (hs0 : c.NewSnowflake wk dc = Except.ok s0) (last sq : Int) (clock : Nat → Int)
    (hclock : ∀ k, 0 ≤ clock k - c.epoch ∧ clock k - c.epoch < 2 ^ 41) (pos fuel : Nat)
    (r : NextIdResult)
    (hret : ({ s0 with lastTimestamp := last, sequence := sq } : Snowflake).NextId clock pos
      fuel = some r)
    (herr : r.err = none) :
    0 ≤ r.id ∧ shr64 r.id c.timestampLeftShift = r.s.lastTimestamp ∧
      (∃ k, r.s.lastTimestamp = clock k - c.epoch) ∧
      and64 (shr64 r.id c.datacenterIdShift) c.maxDatacenterId = dc ∧
      and64 (shr64 r.id c.workerIdShift) c.maxWorkerId = wk ∧
      and64 r.id c.sequenceMask = r.s.sequence ∧
      0 ≤ r.s.sequence ∧ r.s.sequence ≤ 2 ^ c.sequenceBits - 1 := by
  obtain ⟨sb, wb, db, hl⟩ := accepted_layout c hc wk dc s0 hs0
  obtain ⟨hwk, hdc, hs0eq⟩ := newSnowflake_ok c wk dc s0 hs0
  subst hs0eq
  obtain ⟨⟨k, -, -, hk⟩, -, -, -, -, hid, hseq⟩ := nextId_ok _ clock pos fuel r hret herr
  simp only at hk hid hseq
  rw [wrap64_of_range _ (hclock k)] at hk
  have ht : 0 ≤ r.s.lastTimestamp ∧ r.s.lastTimestamp < 2 ^ 41 := by
    rw [hk]; exact hclock k
  have hsq : 0 ≤ r.s.sequence ∧ r.s.sequence ≤ c.sequenceMask := by
    rcases hseq with ⟨-, h0⟩ | ⟨-, h1, -⟩
    · rw [h0]
      have := masked_range c sb wb db hl 0
      exact ⟨le_refl _, le_trans this.1 this.2.1⟩
    · rw [h1]
      have := masked_range c sb wb db hl (sq + 1)
      exact ⟨this.1, this.2.1⟩
  obtain ⟨e1, e2, -, e4, e5, e6, e7⟩ :=
    id_fields c sb wb db hl r.s.lastTimestamp dc wk r.s.sequence ht hdc hwk hsq
  rw [hid, e1]
  refine ⟨e2, e4, ⟨k, hk⟩, e5, e6, e7, hsq.1, ?_⟩
  have hsm : c.sequenceMask = 2 ^ c.sequenceBits - 1 := by
    obtain ⟨-, -, -, -, h5, -, -, -, -, h10, -, -, -⟩ := hl
    rw [h10, h5]
  rw [← hsm]; exact hsq.2

/-- The readings of `slowClock` lie in `[0, 2^41)`. -/
theorem slowClock_range (e : Int) (he : e = 0) (k : Nat) :
    0 ≤ slowClock k - e ∧ slowClock k - e < 2 ^ 41 := by
  subst he
  unfold slowClock
  have h1 : (0 : Int) ≤ ((k / 3 : Nat) : Int) := Int.natCast_nonneg _
  have h2 : min (((k / 3 : Nat) : Int)) 1000 ≤ 1000 := min_le_right _ _
  have h3 : (0 : Int) ≤ min (((k / 3 : Nat) : Int)) 1000 := le_min h1 (by norm_num)
  constructor
  · simpa using h3
  · have : (1000 : Int) < 2 ^ 41 := by norm_num
    simp only [sub_zero]
    exact lt_of_le_of_lt h2 this

/-- Witness of C14: the id `defaultGen` returns at the clock reading 1. -/
theorem C14_id_layout_witness :
    0 ≤ demoResult.id ∧
      shr64 demoResult.id defaultSnowConfig.timestampLeftShift = demoResult.s.lastTimestamp ∧
      (∃ k, demoResult.s.lastTimestamp = slowClock k - defaultSnowConfig.epoch) ∧
      and64 (shr64 demoResult.id defaultSnowConfig.datacenterIdShift)
        defaultSnowConfig.maxDatacenterId = 2 ∧
      and64 (shr64 demoResult.id defaultSnowConfig.workerIdShift)
        defaultSnowConfig.maxWorkerId = 3 ∧
      and64 demoResult.id defaultSnowConfig.sequenceMask = demoResult.s.sequence ∧
      0 ≤ demoResult.s.sequence ∧
      demoResult.s.sequence ≤ 2 ^ defaultSnowConfig.sequenceBits - 1 :=
  C14_id_layout defaultSnowConfig (Or.inl rfl) 3 2 defaultGen rfl (-1) 0 slowClock
    (slowClock_range _ rfl) 5 0 demoResult (by decide) rfl

/-- C15 as stated fails: the difference `time.Now().UnixMilli() - s.c.epoch` is an
`int64` and wraps.  With the epoch `math.MinInt64 + 1` the generator fresh from
`NewSnowflake` (`lastTimestamp = -1`) reads a clock that is after the epoch, the
difference in the integers is not below `lastTimestamp`, and the first `NextId()`
returns `(0, ErrClockMovedBackwards)`. -/
theorem C15_fresh_generator_reports_regression :
    NewSnowConfig (-9223372036854775807) 5 5 12 = some extremeConfig ∧
      extremeConfig.epoch = -9223372036854775807 ∧
      extremeConfig.NewSnowflake 0 0 = Except.ok extremeGen ∧
      extremeGen.lastTimestamp = -1 ∧
      IsInt64 (nowClock 0) ∧ IsInt64 extremeConfig.epoch ∧
      extremeConfig.epoch ≤ nowClock 0 ∧
      ¬ (nowClock 0 - extremeGen.c.epoch < extremeGen.lastTimestamp) ∧
      extremeGen.NextId nowClock 0 0
        = some ⟨0, some ErrClockMovedBackwards, extremeGen, 1⟩ := by
  refine ⟨by decide, by decide, rfl, by decide, by decide, by decide, by decide,
    by decide, by decide⟩

/-- C15 (amended): clock-regression detection.  `NextId()` returns
`(0, ErrClockMovedBackwards)` exactly when the clock reading minus the epoch, the
difference taken in `int64` with wrap-around, is strictly below `lastTimestamp`; the
generator (`lastTimestamp` and `sequence` included) is then unchanged; no other error is
ever returned; the wrapped difference is the difference in the integers whenever that
fits an `int64`; and the first call on a generator fresh from `NewSnowflake` returns
without error when the clock is at or after the epoch and the difference fits an
`int64`. -/
theorem C15_clock_regression (s : Snowflake) (clock : Nat → Int) (pos fuel : Nat) :
    (wrap64 (clock pos - s.c.epoch) < s.lastTimestamp →
        s.NextId clock pos fuel = some ⟨0, some ErrClockMovedBackwards, s, pos + 1⟩) ∧
      (∀ r, s.NextId clock pos fuel = some r →
        ((r.id = 0 ∧ r.err = some ErrClockMovedBackwards) ↔
          wrap64 (clock pos - s.c.epoch) < s.lastTimestamp) ∧
        (r.err ≠ none → r.id = 0 ∧ r.err = some ErrClockMovedBackwards ∧ r.s = s)) ∧
      (IsInt64 (clock pos - s.c.epoch) →
        wrap64 (clock pos - s.c.epoch) = clock pos - s.c.epoch) ∧
      (∀ (c : SnowConfig) (wk dc : Int) (s0 : Snowflake),
        c.NewSnowflake wk dc = Except.ok s0 → c.epoch ≤ clock pos →
          IsInt64 (clock pos - c.epoch) →
          ∃ r, s0.NextId clock pos fuel = some r ∧ r.err = none) := by
  refine ⟨?_, ?_, wrap64_of_isInt64 _, ?_⟩
  · intro h
    simp [Snowflake.NextId, h]
  · intro r hr
    constructor
    · constructor
      · rintro ⟨-, he⟩
        exact (nextId_err s clock pos fuel r hr (by rw [he]; simp)).1
      · intro hlt
        have : s.NextId clock pos fuel = some ⟨0, some ErrClockMovedBackwards, s, pos + 1⟩ := by
          simp [Snowflake.NextId, hlt]
        rw [this] at hr
        cases hr
        exact ⟨rfl, rfl⟩
    · intro hne
      have h := (nextId_err s clock pos fuel r hr hne).2
      rw [h]
      exact ⟨rfl, rfl, rfl⟩
  · intro c wk dc s0 hs0 hclk hfit
    obtain ⟨-, -, hs0eq⟩ := newSnowflake_ok c wk dc s0 hs0
    have hl : s0.lastTimestamp = -1 := by rw [hs0eq]
    have he : s0.c.epoch = c.epoch := by rw [hs0eq]
    have hw : wrap64 (clock pos - s0.c.epoch) = clock pos - c.epoch := by
      rw [he]; exact wrap64_of_isInt64 _ hfit
    have h1 : ¬ wrap64 (clock pos - s0.c.epoch) < s0.lastTimestamp := by rw [hw, hl]; omega
    have h2 : ¬ wrap64 (clock pos - s0.c.epoch) = s0.lastTimestamp := by rw [hw, hl]; omega
    have hcall : s0.NextId clock pos fuel
        = some (({ s0 with sequence := 0 } : Snowflake).emit
          (wrap64 (clock pos - s0.c.epoch)) (pos + 1)) := by
      simp only [Snowflake.NextId, h1, h2, if_false]
    exact ⟨_, hcall, rfl⟩

/-- Witness of the first-call part of C15: `defaultGen`, fresh from `NewSnowflake`, at
the clock reading 1. -/
theorem C15_clock_regression_witness :
    ∃ r, defaultGen.NextId slowClock 5 0 = some r ∧ r.err = none :=
  (C15_clock_regression defaultGen slowClock 5 0).2.2.2 defaultSnowConfig 3 2 defaultGen rfl
    (by decide) (by decide)

end snowflake

/-! ## Snowflake: runs of `NextId` -/

namespace snowflake

/-- More fuel does not change the outcome of a wait loop that ended. -/
theorem waitLoop_fuel_mono (e last : Int) (clock : Nat → Int) (fuel : Nat) :
    ∀ (now : Int) (pos : Nat) (res : Int × Nat) (m : Nat),
      waitLoop e last clock fuel now pos = some res →
        waitLoop e last clock (fuel + m) now pos = some res := by
  induction fuel with
  | zero =>
    intro now pos res m h
    unfold waitLoop at h
    split at h
    · cases h
    · rename_i hn
      cases m with
      | zero => simp only [Nat.add_zero]; unfold waitLoop; rw [if_neg hn]; exact h
      | succ m =>
        rw [Nat.zero_add]; unfold waitLoop; rw [if_neg hn]; exact h
  | succ fuel ih =>
    intro now pos res m h
    rw [Nat.add_right_comm]
    unfold waitLoop at h ⊢
    split at h
    · rename_i hle
      rw [if_pos hle]
      exact ih _ _ _ m h
    · rename_i hn
      rw [if_neg hn]; exact h

/-- More fuel does not change the outcome of a `NextId()` that returned. -/
theorem nextId_fuel_mono (s : Snowflake) (clock : Nat → Int) (pos fuel m : Nat)
    (r : NextIdResult) (h : s.NextId clock pos fuel = some r) :
    s.NextId clock pos (fuel + m) = some r := by
  unfold Snowflake.NextId at h ⊢
  simp only at h ⊢
  split at h
  · rename_i h1; rw [if_pos h1]; exact h
  · rename_i h1
    rw [if_neg h1]
    split at h
    · rename_i h2
      rw [if_pos h2]
      split at h
      · rename_i h3
        rw [if_pos h3]
        split at h
        · cases h
        · rename_i now2 pos2 hw
          rw [waitLoop_fuel_mono _ _ _ _ _ _ _ m hw]
          exact h
      · rename_i h3; rw [if_neg h3]; exact h
    · rename_i h2; rw [if_neg h2]; exact h

/-- More fuel does not change the outcome of a run that returned. -/
theorem nextIds_fuel_mono (clock : Nat → Int) (fuel m : Nat) (s : Snowflake) (pos n : Nat) :
    ∀ res, nextIds clock fuel s pos n = some res →
      nextIds clock (fuel + m) s pos n = some res := by
  induction n with
  | zero => intro res h; exact h
  | succ n ih =>
    intro res h
    unfold nextIds at h ⊢
    split at h
    · cases h
    · rename_i rs s1 pos1 hrun
      rw [ih _ hrun]
      simp only
      split at h
      · cases h
      · rename_i r hr
        rw [nextId_fuel_mono _ _ _ _ m r hr]
        exact h

/-- On a clock that never passes `lastTimestamp` the wait loop never ends. -/
theorem waitLoop_stalled (e last : Int) (clock : Nat → Int)
    (hst : ∀ k, wrap64 (clock k - e) ≤ last) (fuel : Nat) :
    ∀ (now : Int) (pos : Nat), now ≤ last → waitLoop e last clock fuel now pos = none := by
  induction fuel with
  | zero => intro now pos h; unfold waitLoop; rw [if_pos h]
  | succ fuel ih =>
    intro now pos h
    unfold waitLoop
    rw [if_pos h]
    exact ih _ _ (hst pos)

/-- The third call of `tinyGen` on the stalled clock never returns. -/
theorem stalled_third_call (fuel : Nat) : tinyAfterTwo.NextId stalledClock 2 fuel = none := by
  have hw := waitLoop_stalled tinyAfterTwo.c.epoch tinyAfterTwo.lastTimestamp stalledClock
    (by
      intro k
      show wrap64 ((5 : Int) - tinyAfterTwo.c.epoch) ≤ tinyAfterTwo.lastTimestamp
      decide)
    fuel (wrap64 (stalledClock 2 - tinyAfterTwo.c.epoch)) 3 (by decide)
  unfold Snowflake.NextId
  simp only
  rw [if_neg (by decide), if_pos (by decide), if_pos (by decide), hw]

/-- C13 as stated fails: a clock that never decreases may stand still.  The generator
`tinyGen` (one sequence bit, returned by `NewSnowflake` for an accepted config) on a
clock that stays at millisecond 5 returns two ids, and its third `NextId()` waits for
the next millisecond for ever: it returns with no amount of fuel. -/
theorem C13_stalled_clock_never_returns :
    NewSnowConfig 0 10 11 1 = some tinyConfig ∧
      tinyConfig.NewSnowflake 3 2 = Except.ok tinyGen ∧
      (∀ k, 0 ≤ stalledClock k - tinyConfig.epoch ∧ stalledClock k - tinyConfig.epoch < 2 ^ 41) ∧
      (∀ j k, j ≤ k → stalledClock j ≤ stalledClock k) ∧
      (∃ rs, nextIds stalledClock 0 tinyGen 0 2 = some (rs, tinyAfterTwo, 2)) ∧
      ¬ ∃ fuel res, nextIds stalledClock fuel tinyGen 0 3 = some res := by
  have h2 : nextIds stalledClock 0 tinyGen 0 2
      = some ([⟨20979718, none, { tinyGen with lastTimestamp := 5 }, 1⟩,
          ⟨20979719, none, tinyAfterTwo, 2⟩], tinyAfterTwo, 2) := by decide
  have hr : (0 : Int) ≤ 5 - tinyConfig.epoch ∧ (5 : Int) - tinyConfig.epoch < 2 ^ 41 := by
    decide
  refine ⟨by decide, rfl, fun _ => hr, fun j k _ => le_refl _, ⟨_, h2⟩, ?_⟩
  rintro ⟨fuel, res, hres⟩
  have h2f := nextIds_fuel_mono stalledClock 0 fuel tinyGen 0 2 _ h2
  rw [Nat.zero_add] at h2f
  unfold nextIds at hres
  rw [h2f] at hres
  simp only [stalled_third_call] at hres
  cases hres

/-- One call that returns an id, from a generator of the config `c` whose sequence lies
within the mask: the generator afterwards is of the same kind, its timestamp is a
reading made during the call, the id is the one its fields compose, and it is above the
id the fields composed before. -/
theorem nextId_step (c : SnowConfig) (sb wb db : Nat) (hl : c.HasLayout sb wb db)
    (wk dc : Int) (hwk : 0 ≤ wk ∧ wk ≤ c.maxWorkerId) (hdc : 0 ≤ dc ∧ dc ≤ c.maxDatacenterId)
    (s : Snowflake) (hc : s.c = c)
    (hdcw : s.datacenterIdWorkId
      = or64 (shl64 dc c.datacenterIdShift) (shl64 wk c.workerIdShift))
    (hsq : 0 ≤ s.sequence ∧ s.sequence ≤ c.sequenceMask) (clock : Nat → Int)
    (hrange : ∀ k, 0 ≤ clock k - c.epoch ∧ clock k - c.epoch < 2 ^ 41) (pos fuel : Nat)
    (r : NextIdResult) (hret : s.NextId clock pos fuel = some r) (herr : r.err = none) :
    r.s.c = c ∧
      r.s.datacenterIdWorkId
        = or64 (shl64 dc c.datacenterIdShift) (shl64 wk c.workerIdShift) ∧
      (0 ≤ r.s.sequence ∧ r.s.sequence ≤ c.sequenceMask) ∧
      (∃ k, pos ≤ k ∧ k < r.reads ∧ r.s.lastTimestamp = clock k - c.epoch) ∧
      r.id = r.s.lastId ∧
      (0 ≤ s.lastTimestamp → s.lastTimestamp < 2 ^ 41 → s.lastId < r.id) := by
  obtain ⟨⟨k, hk1, hk2, hk⟩, hrc, -, -, hrd, hid, hseq⟩ := nextId_ok s clock pos fuel r hret herr
  rw [hc] at hk hid hseq
  rw [wrap64_of_range _ (hrange k)] at hk
  have ht : 0 ≤ r.s.lastTimestamp ∧ r.s.lastTimestamp < 2 ^ 41 := by rw [hk]; exact hrange k
  have hmr := masked_range c sb wb db hl (s.sequence + 1)
  have hsq2 : 0 ≤ r.s.sequence ∧ r.s.sequence ≤ c.sequenceMask := by
    rcases hseq with ⟨-, h0⟩ | ⟨-, h1, -⟩
    · rw [h0]; exact ⟨le_refl _, le_trans hsq.1 hsq.2⟩
    · rw [h1]; exact ⟨hmr.1, hmr.2.1⟩
  have hidr : r.id = r.s.lastId := by
    rw [hid]; unfold Snowflake.lastId; rw [hrc, hrd, hc]
  refine ⟨by rw [hrc, hc], by rw [hrd, hdcw], hsq2, ⟨k, hk1, hk2, hk⟩, hidr, ?_⟩
  intro hl0 hl1
  obtain ⟨e1, -, e3, -⟩ :=
    id_fields c sb wb db hl s.lastTimestamp dc wk s.sequence ⟨hl0, hl1⟩ hdc hwk hsq
  obtain ⟨f1, -, f3, -⟩ :=
    id_fields c sb wb db hl r.s.lastTimestamp dc wk r.s.sequence ht hdc hwk hsq2
  have hprev : s.lastId = s.lastTimestamp * 2 ^ 22
      + (dc * 2 ^ (sb + wb) + (wk * 2 ^ sb + s.sequence)) := by
    unfold Snowflake.lastId; rw [hc, hdcw]; exact e1
  have hnew : r.id = r.s.lastTimestamp * 2 ^ 22
      + (dc * 2 ^ (sb + wb) + (wk * 2 ^ sb + r.s.sequence)) := by
    rw [hid, hdcw]; exact f1
  rw [hprev, hnew]
  have hX : 0 ≤ dc * 2 ^ (sb + wb) := mul_nonneg hdc.1 (by positivity)
  have hY : 0 ≤ wk * 2 ^ sb := mul_nonneg hwk.1 (by positivity)
  generalize dc * 2 ^ (sb + wb) = X at *
  generalize wk * 2 ^ sb = Y at *
  rcases hseq with ⟨hlt, h0⟩ | ⟨heq, h1, hne⟩
  · rw [h0]
    have h22 : (2 : Int) ^ 22 = 4194304 := by norm_num
    rw [h22] at e3 ⊢
    omega
  · rw [heq]
    have hsm : c.sequenceMask = 2 ^ sb - 1 := by
      obtain ⟨-, -, -, -, -, -, -, -, -, h10, -, -, -⟩ := hl
      exact h10
    have hq : r.s.sequence = s.sequence + 1 := by
      rw [h1, hmr.2.2]
      have hle : s.sequence + 1 ≤ 2 ^ sb := by rw [hsm] at hsq; omega
      rcases lt_or_eq_of_le hle with hlt | heq2
      · exact Int.emod_eq_of_lt (by omega) hlt
      · exfalso
        apply hne
        rw [h1, hmr.2.2, heq2]
        exact Int.emod_self
    rw [hq]
    omega

/-- State of a run: the results so far, the generator and the clock index satisfy the
run invariant of the generator `c.NewSnowflake wk dc`. -/
theorem next_call_ok (c : SnowConfig) (sb wb db : Nat) (hl : c.HasLayout sb wb db)
    (wk dc : Int) (hwk : 0 ≤ wk ∧ wk ≤ c.maxWorkerId) (hdc : 0 ≤ dc ∧ dc ≤ c.maxDatacenterId)
    (clock : Nat → Int)
    (hrange : ∀ k, 0 ≤ clock k - c.epoch ∧ clock k - c.epoch < 2 ^ 41)
    (hmono : ∀ j k, j ≤ k → clock j ≤ clock k)
    (rs : List NextIdResult) (s : Snowflake) (pos : Nat) (hc : s.c = c)
    (hdcw : s.datacenterIdWorkId
      = or64 (shl64 dc c.datacenterIdShift) (shl64 wk c.workerIdShift))
    (hsq : 0 ≤ s.sequence ∧ s.sequence ≤ c.sequenceMask)
    (hlast : (s.lastTimestamp = -1 ∧ rs = []) ∨
      ((∃ j, j < pos ∧ s.lastTimestamp = clock j - c.epoch) ∧ ∀ x ∈ rs, x.id ≤ s.lastId))
    (fuel : Nat) (r : NextIdResult) (hret : s.NextId clock pos fuel = some r) :
    r.err = none ∧ (∀ x ∈ rs, x.id < r.id) ∧ r.s.c = c ∧
      r.s.datacenterIdWorkId
        = or64 (shl64 dc c.datacenterIdShift) (shl64 wk c.workerIdShift) ∧
      (0 ≤ r.s.sequence ∧ r.s.sequence ≤ c.sequenceMask) ∧
      (∃ j, j < r.reads ∧ r.s.lastTimestamp = clock j - c.epoch) ∧ r.id = r.s.lastId := by
  have herr : r.err = none := by
    by_contra hne
    have hlt := (nextId_err s clock pos fuel r hret hne).1
    rw [hc, wrap64_of_range _ (hrange pos)] at hlt
    rcases hlast with ⟨h1, -⟩ | ⟨⟨j, hj, hjl⟩, -⟩
    · have := (hrange pos).1; omega
    · have := hmono j pos (le_of_lt hj); omega
  obtain ⟨h1, h2, h3, ⟨k, -, hk2, hk⟩, h5, h6⟩ :=
    nextId_step c sb wb db hl wk dc hwk hdc s hc hdcw hsq clock hrange pos fuel r hret herr
  refine ⟨herr, ?_, h1, h2, h3, ⟨k, hk2, hk⟩, h5⟩
  rcases hlast with ⟨-, hnil⟩ | ⟨⟨j, -, hjl⟩, hall⟩
  · rw [hnil]; intro x hx; cases hx
  · intro x hx
    have hr := hrange j
    rw [← hjl] at hr
    exact lt_of_le_of_lt (hall x hx) (h6 hr.1 hr.2)

/-- The invariant of a run of `n` calls on a clock that never decreases. -/
theorem run_inv (c : SnowConfig) (sb wb db : Nat) (hl : c.HasLayout sb wb db)
    (wk dc : Int) (s0 : Snowflake) (hs0 : c.NewSnowflake wk dc = Except.ok s0)
    (clock : Nat → Int)
    (hrange : ∀ k, 0 ≤ clock k - c.epoch ∧ clock k - c.epoch < 2 ^ 41)
    (hmono : ∀ j k, j ≤ k → clock j ≤ clock k) (fuel : Nat) :
    ∀ (n : Nat) (rs : List NextIdResult) (s : Snowflake) (pos : Nat),
      nextIds clock fuel s0 0 n = some (rs, s, pos) →
        rs.length = n ∧ (∀ r ∈ rs, r.err = none) ∧
          (rs.map (fun r => r.id)).Pairwise (fun a b => a < b) ∧ s.c = c ∧
          s.datacenterIdWorkId
            = or64 (shl64 dc c.datacenterIdShift) (shl64 wk c.workerIdShift) ∧
          (0 ≤ s.sequence ∧ s.sequence ≤ c.sequenceMask) ∧
          ((s.lastTimestamp = -1 ∧ rs = []) ∨
            ((∃ j, j < pos ∧ s.lastTimestamp = clock j - c.epoch) ∧
              ∀ x ∈ rs, x.id ≤ s.lastId)) := by
  obtain ⟨hwk, hdc, hs0eq⟩ := newSnowflake_ok c wk dc s0 hs0
  have hmask : (0 : Int) ≤ c.sequenceMask := by
    have := masked_range c sb wb db hl 0
    exact le_trans this.1 this.2.1
  intro n
  induction n with
  | zero =>
    intro rs s pos h
    unfold nextIds at h
    cases h
    rw [hs0eq]
    exact ⟨rfl, (by intro r hr; cases hr), List.Pairwise.nil, rfl, rfl, ⟨le_refl _, hmask⟩,
      Or.inl ⟨rfl, rfl⟩⟩
  | succ n ih =>
    intro rs s pos h
    unfold nextIds at h
    split at h
    · cases h
    · rename_i rs1 s1 pos1 hrun
      split at h
      · cases h
      · rename_i r hr
        cases h
        obtain ⟨i1, i2, i3, i4, i5, i6, i7⟩ := ih rs1 s1 pos1 hrun
        obtain ⟨j1, j2, j3, j4, j5, j6, j7⟩ := next_call_ok c sb wb db hl wk dc hwk hdc clock
          hrange hmono rs1 s1 pos1 i4 i5 i6 i7 fuel r hr
        refine ⟨(by rw [List.length_append, i1]; rfl), ?_, ?_, j3, j4, j5, Or.inr ⟨j6, ?_⟩⟩
        · intro x hx
          rcases List.mem_append.mp hx with hx | hx
          · exact i2 x hx
          · rw [List.mem_singleton.mp hx]; exact j1
        · rw [List.map_append, List.pairwise_append]
          refine ⟨i3, List.pairwise_singleton _ _, ?_⟩
          intro a ha b hb
          obtain ⟨x, hx, rfl⟩ := List.mem_map.mp ha
          rw [List.map_singleton, List.mem_singleton] at hb
          rw [hb]
          exact j2 x hx
        · intro x hx
          rcases List.mem_append.mp hx with hx | hx
          · rw [← j7]; exact le_of_lt (j2 x hx)
          · rw [List.mem_singleton.mp hx, j7]

/-- A call returns within `fuel` rounds when one of the readings up to `pos + fuel` is
past `lastTimestamp`. -/
theorem nextId_returns (s : Snowflake) (clock : Nat → Int) (pos fuel k : Nat)
    (hk1 : pos ≤ k) (hk2 : k ≤ pos + fuel)
    (hgt : s.lastTimestamp < wrap64 (clock k - s.c.epoch)) :
    ∃ r, s.NextId clock pos fuel = some r := by
  unfold Snowflake.NextId
  simp only
  split
  · exact ⟨_, rfl⟩
  · split
    · rename_i heq
      split
      · have hne : k ≠ pos := by
          intro hh; rw [hh, heq] at hgt; exact lt_irrefl _ hgt
        obtain ⟨res, hres⟩ := waitLoop_returns s.c.epoch s.lastTimestamp clock fuel
          (wrap64 (clock pos - s.c.epoch)) (pos + 1) k (by omega) (by omega) hgt
        rw [hres]
        exact ⟨_, rfl⟩
      · exact ⟨_, rfl⟩
    · exact ⟨_, rfl⟩

/-- A call that still has room in the sequence returns without waiting. -/
theorem nextId_returns_room (s : Snowflake) (clock : Nat → Int) (pos : Nat)
    (hroom : and64 (s.sequence + 1) s.c.sequenceMask ≠ 0) :
    ∃ r, s.NextId clock pos 0 = some r := by
  unfold Snowflake.NextId
  simp only [and64_wrap64]
  split
  · exact ⟨_, rfl⟩
  · split
    · exact ⟨_, rfl⟩
    · exact ⟨_, rfl⟩

/-- C13, amended: ids of one generator increase strictly.  For every generator
`NewSnowflake` returned for an accepted config and every clock whose readings, taken
from the epoch, lie in `[0, 2^41)` and never decrease: the results of any run of `n`
calls of `NextId()` that returned are all without error and their ids increase strictly
(so they are distinct); the next call never returns an error and, when it returns, its
id is above all earlier ones; it returns at once when the sequence has room, and it
returns within `fuel` rounds of waiting when one of the readings up to `pos + fuel` is
past `lastTimestamp`, which is what the wait for the next millisecond after a wrap of
the sequence needs. -/
theorem C13_ids_strictly_increase (c : SnowConfig) (hc : c.Accepted) (wk dc : Int)
    (s0 : Snowflake) (hs0 : c.NewSnowflake wk dc = Except.ok s0) (clock : Nat → Int)
    (hrange : ∀ k, 0 ≤ clock k - c.epoch ∧ clock k - c.epoch < 2 ^ 41)
    (hmono : ∀ j k, j ≤ k → clock j ≤ clock k) (n fuel : Nat)
    (rs : List NextIdResult) (s : Snowflake) (pos : Nat)
    (hrun : nextIds clock fuel s0 0 n = some (rs, s, pos)) :
    rs.length = n ∧ (∀ r ∈ rs, r.err = none) ∧
      (rs.map (fun r => r.id)).Pairwise (fun a b => a < b) ∧
      (rs.map (fun r => r.id)).Nodup ∧
      (∀ fuel2 r, s.NextId clock pos fuel2 = some r →
        r.err = none ∧ ∀ x ∈ rs, x.id < r.id) ∧
      (and64 (s.sequence + 1) c.sequenceMask ≠ 0 → ∃ r, s.NextId clock pos 0 = some r) ∧
      (∀ fuel2 k, pos ≤ k → k ≤ pos + fuel2 → s.lastTimestamp < clock k - c.epoch →
        ∃ r, s.NextId clock pos fuel2 = some r) := by
  obtain ⟨sb, wb, db, hl⟩ := accepted_layout c hc wk dc s0 hs0
  obtain ⟨hwk, hdc, -⟩ := newSnowflake_ok c wk dc s0 hs0
  obtain ⟨i1, i2, i3, i4, i5, i6, i7⟩ :=
    run_inv c sb wb db hl wk dc s0 hs0 clock hrange hmono fuel n rs s pos hrun
  refine ⟨i1, i2, i3, i3.imp (fun h => ne_of_lt h), ?_, ?_, ?_⟩
  · intro fuel2 r hr
    have h := next_call_ok c sb wb db hl wk dc hwk hdc clock hrange hmono rs s pos i4 i5 i6 i7
      fuel2 r hr
    exact ⟨h.1, h.2.1⟩
  · intro hroom
    exact nextId_returns_room s clock pos (by rw [i4]; exact hroom)
  · intro fuel2 k hk1 hk2 hgt
    exact nextId_returns s clock pos fuel2 k hk1 hk2
      (by rw [i4, wrap64_of_range _ (hrange k)]; exact hgt)

/-- Witness of C13: five ids of `tinyGen` on `slowClock`, two of them after a wait for
the next millisecond, and the sixth call. -/
theorem C13_ids_strictly_increase_witness :
    demoRun.1.map (fun r => r.id) = [8198, 8199, 4202502, 4202503, 8396806] ∧
      demoRun.1.length = 5 ∧ (∀ r ∈ demoRun.1, r.err = none) ∧
      (demoRun.1.map (fun r => r.id)).Pairwise (fun a b => a < b) ∧
      (demoRun.1.map (fun r => r.id)).Nodup ∧
      (∃ r, demoRun.2.1.NextId slowClock demoRun.2.2 0 = some r) := by
  have hsome : (nextIds slowClock 1 tinyGen 0 5).isSome = true := by decide
  have hrun : nextIds slowClock 1 tinyGen 0 5 = some (demoRun.1, demoRun.2.1, demoRun.2.2) := by
    show nextIds slowClock 1 tinyGen 0 5 = some demoRun
    cases h : nextIds slowClock 1 tinyGen 0 5 with
    | none => rw [h] at hsome; cases hsome
    | some v => simp [demoRun, h]
  have h := C13_ids_strictly_increase tinyConfig (Or.inr ⟨0, 10, 11, 1, by decide⟩) 3 2 tinyGen rfl
    slowClock (slowClock_range _ rfl)
    (by
      intro j k hjk
      unfold slowClock
      have : ((j / 3 : Nat) : Int) ≤ ((k / 3 : Nat) : Int) := by
        exact_mod_cast Nat.div_le_div_right hjk
      exact min_le_min this (le_refl _))
    5 1 demoRun.1 demoRun.2.1 demoRun.2.2 hrun
  exact ⟨by decide, h.1, h.2.1, h.2.2.1, h.2.2.2.1, h.2.2.2.2.2.1 (by decide)⟩

end snowflake

/-! ## Bitmap: positions -/

namespace bitmap

/-- Truncated division by a positive number stays within `int`. -/
theorem tdiv_isInt64 (w s : Int) (hw : IsInt64 w) (hs : 0 < s) : IsInt64 (Int.tdiv w s) := by
  unfold IsInt64 at *
  by_cases h0 : 0 ≤ w
  · rw [Int.tdiv_eq_ediv h0 (le_of_lt hs)]
    have h1 : 0 ≤ w / s := Int.ediv_nonneg h0 (le_of_lt hs)
    have h2 : w / s ≤ w := Int.ediv_le_self _ h0
    omega
  · have h1 : Int.tdiv w s = -(Int.tdiv (-w) s) := by rw [Int.neg_tdiv, neg_neg]
    have hn : 0 ≤ -w := by omega
    rw [h1, Int.tdiv_eq_ediv hn (le_of_lt hs)]
    have h2 : 0 ≤ (-w) / s := Int.ediv_nonneg hn (le_of_lt hs)
    have h3 : (-w) / s ≤ -w := Int.ediv_le_self _ hn
    omega

/-- Division of an `int` by a positive `int` does not wrap. -/
theorem div64_pos (w s : Int) (hw : IsInt64 w) (hs : 0 < s) : div64 w s = Int.tdiv w s :=
  wrap64_of_isInt64 _ (tdiv_isInt64 w s hw hs)

/-- With a positive step `encodePos` accepts exactly the positions whose wrapped distance
from the offset is `bit * step` with `0 ≤ bit < size`, and returns `bit`. -/
theorem encodePos_some (b : Bitmap) (hstep : 0 < b.step) (pos bit : Int) :
    b.encodePos pos = some bit ↔
      (0 ≤ bit ∧ bit < b.size ∧ wrap64 (pos - b.offset) = bit * b.step) := by
  have hne : b.step ≠ 0 := ne_of_gt hstep
  have hq := div64_pos _ _ (isInt64_wrap64 (pos - b.offset)) hstep
  unfold Bitmap.encodePos
  simp only [hne, if_false, hq]
  constructor
  · intro h
    split at h
    · cases h
    · rename_i hmod
      simp only [ne_eq, not_not] at hmod
      split at h
      · cases h
      · rename_i hr
        cases h
        have hmul := Int.tdiv_mul_cancel_of_tmod_eq_zero hmod
        omega
  · rintro ⟨h0, h1, hp⟩
    rw [hp]
    have hmod : (bit * b.step).tmod b.step = 0 := Int.mul_tmod_left _ _
    have hdiv : (bit * b.step).tdiv b.step = bit := Int.mul_tdiv_cancel _ hne
    simp only [hmod, ne_eq, not_true_eq_false, if_false, hdiv]
    rw [if_neg (by omega)]

/-- `tryEncodePos` returns the bit of `encodePos`, or `-1` and the error where
`encodePos` panics. -/
theorem tryEncodePos_eq (b : Bitmap) (hstep : 0 < b.step) (pos : Int) :
    b.tryEncodePos pos =
      some (match b.encodePos pos with
        | some bit => (bit, none)
        | none => (-1, some errOutOfBounds)) := by
  have hne : b.step ≠ 0 := ne_of_gt hstep
  unfold Bitmap.tryEncodePos Bitmap.encodePos
  simp only [hne, if_false]
  split
  · rfl
  · split
    · rfl
    · rfl

/-- Positions of type `int` accepted by `encodePos` are read back by `decodePos`. -/
theorem decodePos_encodePos (b : Bitmap) (hstep : 0 < b.step) (pos bit : Int)
    (hpos : IsInt64 pos)
    (h : b.encodePos pos = some bit) : b.decodePos bit = pos := by
  obtain ⟨-, -, hw⟩ := (encodePos_some b hstep pos bit).mp h
  unfold Bitmap.decodePos
  rw [← hw]
  unfold wrap64
  unfold IsInt64 at hpos
  omega

/-- The product of a bit below the size with the step stays within `int`. -/
theorem bit_mul_step (b : Bitmap) (hstep : 0 < b.step)
    (hmul : b.size * b.step < 9223372036854775808) (bit : Int) (h0 : 0 ≤ bit)
    (h1 : bit < b.size) :
    0 ≤ bit * b.step ∧ bit * b.step + b.step ≤ b.size * b.step ∧
      bit * b.step < 9223372036854775808 := by
  have ha : 0 ≤ bit * b.step := mul_nonneg h0 (le_of_lt hstep)
  have hb : (bit + 1) * b.step ≤ b.size * b.step :=
    Int.mul_le_mul_of_nonneg_right (by omega) (le_of_lt hstep)
  have hc : (bit + 1) * b.step = bit * b.step + b.step := by ring
  rw [hc] at hb
  exact ⟨ha, hb, by omega⟩

/-- `encodePos` reads back the positions `decodePos` makes from the bits below size. -/
theorem encodePos_decodePos (b : Bitmap) (hstep : 0 < b.step)
    (hmul : b.size * b.step < 9223372036854775808)
    (bit : Int) (h0 : 0 ≤ bit) (h1 : bit < b.size) :
    b.encodePos (b.decodePos bit) = some bit := by
  refine (encodePos_some b hstep _ bit).mpr ⟨h0, h1, ?_⟩
  obtain ⟨ha, -, hc⟩ := bit_mul_step b hstep hmul bit h0 h1
  unfold Bitmap.decodePos
  generalize bit * b.step = X at *
  unfold wrap64
  omega

/-- Bits below the size whose positions do not wrap are decoded without wrap. -/
theorem decodePos_exact (b : Bitmap) (hstep : 0 < b.step)
    (hmul : b.size * b.step < 9223372036854775808) (hoff : IsInt64 b.offset)
    (hfit : b.offset + (b.size - 1) * b.step < 9223372036854775808)
    (bit : Int) (h0 : 0 ≤ bit) (h1 : bit < b.size) :
    b.decodePos bit = b.offset + bit * b.step := by
  obtain ⟨ha, hb, hc⟩ := bit_mul_step b hstep hmul bit h0 h1
  have hd : (b.size - 1) * b.step = b.size * b.step - b.step := by ring
  rw [hd] at hfit
  unfold Bitmap.decodePos
  generalize bit * b.step = X at *
  generalize b.size * b.step = Y at *
  unfold wrap64
  unfold IsInt64 at hoff
  omega

/-- Byte index and bit index of a bit, in natural numbers. -/
theorem byte_bit_index (bit : Int) (h0 : 0 ≤ bit) :
    (Int.tdiv bit 8).toNat = bit.toNat / 8 ∧ (Int.tmod bit 8).toNat = bit.toNat % 8 ∧
      0 ≤ Int.tdiv bit 8 := by
  rw [Int.tdiv_eq_ediv h0 (by decide), Int.tmod_eq_emod h0 (by decide)]
  omega

end bitmap

/-! ## Bitmap: shape of built bitmaps -/

namespace bitmap

/-- What `makeBytes` returns: zero bytes, as many as asked for. -/
theorem makeBytes_some (n : Int) (d : List Nat) (h : makeBytes n = some d) :
    0 ≤ n ∧ d = List.replicate n.toNat 0 ∧ (d.length : Int) = n := by
  unfold makeBytes at h
  split at h
  · cases h
  · rename_i hn
    cases h
    refine ⟨by omega, rfl, ?_⟩
    rw [List.length_replicate]
    exact Int.toNat_of_nonneg (by omega)

/-- Truncated division of a negative number by a positive one is not positive. -/
theorem tdiv_nonpos_of_neg (a b : Int) (ha : a < 0) (hb : 0 < b) : Int.tdiv a b ≤ 0 := by
  have h1 : Int.tdiv a b = -(Int.tdiv (-a) b) := by
    rw [Int.neg_tdiv, neg_neg]
  have h2 : 0 ≤ Int.tdiv (-a) b := Int.tdiv_nonneg (by omega) (le_of_lt hb)
  omega

/-- Size against byte count for `(x + 7) / 8` bytes, `x` of type `int`: when `make`
returned, the sum did not wrap and the bytes hold `x` bits. -/
theorem bytes_cover (x : Int) (hx : IsInt64 x) (d : List Nat)
    (h : makeBytes (div64 (wrap64 (x + 7)) 8) = some d) :
    x ≤ 8 * (d.length : Int) ∧ (0 ≤ x → x + 7 < 9223372036854775808) := by
  obtain ⟨h0, -, hlen⟩ := makeBytes_some _ d h
  rw [hlen]
  rw [div64_pos _ _ (isInt64_wrap64 _) (by decide)] at h0 ⊢
  have hw := isInt64_wrap64 (x + 7)
  by_cases hs : 0 ≤ wrap64 (x + 7)
  · rw [Int.tdiv_eq_ediv hs (by decide)] at h0 ⊢
    unfold wrap64 at hs h0 ⊢
    unfold IsInt64 at hx
    omega
  · have h1 : Int.tdiv (wrap64 (x + 7)) 8 = -(Int.tdiv (-(wrap64 (x + 7))) 8) := by
      rw [Int.neg_tdiv, neg_neg]
    have hn : 0 ≤ -(wrap64 (x + 7)) := by omega
    rw [h1, Int.tdiv_eq_ediv hn (by decide)] at h0 ⊢
    unfold wrap64 at hs h0 hn ⊢
    unfold IsInt64 at hx
    omega

/-- What the three constructors return. -/
theorem newBitmap_some (size : Int) (b : Bitmap) (h : NewBitmap size = some b) :
    b.size = size ∧ b.step = 1 ∧ b.offset = 0 ∧
      b.data = List.replicate (div64 (wrap64 (size + 7)) 8).toNat 0 ∧
      makeBytes (div64 (wrap64 (size + 7)) 8) = some b.data := by
  unfold NewBitmap at h
  split at h
  · cases h
  · rename_i d hd
    cases h
    exact ⟨rfl, rfl, rfl, (makeBytes_some _ d hd).2.1, hd⟩

theorem newBitmapWithOffset_some (size offset : Int) (b : Bitmap)
    (h : NewBitmapWithOffset size offset = some b) :
    b.size = size ∧ b.step = 1 ∧ b.offset = offset ∧
      b.data = List.replicate (div64 (wrap64 (size + 7)) 8).toNat 0 ∧
      makeBytes (div64 (wrap64 (size + 7)) 8) = some b.data := by
  unfold NewBitmapWithOffset at h
  split at h
  · cases h
  · rename_i d hd
    cases h
    exact ⟨rfl, rfl, rfl, (makeBytes_some _ d hd).2.1, hd⟩

theorem newBitmapWithRang_some (first last step : Int) (b : Bitmap)
    (h : NewBitmapWithRang first last step = some b) :
    0 < step ∧
      b.size = div64 (wrap64 (wrap64 (wrap64 (last - first) + step) - 1)) step ∧
      b.step = step ∧ b.offset = first ∧
      b.data = List.replicate (div64 (wrap64 (wrap64 (last - first) + 7)) 8).toNat 0 ∧
      makeBytes (div64 (wrap64 (wrap64 (last - first) + 7)) 8) = some b.data := by
  unfold NewBitmapWithRang at h
  split at h
  · cases h
  · rename_i hs
    split at h
    · cases h
    · rename_i d hd
      cases h
      exact ⟨by omega, rfl, rfl, rfl, (makeBytes_some _ d hd).2.1, hd⟩

/-- Number of steps that fit below a distance `dist ≥ 0`: not above the distance. -/
theorem ceil_div_le (dist step : Int) (hs : 0 < step) (h0 : 0 ≤ dist) :
    (dist + step - 1) / step ≤ dist ∧ 0 ≤ (dist + step - 1) / step := by
  refine ⟨?_, Int.ediv_nonneg (by omega) (le_of_lt hs)⟩
  have hlt : (dist + step - 1) / step < dist + 1 := by
    apply Int.ediv_lt_of_lt_mul hs
    have : dist * 1 ≤ dist * step :=
      Int.mul_le_mul_of_nonneg_left (by omega) (by omega)
    have e : (dist + 1) * step = dist * step + step := by ring
    rw [e]; omega
  omega

/-- Size of a range bitmap as the code computes it, for a wrapped distance `dist` and a
step of type `int`: it is of type `int`, its product with the step stays within `int`,
and it is not above a non-negative distance, not positive for a negative one. -/
theorem rang_size (dist step : Int) (hd : IsInt64 dist) (hst : IsInt64 step) (hs : 0 < step) :
    IsInt64 (div64 (wrap64 (wrap64 (dist + step) - 1)) step) ∧
      div64 (wrap64 (wrap64 (dist + step) - 1)) step * step < 9223372036854775808 ∧
      (0 ≤ dist → div64 (wrap64 (wrap64 (dist + step) - 1)) step ≤ dist) ∧
      (dist < 0 → div64 (wrap64 (wrap64 (dist + step) - 1)) step ≤ 0) := by
  have hN := isInt64_wrap64 (wrap64 (dist + step) - 1)
  rw [div64_pos _ _ hN hs]
  have hq := tdiv_isInt64 _ _ hN hs
  have hNeq : wrap64 (wrap64 (dist + step) - 1) = wrap64 (dist + step - 1) :=
    wrap64_sub_left _ _
  by_cases hn : 0 ≤ wrap64 (wrap64 (dist + step) - 1)
  · have hexact : wrap64 (wrap64 (dist + step) - 1) = dist + step - 1 := by
      rw [hNeq] at hn ⊢
      unfold wrap64 at hn ⊢
      unfold IsInt64 at hd hst
      omega
    rw [Int.tdiv_eq_ediv hn (le_of_lt hs)]
    have hmul : wrap64 (wrap64 (dist + step) - 1) / step * step
        ≤ wrap64 (wrap64 (dist + step) - 1) := Int.ediv_mul_le _ (ne_of_gt hs)
    refine ⟨by rw [← Int.tdiv_eq_ediv hn (le_of_lt hs)]; exact hq, ?_, ?_, ?_⟩
    · unfold IsInt64 at hN; omega
    · intro h0
      rw [hexact]
      exact (ceil_div_le dist step hs h0).1
    · intro h0
      rw [hexact]
      have : (dist + step - 1) / step < 1 := by
        apply Int.ediv_lt_of_lt_mul hs
        omega
      omega
  · have hneg := tdiv_nonpos_of_neg (wrap64 (wrap64 (dist + step) - 1)) step (by omega) hs
    have hmul : Int.tdiv (wrap64 (wrap64 (dist + step) - 1)) step * step ≤ 0 :=
      Int.mul_nonpos_of_nonpos_of_nonneg hneg (le_of_lt hs)
    refine ⟨hq, by omega, ?_, fun _ => hneg⟩
    intro h0
    omega

/-- The operations keep size, step, offset and the number of bytes. -/
theorem set_shape (b b1 : Bitmap) (pos : Int) (h : b.Set pos = some b1) :
    b1.size = b.size ∧ b1.step = b.step ∧ b1.offset = b.offset ∧
      b1.data.length = b.data.length := by
  unfold Bitmap.Set at h
  split at h
  · cases h
  · simp only at h
    split at h
    · cases h
    · cases h; exact ⟨rfl, rfl, rfl, List.length_set _ _ _⟩

theorem clear_shape (b b1 : Bitmap) (pos : Int) (h : b.Clear pos = some b1) :
    b1.size = b.size ∧ b1.step = b.step ∧ b1.offset = b.offset ∧
      b1.data.length = b.data.length := by
  unfold Bitmap.Clear at h
  split at h
  · cases h
  · simp only at h
    split at h
    · cases h
    · cases h; exact ⟨rfl, rfl, rfl, List.length_set _ _ _⟩

theorem trySet_shape (b b1 : Bitmap) (pos : Int) (err : Option GoError)
    (h : b.TrySet pos = some (b1, err)) :
    b1.size = b.size ∧ b1.step = b.step ∧ b1.offset = b.offset ∧
      b1.data.length = b.data.length := by
  unfold Bitmap.TrySet at h
  split at h
  · cases h
  · cases h; exact ⟨rfl, rfl, rfl, rfl⟩
  · simp only at h
    split at h
    · cases h
    · cases h; exact ⟨rfl, rfl, rfl, List.length_set _ _ _⟩

theorem tryClear_shape (b b1 : Bitmap) (pos : Int) (err : Option GoError)
    (h : b.TryClear pos = some (b1, err)) :
    b1.size = b.size ∧ b1.step = b.step ∧ b1.offset = b.offset ∧
      b1.data.length = b.data.length := by
  unfold Bitmap.TryClear at h
  split at h
  · cases h
  · cases h; exact ⟨rfl, rfl, rfl, rfl⟩
  · simp only at h
    split at h
    · cases h
    · cases h; exact ⟨rfl, rfl, rfl, List.length_set _ _ _⟩

/-- The shape is a matter of size, step, offset and the number of bytes. -/
theorem wf_of_shape (b b1 : Bitmap) (hwf : b.Wf)
    (h : b1.size = b.size ∧ b1.step = b.step ∧ b1.offset = b.offset ∧
      b1.data.length = b.data.length) : b1.Wf := by
  obtain ⟨h1, h2, h3, h4⟩ := h
  unfold Bitmap.Wf at *
  rw [h1, h2, h3, h4]
  exact hwf

/-- Shape of what `NewBitmap` and `NewBitmapWithOffset` return. -/
theorem wf_of_size (b : Bitmap) (size : Int) (hsz : IsInt64 size) (hoff : IsInt64 b.offset)
    (h1 : b.size = size) (h2 : b.step = 1)
    (h5 : makeBytes (div64 (wrap64 (size + 7)) 8) = some b.data) : b.Wf := by
  have hc := (bytes_cover size hsz _ h5).1
  unfold Bitmap.Wf
  rw [h1, h2]
  unfold IsInt64 at hsz
  exact ⟨by decide, hc, by omega, hoff⟩

/-- Every built bitmap has the shape `Wf`. -/
theorem built_wf (b : Bitmap) (h : Built b) : b.Wf := by
  induction h with
  | newBitmap size b hsz hb =>
    obtain ⟨h1, h2, h3, -, h5⟩ := newBitmap_some size b hb
    exact wf_of_size b size hsz (by rw [h3]; decide) h1 h2 h5
  | newBitmapWithOffset size offset b hsz hoff hb =>
    obtain ⟨h1, h2, h3, -, h5⟩ := newBitmapWithOffset_some size offset b hb
    exact wf_of_size b size hsz (by rw [h3]; exact hoff) h1 h2 h5
  | newBitmapWithRang first last step b hf hl hst hb =>
    obtain ⟨h0, h1, h2, h3, -, h5⟩ := newBitmapWithRang_some first last step b hb
    have hd := isInt64_wrap64 (last - first)
    have hc := (bytes_cover (wrap64 (last - first)) hd _ h5).1
    obtain ⟨r1, r2, r3, r4⟩ := rang_size (wrap64 (last - first)) step hd hst h0
    have hlen : (0 : Int) ≤ (b.data.length : Int) := Int.natCast_nonneg _
    unfold Bitmap.Wf
    rw [h1, h2, h3]
    refine ⟨h0, ?_, r2, hf⟩
    by_cases hle : 0 ≤ wrap64 (last - first)
    · have := r3 hle
      omega
    · have := r4 (by omega)
      omega
  | set b b1 pos _ hs ih => exact wf_of_shape b b1 ih (set_shape b b1 pos hs)
  | clear b b1 pos _ hs ih => exact wf_of_shape b b1 ih (clear_shape b b1 pos hs)
  | trySet b b1 pos err _ hs ih => exact wf_of_shape b b1 ih (trySet_shape b b1 pos err hs)
  | tryClear b b1 pos err _ hs ih =>
    exact wf_of_shape b b1 ih (tryClear_shape b b1 pos err hs)

end bitmap

/-! ## Bitmap: bits of the byte slice -/

namespace bitmap

/-- The test `x & (1 << j) != 0` reads bit `j` of `x`. -/
theorem and_bit_ne_zero (x j : Nat) : (x &&& (1 <<< j) ≠ 0) ↔ x.testBit j = true := by
  rw [Nat.one_shiftLeft]
  constructor
  · intro h
    by_contra hb
    apply h
    apply Nat.eq_of_testBit_eq
    intro i
    rw [Nat.testBit_and, Nat.testBit_two_pow, Nat.zero_testBit]
    by_cases hji : j = i
    · subst hji; simp [hb]
    · simp [hji]
  · intro h h0
    have : (x &&& 2 ^ j).testBit j = true := by
      rw [Nat.testBit_and, Nat.testBit_two_pow_self, h]; rfl
    rw [h0, Nat.zero_testBit] at this
    cases this

/-- Bits of `x | (1 << j)`. -/
theorem testBit_or_bit (x j k : Nat) :
    (x ||| (1 <<< j)).testBit k = (x.testBit k || decide (j = k)) := by
  rw [Nat.one_shiftLeft, Nat.testBit_or, Nat.testBit_two_pow]

/-- Bits below 8 of `x &^ (1 << j)`. -/
theorem testBit_andNot_bit (x j k : Nat) (hk : k < 8) :
    (x &&& (255 ^^^ (1 <<< j))).testBit k = (x.testBit k && !decide (j = k)) := by
  have h255 : (255 : Nat) = 2 ^ 8 - 1 := by decide
  rw [Nat.one_shiftLeft, Nat.testBit_and, Nat.testBit_xor, Nat.testBit_two_pow, h255,
    Nat.testBit_two_pow_sub_one]
  simp [hk]

/-- Bits of a byte slice after one byte was written. -/
theorem bitAt_set (data : List Nat) (n m v : Nat) (hn : n / 8 < data.length) :
    bitAt (data.set (n / 8) v) m
      = if m / 8 = n / 8 then v.testBit (m % 8) else bitAt data m := by
  unfold bitAt
  by_cases h : m / 8 = n / 8
  · rw [if_pos h, h]
    simp [List.getD_eq_getElem?_getD, List.getElem?_set, hn]
  · rw [if_neg h]
    have h2 : ¬ n / 8 = m / 8 := fun hh => h hh.symm
    simp [List.getD_eq_getElem?_getD, List.getElem?_set, h2]

/-- Bits after `setBit`: bit `n` is set, the others are as before. -/
theorem bitAt_setBit (data : List Nat) (n m : Nat) (hn : n / 8 < data.length) :
    bitAt (setBit data n) m = (bitAt data m || decide (m = n)) := by
  unfold setBit
  rw [bitAt_set data n m _ hn]
  by_cases h : m / 8 = n / 8
  · rw [if_pos h, testBit_or_bit]
    unfold bitAt
    rw [h]
    have : decide (n % 8 = m % 8) = decide (m = n) := by
      by_cases hmn : m = n
      · simp [hmn]
      · have : ¬ n % 8 = m % 8 := by omega
        simp [hmn, this]
    rw [this]
  · rw [if_neg h]
    have : ¬ m = n := fun hh => h (by rw [hh])
    simp [this]

/-- Bits after `clearBit`: bit `n` is clear, the others are as before. -/
theorem bitAt_clearBit (data : List Nat) (n m : Nat) (hn : n / 8 < data.length) :
    bitAt (clearBit data n) m = (bitAt data m && !decide (m = n)) := by
  unfold clearBit
  rw [bitAt_set data n m _ hn]
  by_cases h : m / 8 = n / 8
  · rw [if_pos h, testBit_andNot_bit _ _ _ (Nat.mod_lt _ (by decide))]
    unfold bitAt
    rw [h]
    have : decide (n % 8 = m % 8) = decide (m = n) := by
      by_cases hmn : m = n
      · simp [hmn]
      · have : ¬ n % 8 = m % 8 := by omega
        simp [hmn, this]
    rw [this]
  · rw [if_neg h]
    have : ¬ m = n := fun hh => h (by rw [hh])
    simp [this]

/-- A bit accepted by a well-shaped bitmap lies in a byte of the slice. -/
theorem byteAt_of_bit (b : Bitmap) (hwf : b.Wf) (bit : Int) (h0 : 0 ≤ bit)
    (h1 : bit < b.size) :
    bit.toNat / 8 < b.data.length ∧
      b.byteAt (Int.tdiv bit 8) = some (b.data.getD (bit.toNat / 8) 0) := by
  obtain ⟨e1, -, e3⟩ := byte_bit_index bit h0
  have hlt : bit.toNat / 8 < b.data.length := by
    have := hwf.2.1
    omega
  refine ⟨hlt, ?_⟩
  unfold Bitmap.byteAt
  rw [if_neg (by omega), e1]
  simp [List.getD_eq_getElem?_getD, List.getElem?_eq_getElem hlt]

/-- On a well-shaped bitmap `Set`, `Clear` and `IsSet` panic only where `encodePos`
does, and they write and read the bit that `encodePos` returns. -/
theorem ops_eq (b : Bitmap) (hwf : b.Wf) (pos : Int) :
    b.Set pos = (b.encodePos pos).map
        (fun bit => { b with data := setBit b.data bit.toNat }) ∧
      b.Clear pos = (b.encodePos pos).map
        (fun bit => { b with data := clearBit b.data bit.toNat }) ∧
      b.IsSet pos = (b.encodePos pos).map (fun bit => bitAt b.data bit.toNat) := by
  cases henc : b.encodePos pos with
  | none => simp [Bitmap.Set, Bitmap.Clear, Bitmap.IsSet, henc]
  | some bit =>
    obtain ⟨h0, h1, -⟩ := (encodePos_some b hwf.1 pos bit).mp henc
    obtain ⟨e1, e2, -⟩ := byte_bit_index bit h0
    obtain ⟨-, hby⟩ := byteAt_of_bit b hwf bit h0 h1
    refine ⟨?_, ?_, ?_⟩
    · simp only [Bitmap.Set, henc, hby, e1, e2, Option.map_some', setBit]
    · simp only [Bitmap.Clear, henc, hby, e1, e2, Option.map_some', clearBit]
    · simp only [Bitmap.IsSet, henc, hby, e2, Option.map_some', bitAt]
      congr 1
      by_cases ht : (b.data.getD (bit.toNat / 8) 0).testBit (bit.toNat % 8) = true
      · rw [ht]; exact decide_eq_true ((and_bit_ne_zero _ _).mpr ht)
      · have hf : (b.data.getD (bit.toNat / 8) 0).testBit (bit.toNat % 8) = false := by
          simpa using ht
        rw [hf]
        exact decide_eq_false (fun hh => ht ((and_bit_ne_zero _ _).mp hh))

end bitmap

/-! ## Bitmap: properties -/

namespace bitmap

/-- Writing one bit of a well-shaped bitmap: the bitmap that `Set` or `Clear` returns
reads `v` at the position and what it read before at every other position of type
`int`. -/
theorem isSet_after_write (b : Bitmap) (hwf : b.Wf) (p bit : Int) (hpi : IsInt64 p)
    (henc : b.encodePos p = some bit) (data1 : List Nat) (v : Bool)
    (hlen : data1.length = b.data.length)
    (hbits : ∀ m, bitAt data1 m = if m = bit.toNat then v else bitAt b.data m) :
    ({ b with data := data1 } : Bitmap).IsSet p = some v ∧
      ∀ q, IsInt64 q → q ≠ p →
        ({ b with data := data1 } : Bitmap).IsSet q = b.IsSet q := by
  have hwf1 : ({ b with data := data1 } : Bitmap).Wf :=
    wf_of_shape b _ hwf ⟨rfl, rfl, rfl, hlen⟩
  have hsame : ∀ q, ({ b with data := data1 } : Bitmap).encodePos q = b.encodePos q :=
    fun _ => rfl
  obtain ⟨h0, -, hpe⟩ := (encodePos_some b hwf.1 p bit).mp henc
  constructor
  · rw [(ops_eq _ hwf1 p).2.2, hsame, henc]
    simp [hbits]
  · intro q hqi hq
    rw [(ops_eq _ hwf1 q).2.2, (ops_eq b hwf q).2.2, hsame]
    cases hqe : b.encodePos q with
    | none => rfl
    | some bq =>
      obtain ⟨hq0, -, hqp⟩ := (encodePos_some b hwf.1 q bq).mp hqe
      have hne : bq.toNat ≠ bit.toNat := by
        intro hh
        apply hq
        have hbb : bq = bit := by omega
        rw [hbb, ← hpe] at hqp
        unfold wrap64 at hqp
        unfold IsInt64 at hqi hpi
        omega
      simp [hbits, hne]

/-- C17: point update.  For every bitmap built by a constructor and modified through
`Set`, `Clear`, `TrySet`, `TryClear`, and every position `p` of type `int` that
`encodePos` accepts: `Set(p)` returns, `IsSet(p)` is true afterwards, `IsSet(q)` is as
before for every other position `q` of type `int`, and size, step and offset are
unchanged; the same holds for `Clear(p)` with `IsSet(p)` false afterwards. -/
theorem C17_point_update (b : Bitmap) (hb : Built b) (p : Int) (hpi : IsInt64 p)
    (hp : (b.encodePos p).isSome = true) :
    (∃ b1, b.Set p = some b1 ∧ b1.IsSet p = some true ∧
        (∀ q, IsInt64 q → q ≠ p → b1.IsSet q = b.IsSet q) ∧
        b1.size = b.size ∧ b1.step = b.step ∧ b1.offset = b.offset) ∧
      (∃ b2, b.Clear p = some b2 ∧ b2.IsSet p = some false ∧
        (∀ q, IsInt64 q → q ≠ p → b2.IsSet q = b.IsSet q) ∧
        b2.size = b.size ∧ b2.step = b.step ∧ b2.offset = b.offset) := by
  have hwf := built_wf b hb
  obtain ⟨bit, henc⟩ := Option.isSome_iff_exists.mp hp
  obtain ⟨h0, h1, -⟩ := (encodePos_some b hwf.1 p bit).mp henc
  obtain ⟨hlt, -⟩ := byteAt_of_bit b hwf bit h0 h1
  obtain ⟨hset, hclear, -⟩ := ops_eq b hwf p
  rw [henc] at hset hclear
  constructor
  · have hw := isSet_after_write b hwf p bit hpi henc (setBit b.data bit.toNat) true
      (by unfold setBit; exact List.length_set _ _ _)
      (by
        intro m
        rw [bitAt_setBit _ _ _ hlt]
        by_cases hm : m = bit.toNat <;> simp [hm])
    exact ⟨_, hset, hw.1, hw.2, rfl, rfl, rfl⟩
  · have hw := isSet_after_write b hwf p bit hpi henc (clearBit b.data bit.toNat) false
      (by unfold clearBit; exact List.length_set _ _ _)
      (by
        intro m
        rw [bitAt_clearBit _ _ _ hlt]
        by_cases hm : m = bit.toNat <;> simp [hm])
    exact ⟨_, hclear, hw.1, hw.2, rfl, rfl, rfl⟩

/-- Witness of C17: `Set(15)` and `Clear(15)` on `demoRange`. -/
theorem C17_point_update_witness :
    (∃ b1, demoRange.Set 15 = some b1 ∧ b1.IsSet 15 = some true ∧
        b1.IsSet 20 = demoRange.IsSet 20 ∧ b1.size = demoRange.size) ∧
      (∃ b2, demoRange.Clear 15 = some b2 ∧ b2.IsSet 15 = some false ∧
        b2.IsSet 20 = demoRange.IsSet 20 ∧ b2.size = demoRange.size) := by
  have h := C17_point_update demoRange
    (Built.newBitmapWithRang 10 30 5 demoRange (by decide) (by decide) (by decide)
      (by decide))
    15 (by decide) (by decide)
  obtain ⟨⟨b1, h1, h2, h3, h4, -⟩, ⟨b2, k1, k2, k3, k4, -⟩⟩ := h
  exact ⟨⟨b1, h1, h2, h3 20 (by decide) (by decide), h4⟩,
    ⟨b2, k1, k2, k3 20 (by decide) (by decide), k4⟩⟩

/-- One pass of the inner loop, as a filter of the shifted indices. -/
theorem inner_loop_eq {β : Type} (C : Nat → Prop) [DecidablePred C] (V : Nat → β)
    (P : Nat → Bool) (f : Nat → β) (g : Nat → Nat) (l : List Nat)
    (h : ∀ j, j ∈ l → ((C j ↔ P (g j) = true) ∧ V j = f (g j))) :
    l.filterMap (fun j => if C j then some (V j) else none)
      = ((l.map g).filter P).map f := by
  induction l with
  | nil => rfl
  | cons a l ih =>
    have ha := h a (List.mem_cons_self _ _)
    have ih2 := ih (fun j hj => h j (List.mem_cons_of_mem _ hj))
    by_cases hc : C a
    · have hp : P (g a) = true := ha.1.mp hc
      simp only [List.filterMap_cons, hc, if_true, List.map_cons, List.filter_cons, hp, ih2,
        ha.2]
    · have hp : P (g a) = false := by
        cases hv : P (g a) with
        | false => rfl
        | true => exact absurd (ha.1.mpr hv) hc
      simp only [List.filterMap_cons, hc, if_false, List.map_cons, List.filter_cons, hp, ih2,
        Bool.false_eq_true]

/-- The two loops of `GetPos` and `GetNoPos`, as one filter of the bit indices. -/
theorem loops_eq {β : Type} (C : Nat → Nat → Prop) [∀ i, DecidablePred (C i)]
    (V : Nat → Nat → β) (P : Nat → Bool) (f : Nat → β)
    (h : ∀ i j, j < 8 → ((C i j ↔ P (i * 8 + j) = true) ∧ V i j = f (i * 8 + j)))
    (len : Nat) :
    (List.range len).flatMap
        (fun i => (List.range 8).filterMap (fun j => if C i j then some (V i j) else none))
      = ((List.range (len * 8)).filter P).map f := by
  induction len with
  | zero => rfl
  | succ n ih =>
    rw [List.range_succ, List.flatMap_append, ih, Nat.succ_mul, List.range_add,
      List.filter_append, List.map_append, List.flatMap_singleton]
    congr 1
    exact inner_loop_eq (C n) (V n) P f (fun j => n * 8 + j) (List.range 8)
      (fun j hj => h n j (List.mem_range.mp hj))

/-- Only the bits below size pass the filter. -/
theorem filter_below_size (size : Int) (len : Nat) (hle : size ≤ 8 * (len : Int))
    (Q : Nat → Bool) :
    (List.range (len * 8)).filter (fun (n : Nat) => decide ((n : Int) < size) && Q n)
      = (List.range size.toNat).filter Q := by
  obtain ⟨k, hk⟩ : ∃ k, len * 8 = size.toNat + k := ⟨len * 8 - size.toNat, by omega⟩
  rw [hk, List.range_add, List.filter_append]
  have h2 : ((List.range k).map (fun x => size.toNat + x)).filter
      (fun (n : Nat) => decide ((n : Int) < size) && Q n) = [] := by
    rw [List.filter_eq_nil_iff]
    intro a ha
    obtain ⟨x, -, rfl⟩ := List.mem_map.mp ha
    have : ¬ (((size.toNat + x : Nat) : Int) < size) := by omega
    rw [decide_eq_false this]
    simp
  rw [h2, List.append_nil]
  apply List.filter_congr
  intro a ha
  have : ((a : Int) < size) := by
    have := List.mem_range.mp ha
    omega
  simp [this]

/-- `GetPos` lists the set bits below size in order, `GetNoPos` the clear ones. -/
theorem getPos_eq (b : Bitmap) (hwf : b.Wf) :
    b.GetPos = ((List.range b.size.toNat).filter (fun n => bitAt b.data n)).map
        (fun (n : Nat) => b.decodePos (n : Int)) ∧
      b.GetNoPos = ((List.range b.size.toNat).filter (fun n => !bitAt b.data n)).map
        (fun (n : Nat) => b.decodePos (n : Int)) := by
  constructor
  · unfold Bitmap.GetPos
    rw [loops_eq
      (fun i j => ((i : Int) * 8 + (j : Int) < b.size) ∧
        ((b.data.getD i 0) &&& ((1 : Nat) <<< j)) ≠ 0)
      (fun i j => b.decodePos ((i : Int) * 8 + (j : Int)))
      (fun (n : Nat) => decide ((n : Int) < b.size) && bitAt b.data n)
      (fun (n : Nat) => b.decodePos (n : Int)) ?_ b.data.length]
    · rw [filter_below_size b.size b.data.length hwf.2.1]
    · intro i j hj
      have hdiv : (i * 8 + j) / 8 = i := by omega
      have hmod : (i * 8 + j) % 8 = j := by omega
      refine ⟨?_, by push_cast; rfl⟩
      simp only [Bool.and_eq_true, decide_eq_true_eq, bitAt, hdiv, hmod]
      rw [and_bit_ne_zero]
      push_cast
      exact Iff.rfl
  · unfold Bitmap.GetNoPos
    rw [loops_eq
      (fun i j => ((i : Int) * 8 + (j : Int) < b.size) ∧
        ((b.data.getD i 0) &&& ((1 : Nat) <<< j)) = 0)
      (fun i j => b.decodePos ((i : Int) * 8 + (j : Int)))
      (fun (n : Nat) => decide ((n : Int) < b.size) && !bitAt b.data n)
      (fun (n : Nat) => b.decodePos (n : Int)) ?_ b.data.length]
    · rw [filter_below_size b.size b.data.length hwf.2.1]
    · intro i j hj
      have hdiv : (i * 8 + j) / 8 = i := by omega
      have hmod : (i * 8 + j) % 8 = j := by omega
      refine ⟨?_, by push_cast; rfl⟩
      simp only [Bool.and_eq_true, decide_eq_true_eq, bitAt, hdiv, hmod, Bool.not_eq_true']
      have hz : ((b.data.getD i 0) &&& ((1 : Nat) <<< j)) = 0
          ↔ (b.data.getD i 0).testBit j = false := by
        have := and_bit_ne_zero (b.data.getD i 0) j
        constructor
        · intro h0
          by_contra hne
          have ht : (b.data.getD i 0).testBit j = true := by simpa using hne
          exact (this.mpr ht) h0
        · intro hf
          by_contra hne
          rw [this.mp hne] at hf
          cases hf
      rw [hz]
      push_cast
      exact Iff.rfl

/-- Bits of a slice of zero bytes are clear. -/
theorem bitAt_replicate (k n : Nat) : bitAt (List.replicate k 0) n = false := by
  unfold bitAt
  have : (List.replicate k 0).getD (n / 8) 0 = 0 := by
    rw [List.getD_eq_getElem?_getD, List.getElem?_replicate]
    split <;> rfl
  rw [this, Nat.zero_testBit]

/-- The position of a bit is the offset plus the bit times the step, wrapped. -/
theorem decodePos_wrap (b : Bitmap) (bit : Int) :
    b.decodePos bit = wrap64 (b.offset + bit * b.step) := by
  unfold Bitmap.decodePos
  rw [wrap64_add_left, Int.add_comm]

/-- Positions of the bits below size are of type `int`, and two bits with the same
position are the same bit. -/
theorem decodePos_inj (b : Bitmap) (hwf : b.Wf) (n m : Nat) (hn : n < b.size.toNat)
    (hm : m < b.size.toNat) (h : b.decodePos (n : Int) = b.decodePos (m : Int)) : n = m := by
  have h1 := encodePos_decodePos b hwf.1 hwf.2.2.1 (n : Int)
    (Int.natCast_nonneg _) (by omega)
  have h2 := encodePos_decodePos b hwf.1 hwf.2.2.1 (m : Int)
    (Int.natCast_nonneg _) (by omega)
  rw [h, h2] at h1
  have := Option.some.inj h1
  omega

/-- When the last position does not wrap, `decodePos` is strictly increasing on the bits
below size. -/
theorem decodePos_lt (b : Bitmap) (hwf : b.Wf)
    (hfit : b.offset + (b.size - 1) * b.step < 9223372036854775808) (n m : Nat)
    (hm : m < b.size.toNat) (h : n < m) :
    b.decodePos (n : Int) < b.decodePos (m : Int) := by
  rw [decodePos_exact b hwf.1 hwf.2.2.1 hwf.2.2.2 hfit (n : Int) (Int.natCast_nonneg _)
      (by omega),
    decodePos_exact b hwf.1 hwf.2.2.1 hwf.2.2.2 hfit (m : Int) (Int.natCast_nonneg _)
      (by omega)]
  have : (n : Int) * b.step < (m : Int) * b.step :=
    Int.mul_lt_mul_of_pos_right (by exact_mod_cast h) hwf.1
  omega

/-- Membership in a filtered and decoded range, in terms of `IsSet`. -/
theorem mem_decoded_filter (b : Bitmap) (hwf : b.Wf) (Q : Nat → Bool) (v : Bool)
    (hQ : ∀ n, Q n = true ↔ bitAt b.data n = v) (p : Int) :
    p ∈ ((List.range b.size.toNat).filter Q).map (fun (n : Nat) => b.decodePos (n : Int))
      ↔ (IsInt64 p ∧ b.IsSet p = some v) := by
  rw [(ops_eq b hwf p).2.2]
  constructor
  · intro h
    obtain ⟨n, hn, hp⟩ := List.mem_map.mp h
    obtain ⟨hr, hq⟩ := List.mem_filter.mp hn
    have hlt := List.mem_range.mp hr
    have henc : b.encodePos p = some (n : Int) := by
      rw [← hp]
      exact encodePos_decodePos b hwf.1 hwf.2.2.1 _ (Int.natCast_nonneg _)
        (by omega)
    have hpi : IsInt64 p := by
      rw [← hp]
      exact isInt64_wrap64 _
    rw [henc]
    exact ⟨hpi, by simp [(hQ n).mp hq]⟩
  · rintro ⟨hpi, h⟩
    cases henc : b.encodePos p with
    | none => rw [henc] at h; cases h
    | some bit =>
      rw [henc] at h
      obtain ⟨h0, h1, hp⟩ := (encodePos_some b hwf.1 p bit).mp henc
      have hv : bitAt b.data bit.toNat = v := by simpa using h
      refine List.mem_map.mpr ⟨bit.toNat, List.mem_filter.mpr ⟨List.mem_range.mpr ?_, ?_⟩, ?_⟩
      · omega
      · exact (hQ _).mpr hv
      · show b.decodePos (bit.toNat : Int) = p
        rw [Int.toNat_of_nonneg h0]
        exact decodePos_encodePos b hwf.1 p bit hpi henc

/-- A bitmap whose bytes are all zero has no set position. -/
theorem getPos_zero (b : Bitmap) (k : Nat) (hd : b.data = List.replicate k 0) :
    b.GetPos = [] := by
  unfold Bitmap.GetPos
  rw [List.flatMap_eq_nil_iff]
  intro i _
  rw [List.filterMap_eq_nil_iff]
  intro j _
  have hz : b.data.getD i 0 = 0 := by
    rw [hd, List.getD_eq_getElem?_getD, List.getElem?_replicate]
    split <;> rfl
  rw [hz, Nat.zero_and]
  simp

/-- The bitmap `demoMarked` is built: a range bitmap after two calls of `Set`. -/
theorem built_demoMarked : Built demoMarked :=
  Built.set ⟨[2, 0, 0], 4, 5, 10⟩ demoMarked 25
    (Built.set demoRange ⟨[2, 0, 0], 4, 5, 10⟩ 15
      (Built.newBitmapWithRang 10 30 5 demoRange (by decide) (by decide) (by decide)
        (by decide))
      (by decide))
    (by decide)

/-- The bitmap `wrapMarked` is built: an offset bitmap after two calls of `Set`. -/
theorem built_wrapMarked : Built wrapMarked :=
  Built.set ⟨[8], 8, 1, 9223372036854775804⟩ wrapMarked (-9223372036854775808)
    (Built.set wrapOffset ⟨[8], 8, 1, 9223372036854775804⟩ 9223372036854775807
      (Built.newBitmapWithOffset 8 9223372036854775804 wrapOffset (by decide) (by decide)
        (by decide))
      (by decide))
    (by decide)

/-- C18 as stated fails: positions are of type `int` and `decodePos` wraps.  The bitmap
`NewBitmapWithOffset(8, MaxInt64 - 3)` after `Set(MaxInt64)` and `Set(MinInt64)` (its
bits 3 and 4) has both positions set, and `GetPos()` returns them in the order of their
bits, `[MaxInt64, MinInt64]`, which is not ascending. -/
theorem C18_wrapped_positions_not_ascending :
    Built wrapMarked ∧
      NewBitmapWithOffset 8 9223372036854775804 = some wrapOffset ∧
      (wrapOffset.Set 9223372036854775807).bind (fun b => b.Set (-9223372036854775808))
        = some wrapMarked ∧
      wrapMarked.IsSet 9223372036854775807 = some true ∧
      wrapMarked.IsSet (-9223372036854775808) = some true ∧
      wrapMarked.GetPos = [9223372036854775807, -9223372036854775808] ∧
      ¬ wrapMarked.GetPos.Pairwise (fun x y => x < y) := by
  refine ⟨built_wrapMarked, by decide, by decide, by decide, by decide, by decide, ?_⟩
  have h : wrapMarked.GetPos = [9223372036854775807, -9223372036854775808] := by decide
  rw [h]
  decide

/-- C18 (amended): enumeration.  For every bitmap built by a constructor and modified
through `Set`, `Clear`, `TrySet`, `TryClear`: `GetPos()` and `GetNoPos()` list positions
in ascending order of their bit, without duplicates, and strictly ascending when the
last position `offset + (size - 1) * step` does not leave the type `int`; `GetPos()`
holds exactly the positions of type `int` whose `IsSet` is true and `GetNoPos()` exactly
those whose `IsSet` is false; the two lists share no position and together they are a
rearrangement of the valid positions `offset + i * step`, `0 ≤ i < size`, computed in
`int` (they are `offset + i * step` itself when the last position does not leave the
type), of which there are `Size()` when the size is not negative; `decodePos` inverts
`encodePos` on them; and a bitmap fresh from a constructor has `GetPos()` empty. -/
theorem C18_enumeration (b : Bitmap) (hb : Built b) :
    ((∃ bits : List Nat, bits.Pairwise (fun x y => x < y) ∧
          b.GetPos = bits.map (fun (n : Nat) => b.decodePos (n : Int))) ∧
        (∃ bits : List Nat, bits.Pairwise (fun x y => x < y) ∧
          b.GetNoPos = bits.map (fun (n : Nat) => b.decodePos (n : Int))) ∧
        b.GetPos.Nodup ∧ b.GetNoPos.Nodup ∧
        (b.offset + (b.size - 1) * b.step < 9223372036854775808 →
          b.GetPos.Pairwise (fun x y => x < y) ∧
            b.GetNoPos.Pairwise (fun x y => x < y))) ∧
      ((∀ p, p ∈ b.GetPos ↔ (IsInt64 p ∧ b.IsSet p = some true)) ∧
        (∀ p, p ∈ b.GetNoPos ↔ (IsInt64 p ∧ b.IsSet p = some false)) ∧
        (∀ p, p ∈ b.GetPos → p ∉ b.GetNoPos)) ∧
      ((b.GetPos ++ b.GetNoPos).Perm
          ((List.range b.size.toNat).map
            (fun (i : Nat) => wrap64 (b.offset + (i : Int) * b.step))) ∧
        (b.offset + (b.size - 1) * b.step < 9223372036854775808 →
          (b.GetPos ++ b.GetNoPos).Perm
            ((List.range b.size.toNat).map
              (fun (i : Nat) => b.offset + (i : Int) * b.step))) ∧
        b.GetPos.length + b.GetNoPos.length = b.size.toNat ∧
        (0 ≤ b.size → ((b.GetPos.length + b.GetNoPos.length : Nat) : Int) = b.Size)) ∧
      ((∀ p bit, IsInt64 p → b.encodePos p = some bit → b.decodePos bit = p) ∧
        (∀ i, 0 ≤ i → i < b.size → b.encodePos (b.decodePos i) = some i)) ∧
      ((∀ size b0, NewBitmap size = some b0 → b0.GetPos = []) ∧
        (∀ size offset b0, NewBitmapWithOffset size offset = some b0 → b0.GetPos = []) ∧
        (∀ first last step b0, NewBitmapWithRang first last step = some b0 →
          b0.GetPos = [])) := by
  have hwf := built_wf b hb
  obtain ⟨hg, hn⟩ := getPos_eq b hwf
  have hmemP : ∀ p, p ∈ b.GetPos ↔ (IsInt64 p ∧ b.IsSet p = some true) := by
    intro p
    rw [hg]
    exact mem_decoded_filter b hwf _ true (fun n => Iff.rfl) p
  have hmemN : ∀ p, p ∈ b.GetNoPos ↔ (IsInt64 p ∧ b.IsSet p = some false) := by
    intro p
    rw [hn]
    exact mem_decoded_filter b hwf _ false (fun n => by simp) p
  have hbits : ∀ Q : Nat → Bool,
      ((List.range b.size.toNat).filter Q).Pairwise (fun x y => x < y) :=
    fun Q => (List.pairwise_lt_range _).filter _
  have hnodup : ∀ Q : Nat → Bool,
      (((List.range b.size.toNat).filter Q).map
        (fun (n : Nat) => b.decodePos (n : Int))).Nodup := by
    intro Q
    refine List.Nodup.map_on ?_ ((hbits Q).imp (fun h => ne_of_lt h))
    intro x hx y hy hxy
    exact decodePos_inj b hwf x y (List.mem_range.mp (List.mem_filter.mp hx).1)
      (List.mem_range.mp (List.mem_filter.mp hy).1) hxy
  have hsort : b.offset + (b.size - 1) * b.step < 9223372036854775808 →
      ∀ Q : Nat → Bool, (((List.range b.size.toNat).filter Q).map
        (fun (n : Nat) => b.decodePos (n : Int))).Pairwise (fun x y => x < y) := by
    intro hfit Q
    rw [List.pairwise_map]
    refine (hbits Q).imp_of_mem ?_
    intro x y _ hy hxy
    exact decodePos_lt b hwf hfit x y (List.mem_range.mp (List.mem_filter.mp hy).1) hxy
  have hperm : (b.GetPos ++ b.GetNoPos).Perm
      ((List.range b.size.toNat).map
        (fun (i : Nat) => wrap64 (b.offset + (i : Int) * b.step))) := by
    have hf : (fun (i : Nat) => wrap64 (b.offset + (i : Int) * b.step))
        = (fun (n : Nat) => b.decodePos (n : Int)) := by
      funext i; rw [decodePos_wrap]
    rw [hg, hn, hf, ← List.map_append]
    exact (List.filter_append_perm _ _).map _
  have hlen : b.GetPos.length + b.GetNoPos.length = b.size.toNat := by
    have := hperm.length_eq
    rw [List.length_append, List.length_map, List.length_range] at this
    exact this
  refine ⟨⟨⟨_, hbits _, hg⟩, ⟨_, hbits _, hn⟩, by rw [hg]; exact hnodup _,
      by rw [hn]; exact hnodup _, ?_⟩,
    ⟨hmemP, hmemN, ?_⟩, ⟨hperm, ?_, hlen, ?_⟩, ⟨?_, ?_⟩, ⟨?_, ?_, ?_⟩⟩
  · intro hfit
    exact ⟨by rw [hg]; exact hsort hfit _, by rw [hn]; exact hsort hfit _⟩
  · intro p hp hq
    rw [hmemP] at hp
    rw [hmemN, hp.2] at hq
    cases hq.2
  · intro hfit
    have hmap : (List.range b.size.toNat).map
          (fun (i : Nat) => b.offset + (i : Int) * b.step)
        = (List.range b.size.toNat).map
          (fun (i : Nat) => wrap64 (b.offset + (i : Int) * b.step)) := by
      apply List.map_congr_left
      intro i hi
      have hi2 := List.mem_range.mp hi
      rw [← decodePos_wrap]
      exact (decodePos_exact b hwf.1 hwf.2.2.1 hwf.2.2.2 hfit (i : Int)
        (Int.natCast_nonneg _) (by omega)).symm
    rw [hmap]
    exact hperm
  · intro h0
    rw [hlen]
    exact Int.toNat_of_nonneg h0
  · intro p bit hpi h
    exact decodePos_encodePos b hwf.1 p bit hpi h
  · intro i h0 h1
    exact encodePos_decodePos b hwf.1 hwf.2.2.1 i h0 h1
  · intro size b0 h
    exact getPos_zero b0 _ (newBitmap_some size b0 h).2.2.2.1
  · intro size offset b0 h
    exact getPos_zero b0 _ (newBitmapWithOffset_some size offset b0 h).2.2.2.1
  · intro first last step b0 h
    exact getPos_zero b0 _ (newBitmapWithRang_some first last step b0 h).2.2.2.2.1

/-- Witness of C18: the two lists of `demoMarked`. -/
theorem C18_enumeration_witness :
    demoMarked.GetPos = [15, 25] ∧ demoMarked.GetNoPos = [10, 20] ∧
      demoMarked.GetPos.Pairwise (fun x y => x < y) ∧
      (25 ∈ demoMarked.GetPos ↔ (IsInt64 25 ∧ demoMarked.IsSet 25 = some true)) ∧
      (20 ∈ demoMarked.GetNoPos ↔ (IsInt64 20 ∧ demoMarked.IsSet 20 = some false)) ∧
      (demoMarked.GetPos ++ demoMarked.GetNoPos).Perm
        ((List.range demoMarked.size.toNat).map
          (fun (i : Nat) => demoMarked.offset + (i : Int) * demoMarked.step)) ∧
      demoMarked.GetPos.length + demoMarked.GetNoPos.length = demoMarked.size.toNat := by
  have h := C18_enumeration demoMarked built_demoMarked
  exact ⟨by decide, by decide, (h.1.2.2.2.2 (by decide)).1, h.2.1.1 25, h.2.1.2.1 20,
    h.2.2.1.2.1 (by decide), h.2.2.1.2.2.1⟩

/-- On a well-shaped bitmap the `Try` variants return the error where `encodePos`
panics, and otherwise write and read the bit that `encodePos` returns. -/
theorem try_ops_eq (b : Bitmap) (hwf : b.Wf) (pos : Int) :
    b.TrySet pos = some (match b.encodePos pos with
        | some bit => ({ b with data := setBit b.data bit.toNat }, none)
        | none => (b, some errOutOfBounds)) ∧
      b.TryClear pos = some (match b.encodePos pos with
        | some bit => ({ b with data := clearBit b.data bit.toNat }, none)
        | none => (b, some errOutOfBounds)) ∧
      b.IsSetWithErr pos = some (match b.encodePos pos with
        | some bit => (bitAt b.data bit.toNat, none)
        | none => (false, some errOutOfBounds)) := by
  have htry := tryEncodePos_eq b hwf.1 pos
  obtain ⟨hset, hclear, hisset⟩ := ops_eq b hwf pos
  cases henc : b.encodePos pos with
  | none =>
    rw [henc] at htry
    simp only [Bitmap.TrySet, Bitmap.TryClear, Bitmap.IsSetWithErr, htry]
    exact ⟨trivial, trivial, trivial⟩
  | some bit =>
    rw [henc] at htry hset hclear hisset
    obtain ⟨h0, h1, -⟩ := (encodePos_some b hwf.1 pos bit).mp henc
    obtain ⟨e1, e2, -⟩ := byte_bit_index bit h0
    obtain ⟨-, hby⟩ := byteAt_of_bit b hwf bit h0 h1
    refine ⟨?_, ?_, ?_⟩
    · simp only [Bitmap.TrySet, htry, hby, e1, e2, setBit]
    · simp only [Bitmap.TryClear, htry, hby, e1, e2, clearBit]
    · simp only [Bitmap.IsSet, henc, hby, e2, Option.map_some', Option.some.injEq] at hisset
      simp only [Bitmap.IsSetWithErr, htry, hby, e2, hisset]

/-- Where `encodePos` panics on a bitmap with a positive step, in terms of the wrapped
distance of the position from the offset. -/
theorem encodePos_none (b : Bitmap) (hstep : 0 < b.step) (pos : Int) :
    b.encodePos pos = none ↔
      (¬ b.step ∣ wrap64 (pos - b.offset) ∨
        Int.tdiv (wrap64 (pos - b.offset)) b.step < 0 ∨
        b.size ≤ Int.tdiv (wrap64 (pos - b.offset)) b.step) := by
  have hne : b.step ≠ 0 := ne_of_gt hstep
  have hq := div64_pos _ _ (isInt64_wrap64 (pos - b.offset)) hstep
  unfold Bitmap.encodePos
  simp only [hne, if_false, hq]
  constructor
  · intro h
    split at h
    · rename_i hmod
      exact Or.inl (fun hd => hmod (Int.tmod_eq_zero_of_dvd hd))
    · split at h
      · rename_i hr
        rcases hr with hr | hr
        · exact Or.inr (Or.inl hr)
        · exact Or.inr (Or.inr hr)
      · cases h
  · intro h
    split
    · rfl
    · rename_i hmod
      simp only [ne_eq, not_not] at hmod
      rcases h with h | h | h
      · exact absurd (Int.dvd_of_tmod_eq_zero hmod) h
      · rw [if_pos (Or.inl h)]
      · rw [if_pos (Or.inr h)]

/-- The bitmap `topOffset` is built. -/
theorem built_topOffset : Built topOffset :=
  Built.newBitmapWithOffset 8 9223372036854775807 topOffset (by decide) (by decide)
    (by decide)

/-- C19 (what the code does): `Try` variants.  On the zero value of `Bitmap`, whose
step is zero, `tryEncodePos` divides by zero: `TrySet`, `TryClear` and `IsSetWithErr`
panic on every position, as `Set`, `Clear`, `IsSet` do, and return no error.  The
distance `pos - offset` is taken in `int` and wraps: on
`NewBitmapWithOffset(8, MaxInt64)` the position `MinInt64 + 2`, at the distance
`-2^64 + 3` in the integers, is accepted as bit 3.  On every bitmap built by a
constructor and modified through `Set`, `Clear`, `TrySet`, `TryClear`, and every integer
`pos`, the code does what the claim says with the wrapped distance: `TrySet(pos)`,
`TryClear(pos)` and `IsSetWithErr(pos)` return, with a non-nil error exactly when `Set`,
`Clear`, `IsSet` panic on `pos`, which is when the distance is not a multiple of `step`
or the distance divided by `step` is outside `[0, size)`; with an error the bitmap is
unchanged and `IsSetWithErr` returns false; without an error they have the effect,
respectively the result, of `Set(pos)`, `Clear(pos)` and `IsSet(pos)`; and the wrapped
distance is `pos - offset` whenever that is of type `int`. -/
theorem C19_try_variants :
    (zeroBitmap.step = 0 ∧
        (∀ pos, zeroBitmap.TrySet pos = none ∧ zeroBitmap.TryClear pos = none ∧
          zeroBitmap.IsSetWithErr pos = none ∧ zeroBitmap.Set pos = none ∧
          zeroBitmap.Clear pos = none ∧ zeroBitmap.IsSet pos = none)) ∧
      (Built topOffset ∧ NewBitmapWithOffset 8 9223372036854775807 = some topOffset ∧
        IsInt64 (-9223372036854775806) ∧
        (-9223372036854775806 : Int) - topOffset.offset = -18446744073709551613 ∧
        topOffset.size = 8 ∧ topOffset.step = 1 ∧
        topOffset.TrySet (-9223372036854775806)
          = some (⟨[8], 8, 1, 9223372036854775807⟩, none) ∧
        topOffset.Set (-9223372036854775806) = some ⟨[8], 8, 1, 9223372036854775807⟩) ∧
      (∀ b, Built b → ∀ pos : Int,
        (∃ b1 err, b.TrySet pos = some (b1, err) ∧ (err ≠ none ↔ b.Set pos = none) ∧
          (err ≠ none → b1 = b) ∧ (err = none → b.Set pos = some b1)) ∧
        (∃ b1 err, b.TryClear pos = some (b1, err) ∧ (err ≠ none ↔ b.Clear pos = none) ∧
          (err ≠ none → b1 = b) ∧ (err = none → b.Clear pos = some b1)) ∧
        (∃ v err, b.IsSetWithErr pos = some (v, err) ∧ (err ≠ none ↔ b.IsSet pos = none) ∧
          (err ≠ none → v = false) ∧ (err = none → b.IsSet pos = some v)) ∧
        ((b.Set pos = none ↔
            (¬ b.step ∣ wrap64 (pos - b.offset) ∨
              Int.tdiv (wrap64 (pos - b.offset)) b.step < 0 ∨
              b.size ≤ Int.tdiv (wrap64 (pos - b.offset)) b.step)) ∧
          (b.Clear pos = none ↔
            (¬ b.step ∣ wrap64 (pos - b.offset) ∨
              Int.tdiv (wrap64 (pos - b.offset)) b.step < 0 ∨
              b.size ≤ Int.tdiv (wrap64 (pos - b.offset)) b.step)) ∧
          (b.IsSet pos = none ↔
            (¬ b.step ∣ wrap64 (pos - b.offset) ∨
              Int.tdiv (wrap64 (pos - b.offset)) b.step < 0 ∨
              b.size ≤ Int.tdiv (wrap64 (pos - b.offset)) b.step))) ∧
        (IsInt64 (pos - b.offset) → wrap64 (pos - b.offset) = pos - b.offset)) := by
  refine ⟨⟨rfl, ?_⟩, ⟨built_topOffset, by decide, by decide, by decide, by decide,
    by decide, by decide, by decide⟩, ?_⟩
  · intro pos
    simp [Bitmap.TrySet, Bitmap.TryClear, Bitmap.IsSetWithErr, Bitmap.Set, Bitmap.Clear,
      Bitmap.IsSet, Bitmap.tryEncodePos, Bitmap.encodePos, zeroBitmap]
  intro b hb pos
  have hwf := built_wf b hb
  obtain ⟨hset, hclear, hisset⟩ := ops_eq b hwf pos
  obtain ⟨htset, htclear, htisset⟩ := try_ops_eq b hwf pos
  have hnone := encodePos_none b hwf.1 pos
  cases henc : b.encodePos pos with
  | none =>
    rw [henc] at hset hclear hisset htset htclear htisset hnone
    simp only [Option.map_none'] at hset hclear hisset
    have hcond := hnone.mp rfl
    refine ⟨⟨b, some errOutOfBounds, htset, ?_, fun _ => rfl, ?_⟩,
      ⟨b, some errOutOfBounds, htclear, ?_, fun _ => rfl, ?_⟩,
      ⟨false, some errOutOfBounds, htisset, ?_, fun _ => rfl, ?_⟩,
      ⟨?_, ?_, ?_⟩, wrap64_of_isInt64 _⟩
    · exact ⟨fun _ => hset, fun _ => by simp⟩
    · intro h; cases h
    · exact ⟨fun _ => hclear, fun _ => by simp⟩
    · intro h; cases h
    · exact ⟨fun _ => hisset, fun _ => by simp⟩
    · intro h; cases h
    · exact ⟨fun _ => hcond, fun _ => hset⟩
    · exact ⟨fun _ => hcond, fun _ => hclear⟩
    · exact ⟨fun _ => hcond, fun _ => hisset⟩
  | some bit =>
    rw [henc] at hset hclear hisset htset htclear htisset hnone
    simp only [Option.map_some'] at hset hclear hisset
    have hncond : ¬ (¬ b.step ∣ wrap64 (pos - b.offset) ∨
        Int.tdiv (wrap64 (pos - b.offset)) b.step < 0 ∨
        b.size ≤ Int.tdiv (wrap64 (pos - b.offset)) b.step) := fun hc => by
      have := hnone.mpr hc
      cases this
    refine ⟨⟨_, none, htset, ?_, ?_, fun _ => hset⟩, ⟨_, none, htclear, ?_, ?_, fun _ => hclear⟩,
      ⟨_, none, htisset, ?_, ?_, fun _ => hisset⟩, ⟨?_, ?_, ?_⟩, wrap64_of_isInt64 _⟩
    · exact ⟨fun h => absurd rfl h, fun h => by rw [hset] at h; cases h⟩
    · intro h; exact absurd rfl h
    · exact ⟨fun h => absurd rfl h, fun h => by rw [hclear] at h; cases h⟩
    · intro h; exact absurd rfl h
    · exact ⟨fun h => absurd rfl h, fun h => by rw [hisset] at h; cases h⟩
    · intro h; exact absurd rfl h
    · exact ⟨fun h => (by rw [hset] at h; cases h), fun h => absurd h hncond⟩
    · exact ⟨fun h => (by rw [hclear] at h; cases h), fun h => absurd h hncond⟩
    · exact ⟨fun h => (by rw [hisset] at h; cases h), fun h => absurd h hncond⟩

/-- Witness of C19: position 12 is off the steps of `demoMarked`, position 20 is on. -/
theorem C19_try_variants_witness :
    (demoMarked.TrySet 12 = some (demoMarked, some errOutOfBounds) ∧
        demoMarked.Set 12 = none ∧ demoMarked.IsSetWithErr 12 = some (false, some errOutOfBounds)) ∧
      (∃ b1 err, demoMarked.TrySet 20 = some (b1, err) ∧
        (err ≠ none ↔ demoMarked.Set 20 = none) ∧ (err ≠ none → b1 = demoMarked) ∧
        (err = none → demoMarked.Set 20 = some b1)) ∧
      (∃ v err, demoMarked.IsSetWithErr 25 = some (v, err) ∧
        (err ≠ none ↔ demoMarked.IsSet 25 = none) ∧ (err ≠ none → v = false) ∧
        (err = none → demoMarked.IsSet 25 = some v)) :=
  ⟨⟨by decide, by decide, by decide⟩, (C19_try_variants.2.2 demoMarked built_demoMarked 20).1,
    (C19_try_variants.2.2 demoMarked built_demoMarked 25).2.2.1⟩

/-- The bitmap `overflowRange` is built. -/
theorem built_overflowRange : Built overflowRange :=
  Built.newBitmapWithRang 0 10 9223372036854775807 overflowRange (by decide) (by decide)
    (by decide) (by decide)

/-- C20 (what the code does): bounds safety.  The size of a range bitmap is
`(end - begin + step - 1) / step` in `int`, and the sum wraps:
`NewBitmapWithRang(0, 10, MaxInt64)` returns a bitmap of size 0, which accepts no
position, although `0 = begin + 0 * step` is below `end`.  Everything else is as the
claim says.  For every built bitmap every position that `encodePos` or `tryEncodePos`
accepts maps to a byte index within `[0, len(data))`, so `Set`, `Clear`, `IsSet` return
on every accepted position and the `Try` variants on every position: none of them
indexes outside the byte slice.  And when `end - begin + step - 1` does not leave the
type `int`, the positions of type `int` that a range bitmap with `begin ≤ end` and
`step > 0` accepts are exactly `begin + i * step`, `i ≥ 0`, strictly below `end`. -/
theorem C20_bounds_safety :
    (Built overflowRange ∧
        NewBitmapWithRang 0 10 9223372036854775807 = some overflowRange ∧
        overflowRange.size = 0 ∧ overflowRange.data.length = 2 ∧
        overflowRange.encodePos 0 = none ∧ overflowRange.Set 0 = none ∧
        overflowRange.IsSet 0 = none ∧
        overflowRange.TrySet 0 = some (overflowRange, some errOutOfBounds) ∧
        (∀ pos, overflowRange.encodePos pos = none) ∧
        (0 : Int) = 0 + 0 * 9223372036854775807 ∧ (0 : Int) < 10) ∧
      (∀ b, Built b → ∀ pos bit,
        (b.encodePos pos = some bit ∨ b.tryEncodePos pos = some (bit, none)) →
          0 ≤ Int.tdiv bit 8 ∧ (Int.tdiv bit 8).toNat < b.data.length ∧
            (b.byteAt (Int.tdiv bit 8)).isSome = true) ∧
      (∀ b, Built b → ∀ pos, (b.encodePos pos).isSome = true →
        (b.Set pos).isSome = true ∧ (b.Clear pos).isSome = true ∧
          (b.IsSet pos).isSome = true) ∧
      (∀ b, Built b → ∀ pos, (b.TrySet pos).isSome = true ∧ (b.TryClear pos).isSome = true ∧
        (b.IsSetWithErr pos).isSome = true) ∧
      (∀ first last step b, IsInt64 first → IsInt64 last → IsInt64 step →
        first ≤ last → 0 < step → last - first + step - 1 < 9223372036854775808 →
        NewBitmapWithRang first last step = some b →
          ∀ pos, IsInt64 pos → ((b.encodePos pos).isSome = true ↔
            ∃ i : Int, 0 ≤ i ∧ pos = first + i * step ∧ pos < last)) := by
  refine ⟨⟨built_overflowRange, by decide, by decide, by decide, by decide, by decide,
    by decide, by decide, ?_, by decide, by decide⟩, ?_, ?_, ?_, ?_⟩
  · intro pos
    have hs : (0 : Int) < overflowRange.step := by decide
    rw [encodePos_none overflowRange hs pos]
    have hsz : overflowRange.size = 0 := by decide
    rw [hsz]
    by_cases h : Int.tdiv (wrap64 (pos - overflowRange.offset)) overflowRange.step < 0
    · exact Or.inr (Or.inl h)
    · exact Or.inr (Or.inr (by omega))
  · intro b hb pos bit h
    have hwf := built_wf b hb
    have henc : b.encodePos pos = some bit := by
      rcases h with h | h
      · exact h
      · rw [tryEncodePos_eq b hwf.1 pos] at h
        cases he : b.encodePos pos with
        | none => rw [he] at h; cases h
        | some bit2 => rw [he] at h; cases h; rfl
    obtain ⟨h0, h1, -⟩ := (encodePos_some b hwf.1 pos bit).mp henc
    obtain ⟨e1, -, e3⟩ := byte_bit_index bit h0
    obtain ⟨hlt, hby⟩ := byteAt_of_bit b hwf bit h0 h1
    exact ⟨e3, by rw [e1]; exact hlt, by rw [hby]; rfl⟩
  · intro b hb pos hp
    obtain ⟨hset, hclear, hisset⟩ := ops_eq b (built_wf b hb) pos
    obtain ⟨bit, henc⟩ := Option.isSome_iff_exists.mp hp
    rw [hset, hclear, hisset, henc]
    exact ⟨rfl, rfl, rfl⟩
  · intro b hb pos
    obtain ⟨h1, h2, h3⟩ := try_ops_eq b (built_wf b hb) pos
    rw [h1, h2, h3]
    exact ⟨rfl, rfl, rfl⟩
  · intro first last step b hf hl hst hle hs hfit hb pos hpi
    obtain ⟨-, hsize, hstep, hoff, -, -⟩ := newBitmapWithRang_some first last step b hb
    have hdist : wrap64 (last - first) = last - first :=
      wrap64_of_isInt64 _ (by unfold IsInt64; omega)
    have hsum : wrap64 (wrap64 (wrap64 (last - first) + step) - 1)
        = last - first + step - 1 := by
      rw [hdist, wrap64_sub_left]
      exact wrap64_of_isInt64 _ (by unfold IsInt64; omega)
    have hsz : b.size = (last - first + step - 1) / step := by
      rw [hsize, hsum, div64_pos _ _ (by unfold IsInt64; omega) hs,
        Int.tdiv_eq_ediv (by omega) (le_of_lt hs)]
    have hsb : 0 < b.step := by rw [hstep]; exact hs
    constructor
    · intro hp
      obtain ⟨bit, henc⟩ := Option.isSome_iff_exists.mp hp
      obtain ⟨h0, h1, hpos⟩ := (encodePos_some b hsb pos bit).mp henc
      rw [hsz] at h1
      rw [hstep, hoff] at hpos
      have h2 : bit + 1 ≤ (last - first + step - 1) / step := by omega
      have h3 := (Int.le_ediv_iff_mul_le hs).mp h2
      have e : (bit + 1) * step = bit * step + step := by ring
      rw [e] at h3
      have hnn : 0 ≤ bit * step := mul_nonneg h0 (le_of_lt hs)
      have hpe : pos = first + bit * step := by
        generalize bit * step = X at *
        unfold wrap64 at hpos
        unfold IsInt64 at hpi hf hl
        omega
      exact ⟨bit, h0, hpe, by omega⟩
    · rintro ⟨i, hi0, hpi2, hlt⟩
      have h3 : (i + 1) * step ≤ last - first + step - 1 := by
        have e : (i + 1) * step = i * step + step := by ring
        omega
      have h2 := (Int.le_ediv_iff_mul_le hs).mpr h3
      have hnn : 0 ≤ i * step := mul_nonneg hi0 (le_of_lt hs)
      have henc : b.encodePos pos = some i := by
        refine (encodePos_some b hsb pos i).mpr ⟨hi0, by rw [hsz]; omega, ?_⟩
        rw [hstep, hoff, hpi2]
        have : first + i * step - first = i * step := by ring
        rw [this]
        exact wrap64_of_isInt64 _ (by unfold IsInt64; omega)
      rw [henc]; rfl

/-- Witness of the range part of C20: the positions `NewBitmapWithRang(10, 30, 5)`
accepts are 10, 15, 20 and 25. -/
theorem C20_bounds_safety_witness :
    NewBitmapWithRang 10 30 5 = some demoRange ∧
      ((demoRange.encodePos 25).isSome = true ↔
        ∃ i : Int, 0 ≤ i ∧ (25 : Int) = 10 + i * 5 ∧ (25 : Int) < 30) ∧
      ((demoRange.encodePos 30).isSome = true ↔
        ∃ i : Int, 0 ≤ i ∧ (30 : Int) = 10 + i * 5 ∧ (30 : Int) < 30) ∧
      (demoRange.Set 25).isSome = true :=
  ⟨by decide,
    C20_bounds_safety.2.2.2.2 10 30 5 demoRange (by decide) (by decide) (by decide)
      (by decide) (by decide) (by decide) (by decide) 25 (by decide),
    C20_bounds_safety.2.2.2.2 10 30 5 demoRange (by decide) (by decide) (by decide)
      (by decide) (by decide) (by decide) (by decide) 30 (by decide),
    (C20_bounds_safety.2.2.1 demoRange
      (Built.newBitmapWithRang 10 30 5 demoRange (by decide) (by decide) (by decide)
        (by decide)) 25 (by decide)).1⟩

end bitmap

end Utils
